import Mathlib

/-!
# Pathfinding (robertjaymyers/Pathfinding, `Pathfinding.cpp`)

A shallow embedding of `generateRandomGrid`: the pathfinding part (the
`while (searching)` loop, `eraseDuplicateNodes`, and the trace loop that walks
the Start marker to the Goal) and the generation part (fill, start token,
destination token, carving loop), followed by theorems about them.

Conventions of the embedding
* `int` values are modelled by `Int` (all values stay within the grid size, so
  32-bit wrap-around never occurs on a grid that fits in memory).
* `std::vector` is `List`; an out-of-range `operator[]` is undefined behaviour
  in C++ and is modelled by the outcome `fault`.
* The two unbounded `while` loops take a fuel argument (number of iterations
  of the loop body that may be run); `outOfFuel` means that the loop has not
  exited within that many iterations.
* The grid is indexed `grid[y][x]` exactly as in the source; `cols` is the
  length of the outer vector and `rows` the length of each inner vector.
* The random engine is an explicit list of raw draws, one per call `dist(mt)`.
* Printing and the one-second sleep of the trace are left out.
-/

namespace Pathfinding

/-! ## Data model -/

/-- The `struct coordinate` of the source. -/
structure coordinate where
  x : Int
  y : Int
  moveNum : Int
deriving DecidableEq

/-- The grid `std::vector<std::vector<std::string>>`, indexed `grid[y][x]`. -/
abbrev Grid := List (List String)

/-- Result of running a piece of the program. -/
inductive Outcome (α : Type) where
  | ok : α → Outcome α
  | fault : Outcome α
  | outOfFuel : Outcome α
deriving DecidableEq

/-- Read access `grid[y][x]`; `none` when an index is out of range. -/
def cellAt (grid : Grid) (y x : Int) : Option String :=
  if 0 ≤ y ∧ 0 ≤ x then
    match grid.get? y.toNat with
    | some row => row.get? x.toNat
    | none => none
  else none

/-- Write access `grid[y][x] = s`; `none` when an index is out of range. -/
def setCell (grid : Grid) (y x : Int) (s : String) : Option Grid :=
  if 0 ≤ y ∧ 0 ≤ x then
    match grid.get? y.toNat with
    | some row =>
      if x.toNat < row.length then some (grid.set y.toNat (row.set x.toNat s)) else none
    | none => none
  else none

/-! ## `eraseDuplicateNodes` -/

/-- The `for move` loop of `eraseDuplicateNodes`: does `pathMovesList` hold an
entry at the position of `c` whose `moveNum` is at most that of `c`? -/
def hasShorterMove (pathMovesList : List coordinate) (c : coordinate) : Bool :=
  pathMovesList.any fun m =>
    decide (m.x = c.x) && decide (m.y = c.y) && decide (m.moveNum ≤ c.moveNum)

/-- What one sweep of the `for adj` loop of `eraseDuplicateNodes` finds. -/
inductive Sweep where
  | eraseAt : Nat → Sweep
  | clean : Sweep
  | fault : Sweep
deriving DecidableEq

/-- The `for adj` loop of `eraseDuplicateNodes`, from index `adj` on (the
argument list is the part of `adjacents` from that index): it stops at the
first candidate that is on an "X" or "O" cell or that `pathMovesList` already
holds with a `moveNum` not larger. -/
def sweepAdjacents (grid : Grid) (pathMovesList : List coordinate) :
    List coordinate → Nat → Sweep
  | [], _ => Sweep.clean
  | c :: rest, adj =>
    match cellAt grid c.y c.x with
    | none => Sweep.fault
    | some s =>
      if s = "X" ∨ s = "O" then Sweep.eraseAt adj
      else if hasShorterMove pathMovesList c then Sweep.eraseAt adj
      else sweepAdjacents grid pathMovesList rest (adj + 1)

/-- The recursion of `eraseDuplicateNodes`: sweep, erase the first disqualified
candidate, and start again on the shorter list. `fuel` bounds the recursion
depth. -/
def eraseDuplicateNodesFuel (grid : Grid) (pathMovesList : List coordinate) :
    Nat → List coordinate → Outcome (List coordinate)
  | 0, _ => Outcome.outOfFuel
  | fuel + 1, adjacents =>
    match sweepAdjacents grid pathMovesList adjacents 0 with
    | Sweep.fault => Outcome.fault
    | Sweep.clean => Outcome.ok adjacents
    | Sweep.eraseAt adj =>
      eraseDuplicateNodesFuel grid pathMovesList fuel (adjacents.eraseIdx adj)

/-- The function `eraseDuplicateNodes`; the result is the final content of
`adjacents` (`pathMovesList` is only read). Every recursive call works on a
list one shorter, so a depth of `adjacents.size() + 1` is never exceeded. -/
def eraseDuplicateNodes (grid : Grid) (pathMovesList adjacents : List coordinate) :
    Outcome (List coordinate) :=
  eraseDuplicateNodesFuel grid pathMovesList (adjacents.length + 1) adjacents

/-! ## The search loop -/

/-- The four candidates built from `pathMovesList[i]`, in the order of
`enum Dirs { UP, DOWN, LEFT, RIGHT }`. -/
def adjacentsOf (e : coordinate) : List coordinate :=
  [ { x := e.x, y := e.y - 1, moveNum := e.moveNum + 1 },
    { x := e.x, y := e.y + 1, moveNum := e.moveNum + 1 },
    { x := e.x - 1, y := e.y, moveNum := e.moveNum + 1 },
    { x := e.x + 1, y := e.y, moveNum := e.moveNum + 1 } ]

/-- The variables the search loop changes. -/
structure SearchState where
  pathMovesList : List coordinate
  searching : Bool
deriving DecidableEq

/-- One iteration (index `i`) of the `for i` loop of the search. -/
def searchBody (grid : Grid) (posStartX posStartY : Int) (i : Nat) (st : SearchState) :
    Outcome SearchState :=
  match st.pathMovesList.get? i with
  | none => Outcome.fault
  | some e =>
    if e.x = posStartX ∧ e.y = posStartY then
      Outcome.ok { st with searching := false }
    else
      match eraseDuplicateNodes grid st.pathMovesList (adjacentsOf e) with
      | Outcome.ok adjacents =>
        Outcome.ok { st with pathMovesList := st.pathMovesList ++ adjacents }
      | Outcome.fault => Outcome.fault
      | Outcome.outOfFuel => Outcome.outOfFuel

/-- Iterations `i, i + 1, ..., i + n - 1` of the `for i` loop. -/
def searchFor (grid : Grid) (posStartX posStartY : Int) :
    Nat → Nat → SearchState → Outcome SearchState
  | 0, _, st => Outcome.ok st
  | n + 1, i, st =>
    match searchBody grid posStartX posStartY i st with
    | Outcome.ok st' => searchFor grid posStartX posStartY n (i + 1) st'
    | Outcome.fault => Outcome.fault
    | Outcome.outOfFuel => Outcome.outOfFuel

/-- One pass of `while (searching)`: the `for i` loop over the
`movesList_Len` entries the list has when the pass begins. -/
def searchPass (grid : Grid) (posStartX posStartY : Int) (pathMovesList : List coordinate) :
    Outcome SearchState :=
  searchFor grid posStartX posStartY pathMovesList.length 0
    { pathMovesList := pathMovesList, searching := true }

/-- The loop `while (searching)`, run for at most `fuel` passes; the result is
`pathMovesList` at loop exit. -/
def searchLoop (grid : Grid) (posStartX posStartY : Int) :
    Nat → List coordinate → Outcome (List coordinate)
  | 0, _ => Outcome.outOfFuel
  | fuel + 1, pathMovesList =>
    match searchPass grid posStartX posStartY pathMovesList with
    | Outcome.ok st =>
      if st.searching then searchLoop grid posStartX posStartY fuel st.pathMovesList
      else Outcome.ok st.pathMovesList
    | Outcome.fault => Outcome.fault
    | Outcome.outOfFuel => Outcome.outOfFuel

/-- The list the search starts from: the Goal position with `moveNum` 0. -/
def initialMoves (posDestX posDestY : Int) : List coordinate :=
  [{ x := posDestX, y := posDestY, moveNum := 0 }]

/-- The list after `p` complete passes, all of which left `searching` true. -/
def passesRun (grid : Grid) (posStartX posStartY : Int) :
    Nat → List coordinate → Option (List coordinate)
  | 0, pathMovesList => some pathMovesList
  | p + 1, pathMovesList =>
    match searchPass grid posStartX posStartY pathMovesList with
    | Outcome.ok st =>
      if st.searching then passesRun grid posStartX posStartY p st.pathMovesList else none
    | _ => none

/-- The states the search goes through: `p` complete passes followed by the
first `k` iterations of the next pass. -/
def AtSearchPoint (grid : Grid) (posStartX posStartY posDestX posDestY : Int)
    (st : SearchState) : Prop :=
  ∃ p k pml, passesRun grid posStartX posStartY p (initialMoves posDestX posDestY) = some pml ∧
    k ≤ pml.length ∧
    searchFor grid posStartX posStartY k 0 { pathMovesList := pml, searching := true }
      = Outcome.ok st

/-! ## The trace loop -/

/-- The variables the trace loop changes, and `visited`, a ghost record of the
positions `(posStartX, posStartY)` has taken, most recent first. -/
structure TraceState where
  grid : Grid
  posStartX : Int
  posStartY : Int
  movesUsed : Int
  visited : List (Int × Int)
deriving DecidableEq

/-- The four statements shared by the branches of the trace loop: blank the
cell left, move, mark the new cell "S", count the move. -/
def moveTo (st : TraceState) (newX newY : Int) : Outcome TraceState :=
  match setCell st.grid st.posStartY st.posStartX "_" with
  | none => Outcome.fault
  | some g1 =>
    match setCell g1 newY newX "S" with
    | none => Outcome.fault
    | some g2 =>
      Outcome.ok { grid := g2, posStartX := newX, posStartY := newY,
                   movesUsed := st.movesUsed + 1, visited := (newX, newY) :: st.visited }

/-- The `for next` loop of the trace over the entries not yet looked at; a
branch that moves sets `next = complete_Len`, which ends the loop. -/
def traceFor : List coordinate → TraceState → Outcome TraceState
  | [], st => Outcome.ok st
  | e :: rest, st =>
    if st.posStartY - 1 = e.y ∧ st.posStartX = e.x then
      moveTo st st.posStartX (st.posStartY - 1)
    else if st.posStartY + 1 = e.y ∧ st.posStartX = e.x then
      moveTo st st.posStartX (st.posStartY + 1)
    else if st.posStartY = e.y ∧ st.posStartX - 1 = e.x then
      moveTo st (st.posStartX - 1) st.posStartY
    else if st.posStartY = e.y ∧ st.posStartX + 1 = e.x then
      moveTo st (st.posStartX + 1) st.posStartY
    else traceFor rest st

/-- The loop `while (posStartX != posDestX || posStartY != posDestY)`, run for
at most `fuel` iterations of its body. -/
def traceLoop (pathMovesList : List coordinate) (posDestX posDestY : Int) :
    Nat → TraceState → Outcome TraceState
  | 0, st =>
    if st.posStartX ≠ posDestX ∨ st.posStartY ≠ posDestY then Outcome.outOfFuel
    else Outcome.ok st
  | fuel + 1, st =>
    if st.posStartX ≠ posDestX ∨ st.posStartY ≠ posDestY then
      match traceFor pathMovesList st with
      | Outcome.ok st' => traceLoop pathMovesList posDestX posDestY fuel st'
      | Outcome.fault => Outcome.fault
      | Outcome.outOfFuel => Outcome.outOfFuel
    else Outcome.ok st

/-- The state in which the trace loop is entered (`movesUsed = 0`). -/
def traceStart (grid : Grid) (posStartX posStartY : Int) : TraceState :=
  { grid := grid, posStartX := posStartX, posStartY := posStartY, movesUsed := 0,
    visited := [(posStartX, posStartY)] }

/-- The pathfinding part of `generateRandomGrid`: the search loop followed by
the trace loop, each allowed `fuel` iterations. -/
def pathfind (grid : Grid) (posStartX posStartY posDestX posDestY : Int) (fuel : Nat) :
    Outcome TraceState :=
  match searchLoop grid posStartX posStartY fuel (initialMoves posDestX posDestY) with
  | Outcome.ok pathMovesList =>
    traceLoop pathMovesList posDestX posDestY fuel (traceStart grid posStartX posStartY)
  | Outcome.fault => Outcome.fault
  | Outcome.outOfFuel => Outcome.outOfFuel

/-! ## Vocabulary of the specification -/

/-- Is `(x, y)` a cell of the grid that is not "X"? -/
def passable (grid : Grid) (x y : Int) : Bool :=
  match cellAt grid y x with
  | some s => decide (s ≠ "X")
  | none => false

/-- Two positions `(x, y)` are 4-adjacent: they differ by one in exactly one
coordinate. -/
def adjacent4 (p q : Int × Int) : Prop :=
  (p.1 = q.1 ∧ (p.2 = q.2 + 1 ∨ p.2 + 1 = q.2)) ∨
  (p.2 = q.2 ∧ (p.1 = q.1 + 1 ∨ p.1 + 1 = q.1))

instance adjacent4Decidable (p q : Int × Int) : Decidable (adjacent4 p q) := by
  unfold adjacent4; infer_instance

/-- `Walk grid p q n`: there is a sequence of `n` 4-directional moves from `p`
to `q` all of whose cells (both ends included) are cells of the grid that are
not "X". -/
inductive Walk (grid : Grid) : Int × Int → Int × Int → Nat → Prop where
  | start (p : Int × Int) : passable grid p.1 p.2 = true → Walk grid p p 0
  | step {p q r : Int × Int} {n : Nat} :
      Walk grid p q n → adjacent4 q r → passable grid r.1 r.2 = true → Walk grid p r (n + 1)

/-- `n` is the minimum number of 4-directional moves from `p` to `q` through
cells that are not "X". -/
def IsDistance (grid : Grid) (p q : Int × Int) (n : Nat) : Prop :=
  Walk grid p q n ∧ ∀ m, Walk grid p q m → n ≤ m

/-- The grid is rectangular: `cols` inner vectors of `rows` cells each. -/
def isRectangular (grid : Grid) (rows cols : Nat) : Bool :=
  decide (grid.length = cols) && grid.all fun row => decide (row.length = rows)

/-- Every border cell (first or last index on either axis) is "X". -/
def borderAllX (grid : Grid) (rows cols : Nat) : Bool :=
  (List.range cols).all fun y => (List.range rows).all fun x =>
    if y = 0 ∨ y + 1 = cols ∨ x = 0 ∨ x + 1 = rows then
      decide (cellAt grid (y : Int) (x : Int) = some "X")
    else true

/-- The cell at `(posDestX, posDestY)` is "O" and no other cell is. -/
def onlyGoalIsO (grid : Grid) (rows cols : Nat) (posDestX posDestY : Int) : Bool :=
  decide (cellAt grid posDestY posDestX = some "O") &&
  (List.range cols).all fun y => (List.range rows).all fun x =>
    if cellAt grid (y : Int) (x : Int) = some "O" then
      decide ((x : Int) = posDestX ∧ (y : Int) = posDestY)
    else true

/-- A valid grid with its Start and Goal positions: rectangular, every border
cell "X", the Goal cell the only "O", the Start cell not "X" and different
from the Goal, and Start connected to Goal by 4-adjacent cells that are not
"X". (A cell that is not "X" is interior, because the border is all "X".) -/
structure ValidGrid (grid : Grid) (rows cols : Nat)
    (posStartX posStartY posDestX posDestY : Int) : Prop where
  rect : isRectangular grid rows cols = true
  border : borderAllX grid rows cols = true
  goalO : onlyGoalIsO grid rows cols posDestX posDestY = true
  startOpen : passable grid posStartX posStartY = true
  startNeGoal : (posStartX, posStartY) ≠ (posDestX, posDestY)
  connected : ∃ n, Walk grid (posStartX, posStartY) (posDestX, posDestY) n

/-- Does `pathMovesList` hold an entry at position `p`? -/
def Recorded (pathMovesList : List coordinate) (p : Int × Int) : Prop :=
  ∃ e ∈ pathMovesList, e.x = p.1 ∧ e.y = p.2

/-- The candidates that `eraseDuplicateNodes` leaves in `adjacents`: those on a
cell of the grid that is neither "X" nor "O" and for which `pathMovesList` has
no entry at the same position with a `moveNum` not larger. -/
def keepCandidate (grid : Grid) (pathMovesList : List coordinate) (c : coordinate) : Bool :=
  match cellAt grid c.y c.x with
  | some s => decide (s ≠ "X") && decide (s ≠ "O") && !hasShorterMove pathMovesList c
  | none => false

/-! ## Invariants of the search -/

/-- Every entry of the list carries the true distance of its position from the
Goal position `g`. -/
def Sound (grid : Grid) (g : Int × Int) (pathMovesList : List coordinate) : Prop :=
  ∀ e ∈ pathMovesList, ∃ n : Nat, e.moveNum = (n : Int) ∧ IsDistance grid g (e.x, e.y) n

/-- Every position that can be reached from `g` in at most `k` moves has an
entry in the list. -/
def CompleteTo (grid : Grid) (g : Int × Int) (k : Nat) (pathMovesList : List coordinate) :
    Prop :=
  ∀ p n, Walk grid g p n → n ≤ k → Recorded pathMovesList p

/-- The `moveNum` values do not decrease along the list. -/
def LevelSorted (pathMovesList : List coordinate) : Prop :=
  pathMovesList.Pairwise fun a b => a.moveNum ≤ b.moveNum

/-- What holds of the list when a pass begins after `k` complete passes. -/
structure LevelInv (grid : Grid) (g : Int × Int) (k : Nat) (pathMovesList : List coordinate) :
    Prop where
  sound : Sound grid g pathMovesList
  complete : CompleteTo grid g k pathMovesList
  bounded : ∀ e ∈ pathMovesList, e.moveNum ≤ (k : Int)
  sorted : LevelSorted pathMovesList

/-- The list holds the Goal entry `(posDestX, posDestY, 0)` at index 0 and no
other entry at the Goal position. -/
def GoalOnce (posDestX posDestY : Int) (pathMovesList : List coordinate) : Prop :=
  ∃ tail, pathMovesList = { x := posDestX, y := posDestY, moveNum := 0 } :: tail ∧
    ∀ e ∈ tail, ¬ (e.x = posDestX ∧ e.y = posDestY)

/-- What holds inside a pass, when the `for i` loop is about to run iteration
`i`; `L0` is the list with which the pass began, `k` the number of complete
passes before it. -/
structure PassInv (grid : Grid) (g start : Int × Int) (k : Nat) (L0 : List coordinate)
    (i : Nat) (st : SearchState) : Prop where
  ext : ∃ N, st.pathMovesList = L0 ++ N ∧ ∀ e ∈ N, e.moveNum = (k : Int) + 1
  sound : Sound grid g st.pathMovesList
  expanded : ∀ j e, j < i → L0.get? j = some e →
    ((e.x = start.1 ∧ e.y = start.2) → st.searching = false) ∧
    (¬ (e.x = start.1 ∧ e.y = start.2) → ∀ q, adjacent4 (e.x, e.y) q →
      passable grid q.1 q.2 = true → Recorded st.pathMovesList q)
  found : st.searching = false → Recorded L0 start

/-- What holds of the list with which the search loop exits, `d` being the
distance of the Start position from the Goal position `g`. -/
structure SearchFinal (grid : Grid) (g : Int × Int) (d : Nat) (pathMovesList : List coordinate) :
    Prop where
  sound : Sound grid g pathMovesList
  sorted : LevelSorted pathMovesList
  complete : CompleteTo grid g d pathMovesList

/-! ## Vocabulary for the trace -/

/-- Is the entry `e` at a position 4-adjacent to `(px, py)`? This is the
disjunction of the four tests (UP, DOWN, LEFT, RIGHT) of the trace loop. -/
def adjacentTo (px py : Int) (e : coordinate) : Bool :=
  decide (adjacent4 (px, py) (e.x, e.y))

/-- The state in which iteration `n + 1` of the trace loop begins, that is the
state after `n` iterations of its body; `none` if the loop has exited (or
faulted) before. -/
def traceIter (pathMovesList : List coordinate) (posDestX posDestY : Int) :
    Nat → TraceState → Option TraceState
  | 0, st => some st
  | n + 1, st =>
    if st.posStartX ≠ posDestX ∨ st.posStartY ≠ posDestY then
      match traceFor pathMovesList st with
      | Outcome.ok st' => traceIter pathMovesList posDestX posDestY n st'
      | _ => none
    else none

/-- What holds of the trace state when the current position is recorded with
`moveNum = m`; `grid0` is the grid before the trace, `d` the `moveNum`
recorded for the Start position `start`. -/
structure TraceInv (grid0 : Grid) (F : List coordinate) (start : Int × Int) (d : Nat)
    (st : TraceState) (m : Nat) : Prop where
  recorded : ∃ e ∈ F, e.x = st.posStartX ∧ e.y = st.posStartY ∧ e.moveNum = (m : Int)
  moves : st.movesUsed + (m : Int) = (d : Int)
  cells : ∀ y x, cellAt st.grid y x ≠ none ↔ cellAt grid0 y x ≠ none
  head : st.visited.head? = some (st.posStartX, st.posStartY)
  last : st.visited.getLast? = some start
  chain : st.visited.Chain' (fun a b => adjacent4 b a)
  length : (st.visited.length : Int) = st.movesUsed + 1

/-! ## Concrete grids -/

/-- The 5x5 scenario: "X" border, open interior except an "X" at (2,2), Start
"S" at (1,1), Goal "O" at (3,3). -/
def gridDetour : Grid :=
  [ ["X", "X", "X", "X", "X"],
    ["X", "S", "_", "_", "X"],
    ["X", "_", "X", "_", "X"],
    ["X", "_", "_", "O", "X"],
    ["X", "X", "X", "X", "X"] ]

/-- A corridor of three cells: Goal "O" at (1,1), Start "S" at (2,1) and an
open cell at (3,1) behind the Start. -/
def gridCorridor : Grid :=
  [ ["X", "X", "X", "X", "X"],
    ["X", "O", "S", "_", "X"],
    ["X", "X", "X", "X", "X"] ]

/-- A grid in which an "X" at (2,1) separates the Goal "O" at (1,1) from the
Start "S" at (3,1). -/
def gridSeparated : Grid :=
  [ ["X", "X", "X", "X", "X"],
    ["X", "O", "X", "S", "X"],
    ["X", "X", "X", "X", "X"] ]

/-! ## The generation part of `generateRandomGrid`

The random source is an explicit input: `draws` lists the raw numbers the
engine `mt` delivers, one per call `dist(mt)`, and `dist lo hi raw` is the
value a `std::uniform_int_distribution<int>(lo, hi)` makes of it, which is
some value of `[lo, hi]` (every value of the range is the image of some raw
number). Every iteration of the two `while` loops of the generation draws at
least once, so the list of draws is also the fuel of these loops: a run that
has not finished when the list is used up yields `outOfFuel`. -/

/-- Apply `f` to the result of a run that ended normally. -/
def Outcome.map {α β : Type} (f : α → β) : Outcome α → Outcome β
  | Outcome.ok a => Outcome.ok (f a)
  | Outcome.fault => Outcome.fault
  | Outcome.outOfFuel => Outcome.outOfFuel

/-- The value `dist(mt)` of a `std::uniform_int_distribution<int> dist(lo, hi)`
for the raw random number `raw`; it lies in `[lo, hi]` when `lo ≤ hi`. -/
def dist (lo hi : Int) (raw : Nat) : Int :=
  lo + (raw : Int) % (hi - lo + 1)

/-- The cells `rowN, rowN + 1, ...` (`n` of them) of the inner vector `colN`
as the fill loop assigns them, with the draws left over. A border cell is "X";
an interior cell is "X" for `typeToPlace == NodeType::BLANK` (1) and "_" for
`NodeType::WALL` (2). -/
def fillRow (rows cols colN : Nat) : Nat → Nat → List Nat → Outcome (List String × List Nat)
  | 0, _, draws => Outcome.ok ([], draws)
  | n + 1, rowN, draws =>
    if colN = 0 ∨ colN = cols - 1 then
      (fillRow rows cols colN n (rowN + 1) draws).map fun r => ("X" :: r.1, r.2)
    else if rowN = 0 ∨ rowN = rows - 1 then
      (fillRow rows cols colN n (rowN + 1) draws).map fun r => ("X" :: r.1, r.2)
    else
      match draws with
      | [] => Outcome.outOfFuel
      | raw :: draws' =>
        (fillRow rows cols colN n (rowN + 1) draws').map fun r =>
          ((if dist 1 2 raw = 1 then "X" else "_") :: r.1, r.2)

/-- The fill loop for the inner vectors `colN, colN + 1, ...` (`n` of them).
`main` passes a grid of `cols` vectors of `rows` strings and the loop assigns
every cell of it, so the grid after the loop is the list of the rows
assigned. -/
def fillGrid (rows cols : Nat) : Nat → Nat → List Nat → Outcome (Grid × List Nat)
  | 0, _, draws => Outcome.ok ([], draws)
  | n + 1, colN, draws =>
    match fillRow rows cols colN rows 0 draws with
    | Outcome.ok (row, draws') =>
      (fillGrid rows cols n (colN + 1) draws').map fun r => (row :: r.1, r.2)
    | Outcome.fault => Outcome.fault
    | Outcome.outOfFuel => Outcome.outOfFuel

/-- The variables of the generation part. -/
structure GenState where
  grid : Grid
  tracePosStartX : Int
  tracePosStartY : Int
  posStartX : Int
  posStartY : Int
  posDestX : Int
  posDestY : Int
deriving DecidableEq

/-- The block "Place start token." -/
def placeStart (rows cols : Nat) (grid : Grid) : List Nat → Outcome (GenState × List Nat)
  | rawRow :: rawCol :: rest =>
    match setCell grid (dist 1 ((cols : Int) - 2) rawCol) (dist 1 ((rows : Int) - 2) rawRow) "S" with
    | some g =>
      Outcome.ok ({ grid := g,
                    tracePosStartX := dist 1 ((rows : Int) - 2) rawRow,
                    tracePosStartY := dist 1 ((cols : Int) - 2) rawCol,
                    posStartX := dist 1 ((rows : Int) - 2) rawRow,
                    posStartY := dist 1 ((cols : Int) - 2) rawCol,
                    posDestX := 0, posDestY := 0 }, rest)
    | none => Outcome.fault
  | _ => Outcome.outOfFuel

/-- The block "Place destination token.": draw positions until one is not on
the "S" cell, and put "O" there. (`posDestX`, `posDestY` are uninitialised
before; the model holds 0 in them.) -/
def placeDest (rows cols : Nat) : List Nat → GenState → Outcome (GenState × List Nat)
  | rawRow :: rawCol :: rest, st =>
    match cellAt st.grid (dist 1 ((cols : Int) - 2) rawCol) (dist 1 ((rows : Int) - 2) rawRow) with
    | none => Outcome.fault
    | some s =>
      if s ≠ "S" then
        match setCell st.grid (dist 1 ((cols : Int) - 2) rawCol)
            (dist 1 ((rows : Int) - 2) rawRow) "O" with
        | some g =>
          Outcome.ok ({ st with grid := g,
                                posDestX := dist 1 ((rows : Int) - 2) rawRow,
                                posDestY := dist 1 ((cols : Int) - 2) rawCol }, rest)
        | none => Outcome.fault
      else placeDest rows cols rest st
  | _, _ => Outcome.outOfFuel

/-- The trace position has just been moved to `(newX, newY)`; the statement
`if (grid[tracePosStartY][tracePosStartX] != "O") grid[...] = "_";`. -/
def carveAt (st : GenState) (newX newY : Int) : Outcome GenState :=
  match cellAt st.grid newY newX with
  | none => Outcome.fault
  | some s =>
    if s ≠ "O" then
      match setCell st.grid newY newX "_" with
      | some g => Outcome.ok { st with grid := g, tracePosStartX := newX, tracePosStartY := newY }
      | none => Outcome.fault
    else Outcome.ok { st with tracePosStartX := newX, tracePosStartY := newY }

/-- One iteration of the carving loop with `axisToMove = dist(1, 2)` of the
draw `raw`; the result holds the draws left over. `Axis::X` is 1, `Axis::Y` is
2, `Inc::ADD` is 1, `Inc::SUB` is 2. -/
def carveBody (rows cols : Nat) (raw : Nat) (rest : List Nat) (st : GenState) :
    Outcome (GenState × List Nat) :=
  if dist 1 2 raw = 1 then
    if st.tracePosStartX < st.posDestX then
      (carveAt st (st.tracePosStartX + 1) st.tracePosStartY).map fun s => (s, rest)
    else if st.tracePosStartX > st.posDestX then
      (carveAt st (st.tracePosStartX - 1) st.tracePosStartY).map fun s => (s, rest)
    else if st.tracePosStartX > 1 ∧ st.tracePosStartX < (rows : Int) - 1 ∧
        |st.tracePosStartX - st.posDestX| < 5 then
      match rest with
      | [] => Outcome.outOfFuel
      | rawInc :: rest' =>
        if dist 1 2 rawInc = 1 then
          (carveAt st (st.tracePosStartX + 1) st.tracePosStartY).map fun s => (s, rest')
        else
          (carveAt st (st.tracePosStartX - 1) st.tracePosStartY).map fun s => (s, rest')
    else Outcome.ok (st, rest)
  else
    if st.tracePosStartY < st.posDestY then
      (carveAt st st.tracePosStartX (st.tracePosStartY + 1)).map fun s => (s, rest)
    else if st.tracePosStartY > st.posDestY then
      (carveAt st st.tracePosStartX (st.tracePosStartY - 1)).map fun s => (s, rest)
    else if st.tracePosStartY > 1 ∧ st.tracePosStartY < (cols : Int) - 1 then
      match rest with
      | [] => Outcome.outOfFuel
      | rawInc :: rest' =>
        if dist 1 2 rawInc = 1 then
          (carveAt st st.tracePosStartX (st.tracePosStartY + 1)).map fun s => (s, rest')
        else
          (carveAt st st.tracePosStartX (st.tracePosStartY - 1)).map fun s => (s, rest')
    else Outcome.ok (st, rest)

/-- The carving loop `while (tracePosStartX != posDestX || tracePosStartY !=
posDestY)`, run for at most `fuel` iterations of its body. -/
def carve (rows cols : Nat) : Nat → List Nat → GenState → Outcome GenState
  | 0, _, st =>
    if st.tracePosStartX ≠ st.posDestX ∨ st.tracePosStartY ≠ st.posDestY then Outcome.outOfFuel
    else Outcome.ok st
  | fuel + 1, draws, st =>
    if st.tracePosStartX ≠ st.posDestX ∨ st.tracePosStartY ≠ st.posDestY then
      match draws with
      | [] => Outcome.outOfFuel
      | raw :: rest =>
        match carveBody rows cols raw rest st with
        | Outcome.ok (st', rest') => carve rows cols fuel rest' st'
        | Outcome.fault => Outcome.fault
        | Outcome.outOfFuel => Outcome.outOfFuel
    else Outcome.ok st

/-- The generation part of `generateRandomGrid(grid, rows, cols)`: fill, place
the start token, place the destination token, carve. Each iteration of the
carving loop uses at least one draw, so `draws.length` iterations are never
exceeded before the draws run out. -/
def generate (rows cols : Nat) (draws : List Nat) : Outcome GenState :=
  match fillGrid rows cols cols 0 draws with
  | Outcome.ok (grid, draws1) =>
    match placeStart rows cols grid draws1 with
    | Outcome.ok (st, draws2) =>
      match placeDest rows cols draws2 st with
      | Outcome.ok (st', draws3) => carve rows cols draws3.length draws3 st'
      | Outcome.fault => Outcome.fault
      | Outcome.outOfFuel => Outcome.outOfFuel
    | Outcome.fault => Outcome.fault
    | Outcome.outOfFuel => Outcome.outOfFuel
  | Outcome.fault => Outcome.fault
  | Outcome.outOfFuel => Outcome.outOfFuel

/-! ## Vocabulary for the order of the list and for the trace's choice -/

/-- No two entries of the list are at the same position. -/
def DistinctPos (pathMovesList : List coordinate) : Prop :=
  pathMovesList.Pairwise fun a b => ¬ (a.x = b.x ∧ a.y = b.y)

/-- From one entry of the list to the next `moveNum` does not decrease and
grows by at most 1. -/
def LevelSteps (pathMovesList : List coordinate) : Prop :=
  pathMovesList.Chain' fun a b => a.moveNum ≤ b.moveNum ∧ b.moveNum ≤ a.moveNum + 1

/-- The position `(x, y)` is an interior cell of a grid of `cols` vectors of
`rows` cells. -/
def InteriorPos (rows cols : Nat) (x y : Int) : Prop :=
  1 ≤ x ∧ x + 1 < (rows : Int) ∧ 1 ≤ y ∧ y + 1 < (cols : Int)

instance interiorPosDecidable (rows cols : Nat) (x y : Int) :
    Decidable (InteriorPos rows cols x y) := by
  unfold InteriorPos; infer_instance

/-- What holds of the list when a pass begins after `k` complete passes, on
any rectangular grid with an all-"X" border and an interior Goal: level
order, distinct interior positions, and every entry below level `k` has had
all its candidates disqualified. -/
structure QueueInv (grid : Grid) (rows cols : Nat) (k : Nat) (L : List coordinate) : Prop where
  sorted : LevelSorted L
  steps : LevelSteps L
  distinct : DistinctPos L
  interior : ∀ e ∈ L, InteriorPos rows cols e.x e.y
  bounded : ∀ e ∈ L, e.moveNum ≤ (k : Int)
  closed : ∀ e ∈ L, e.moveNum < (k : Int) →
    ∀ c ∈ adjacentsOf e, keepCandidate grid L c = false

/-- What holds inside a pass that began with the list `L0` after `k` complete
passes, when the `for i` loop is about to run iteration `i`. -/
structure QueuePassInv (grid : Grid) (rows cols : Nat) (start : Int × Int) (k : Nat)
    (L0 : List coordinate) (i : Nat) (st : SearchState) : Prop where
  ext : ∃ N, st.pathMovesList = L0 ++ N ∧ ∀ e ∈ N, e.moveNum = (k : Int) + 1
  steps : LevelSteps st.pathMovesList
  distinct : DistinctPos st.pathMovesList
  interior : ∀ e ∈ st.pathMovesList, InteriorPos rows cols e.x e.y
  expanded : ∀ j e, j < i → L0.get? j = some e →
    ((e.x = start.1 ∧ e.y = start.2) → st.searching = false) ∧
    (¬ (e.x = start.1 ∧ e.y = start.2) →
      ∀ c ∈ adjacentsOf e, keepCandidate grid st.pathMovesList c = false)

/-- Following the words of the specification's tie-break policy: among the
four neighbours of `(px, py)`, in the fixed priority up, down, left, right,
the first one that `pathMovesList` records with a `moveNum` exactly one less
than `m`. -/
def priorityChoice (pathMovesList : List coordinate) (px py m : Int) : Option (Int × Int) :=
  [(px, py - 1), (px, py + 1), (px - 1, py), (px + 1, py)].find? fun q =>
    pathMovesList.any fun e =>
      decide (e.x = q.1) && decide (e.y = q.2) && decide (e.moveNum = m - 1)

/-- The cell at `(posStartX, posStartY)` is "S" and no other cell is. -/
def onlyStartIsS (grid : Grid) (rows cols : Nat) (posStartX posStartY : Int) : Bool :=
  decide (cellAt grid posStartY posStartX = some "S") &&
  (List.range cols).all fun y => (List.range rows).all fun x =>
    if cellAt grid (y : Int) (x : Int) = some "S" then
      decide ((x : Int) = posStartX ∧ (y : Int) = posStartY)
    else true

/-- How the trace has changed the grid `grid0`: the current position holds
"S", every other position visited holds "_", every other cell is as in
`grid0`. -/
structure TraceFrame (grid0 : Grid) (start : Int × Int) (st : TraceState) : Prop where
  cells : ∀ y x, cellAt st.grid y x =
    if x = st.posStartX ∧ y = st.posStartY then some "S"
    else if (x, y) ∈ st.visited then some "_"
    else cellAt grid0 y x
  startVisited : start ∈ st.visited
  curVisited : (st.posStartX, st.posStartY) ∈ st.visited

/-- What holds of the generation state while the corridor is carved on a grid
of `cols` vectors of `rows` cells: the vectors keep their sizes, the trace
position stays inside the grid, the destination is an interior cell, the only
"O", and different from the start position, and the cells walked so far are
not "X". -/
structure CarveInv (rows cols : Nat) (st : GenState) : Prop where
  shape : ∀ y x, cellAt st.grid y x ≠ none ↔
    (0 ≤ y ∧ y < (cols : Int) ∧ 0 ≤ x ∧ x < (rows : Int))
  traceIn : 1 ≤ st.tracePosStartX ∧ st.tracePosStartX ≤ (rows : Int) - 1 ∧
    1 ≤ st.tracePosStartY ∧ st.tracePosStartY ≤ (cols : Int) - 1
  destIn : 1 ≤ st.posDestX ∧ st.posDestX ≤ (rows : Int) - 2 ∧
    1 ≤ st.posDestY ∧ st.posDestY ≤ (cols : Int) - 2
  goalO : cellAt st.grid st.posDestY st.posDestX = some "O"
  onlyO : ∀ y x, cellAt st.grid y x = some "O" → x = st.posDestX ∧ y = st.posDestY
  startNeDest : ¬ (st.posDestX = st.posStartX ∧ st.posDestY = st.posStartY)
  walk : ∃ n, Walk st.grid (st.posStartX, st.posStartY)
    (st.tracePosStartX, st.tracePosStartY) n

/-! ## Concrete runs of the generation -/

/-- Raw draws of a run on the 10x10 grid of `main`: all 64 interior cells are
filled with "X" (`typeToPlace` 1); the start token is drawn at `posRow` 8,
`posCol` 1 and the destination token at `posRow` 8, `posCol` 8; the carving
loop draws `Axis::X`, `Inc::ADD`, then `Axis::X`, then seven times
`Axis::Y`. -/
def drawsBorder : List Nat :=
  List.replicate 64 0 ++ [7, 0, 7, 7, 0, 0, 0] ++ List.replicate 7 1

/-- Raw draws of a run on the 10x10 grid of `main` that differs from
`drawsBorder` in the second draw of the carving loop only: `Inc::SUB`. -/
def drawsLostStart : List Nat :=
  List.replicate 64 0 ++ [7, 0, 7, 7, 0, 1, 0] ++ List.replicate 7 1

/-- Raw draws of a run on a 4x4 grid: interior cells "X", "_", "_", "X", start
token at `posRow` 1, `posCol` 1, destination token at `posRow` 2, `posCol` 2,
then `Axis::X` and `Axis::Y`. -/
def drawsSmall : List Nat := [0, 1, 1, 0, 0, 0, 1, 1, 0, 1]

/-! # Lemmas -/

/-! ## Grid lemmas -/

theorem cellAt_eq_some {grid : Grid} {y x : Int} {s : String} (h : cellAt grid y x = some s) :
    0 ≤ y ∧ 0 ≤ x ∧ ∃ row, grid.get? y.toNat = some row ∧ row.get? x.toNat = some s := by
  unfold cellAt at h
  split at h
  · rename_i hyx
    refine ⟨hyx.1, hyx.2, ?_⟩
    split at h
    · rename_i row hrow
      exact ⟨row, hrow, h⟩
    · cases h
  · cases h

theorem cellAt_isSome_of_rect {grid : Grid} {rows cols : Nat}
    (hrect : isRectangular grid rows cols = true) {y x : Int}
    (hy0 : 0 ≤ y) (hy : y < cols) (hx0 : 0 ≤ x) (hx : x < rows) :
    ∃ s, cellAt grid y x = some s := by
  simp only [isRectangular, Bool.and_eq_true, decide_eq_true_eq, List.all_eq_true] at hrect
  obtain ⟨hlen, hrows⟩ := hrect
  have hyn : y.toNat < grid.length := by omega
  have hrow : grid.get? y.toNat = some (grid.get ⟨y.toNat, hyn⟩) := List.get?_eq_get hyn
  have hmem : grid.get ⟨y.toNat, hyn⟩ ∈ grid := List.get_mem _ _ _
  have hrl := hrows _ hmem
  have hxn : x.toNat < (grid.get ⟨y.toNat, hyn⟩).length := by omega
  refine ⟨(grid.get ⟨y.toNat, hyn⟩).get ⟨x.toNat, hxn⟩, ?_⟩
  unfold cellAt
  rw [if_pos ⟨hy0, hx0⟩, hrow]
  exact List.get?_eq_get hxn

theorem cellAt_bounds_of_rect {grid : Grid} {rows cols : Nat}
    (hrect : isRectangular grid rows cols = true) {y x : Int} {s : String}
    (h : cellAt grid y x = some s) : 0 ≤ y ∧ y < cols ∧ 0 ≤ x ∧ x < rows := by
  simp only [isRectangular, Bool.and_eq_true, decide_eq_true_eq, List.all_eq_true] at hrect
  obtain ⟨hlen, hrows⟩ := hrect
  obtain ⟨hy0, hx0, row, hrow, hs⟩ := cellAt_eq_some h
  have hyn : y.toNat < grid.length := by
    by_contra hc
    rw [List.get?_eq_none.mpr (by omega)] at hrow
    cases hrow
  have hmem : row ∈ grid := List.get?_mem hrow
  have hrl := hrows _ hmem
  have hxn : x.toNat < row.length := by
    by_contra hc
    rw [List.get?_eq_none.mpr (by omega)] at hs
    cases hs
  omega

theorem passable_iff {grid : Grid} {x y : Int} :
    passable grid x y = true ↔ ∃ s, cellAt grid y x = some s ∧ s ≠ "X" := by
  unfold passable
  cases h : cellAt grid y x with
  | none => simp
  | some s => simp

theorem border_cell {grid : Grid} {rows cols : Nat}
    (hb : borderAllX grid rows cols = true) {y x : Nat} (hy : y < cols) (hx : x < rows)
    (h : y = 0 ∨ y + 1 = cols ∨ x = 0 ∨ x + 1 = rows) :
    cellAt grid (y : Int) (x : Int) = some "X" := by
  simp only [borderAllX, List.all_eq_true, List.mem_range] at hb
  have := hb y hy x hx
  rw [if_pos h] at this
  simpa using this

/-- A cell that is not "X" lies strictly inside the grid. -/
theorem passable_interior {grid : Grid} {rows cols : Nat}
    (hrect : isRectangular grid rows cols = true) (hb : borderAllX grid rows cols = true)
    {x y : Int} (hp : passable grid x y = true) :
    1 ≤ y ∧ y + 1 < cols ∧ 1 ≤ x ∧ x + 1 < rows := by
  obtain ⟨s, hs, hne⟩ := passable_iff.mp hp
  obtain ⟨hy0, hy, hx0, hx⟩ := cellAt_bounds_of_rect hrect hs
  have hyc : ((y.toNat : Nat) : Int) = y := Int.toNat_of_nonneg hy0
  have hxc : ((x.toNat : Nat) : Int) = x := Int.toNat_of_nonneg hx0
  by_contra hc
  have hbd : y.toNat = 0 ∨ y.toNat + 1 = cols ∨ x.toNat = 0 ∨ x.toNat + 1 = rows := by omega
  have := border_cell hb (y := y.toNat) (x := x.toNat) (by omega) (by omega) hbd
  rw [hyc, hxc, hs] at this
  exact hne (Option.some.inj this)

/-- Around a cell that is not "X" all four neighbours are cells of the grid. -/
theorem adjacentsOf_inBounds {grid : Grid} {rows cols : Nat}
    (hrect : isRectangular grid rows cols = true) (hb : borderAllX grid rows cols = true)
    {e : coordinate} (hp : passable grid e.x e.y = true) :
    ∀ c ∈ adjacentsOf e, cellAt grid c.y c.x ≠ none := by
  obtain ⟨h1, h2, h3, h4⟩ := passable_interior hrect hb hp
  intro c hc
  simp only [adjacentsOf, List.mem_cons, List.mem_singleton, List.not_mem_nil, or_false] at hc
  have key : ∀ y x : Int, 0 ≤ y → y < cols → 0 ≤ x → x < rows → cellAt grid y x ≠ none := by
    intro y x a b c d
    obtain ⟨s, hs⟩ := cellAt_isSome_of_rect hrect a b c d
    rw [hs]; simp
  rcases hc with rfl | rfl | rfl | rfl <;> apply key <;> simp only <;> omega

/-! ## `eraseDuplicateNodes` is a filter -/

theorem sweepAdjacents_spec (grid : Grid) (pml : List coordinate) :
    ∀ (l : List coordinate) (k : Nat), (∀ c ∈ l, cellAt grid c.y c.x ≠ none) →
      (sweepAdjacents grid pml l k = Sweep.clean ∧ l.filter (keepCandidate grid pml) = l) ∨
      (∃ j, sweepAdjacents grid pml l k = Sweep.eraseAt (k + j) ∧ j < l.length ∧
        (l.eraseIdx j).filter (keepCandidate grid pml) = l.filter (keepCandidate grid pml)) := by
  intro l
  induction l with
  | nil => intro k _; left; simp [sweepAdjacents]
  | cons c rest ih =>
    intro k hin
    have hc := hin c (List.mem_cons_self _ _)
    cases hcell : cellAt grid c.y c.x with
    | none => exact absurd hcell hc
    | some s =>
      by_cases hXO : s = "X" ∨ s = "O"
      · right
        refine ⟨0, ?_, by simp, ?_⟩
        · simp [sweepAdjacents, hcell, hXO]
        · have : keepCandidate grid pml c = false := by
            rcases hXO with h | h <;> simp [keepCandidate, hcell, h]
          simp [List.filter_cons, this]
      · by_cases hsh : hasShorterMove pml c = true
        · right
          refine ⟨0, ?_, by simp, ?_⟩
          · simp [sweepAdjacents, hcell, hXO, hsh]
          · have : keepCandidate grid pml c = false := by
              simp [keepCandidate, hcell, hsh]
            simp [List.filter_cons, this]
        · have hk : keepCandidate grid pml c = true := by
            push_neg at hXO
            simp [keepCandidate, hcell, hXO.1, hXO.2, hsh]
          have hsw : sweepAdjacents grid pml (c :: rest) k = sweepAdjacents grid pml rest (k + 1) := by
            simp [sweepAdjacents, hcell, hXO, hsh]
          rcases ih (k + 1) (fun c' hc' => hin c' (List.mem_cons_of_mem _ hc')) with ⟨h1, h2⟩ | ⟨j, h1, h2, h3⟩
          · left
            exact ⟨by rw [hsw, h1], by simp [List.filter_cons, hk, h2]⟩
          · right
            refine ⟨j + 1, ?_, by simpa using h2, ?_⟩
            · rw [hsw, h1]; congr 1; omega
            · simp [List.eraseIdx_cons_succ, List.filter_cons, hk, h3]

theorem eraseDuplicateNodesFuel_eq_filter (grid : Grid) (pml : List coordinate) :
    ∀ (fuel : Nat) (l : List coordinate), l.length < fuel →
      (∀ c ∈ l, cellAt grid c.y c.x ≠ none) →
      eraseDuplicateNodesFuel grid pml fuel l = Outcome.ok (l.filter (keepCandidate grid pml)) := by
  intro fuel
  induction fuel with
  | zero => intro l h; omega
  | succ fuel ih =>
    intro l hlen hin
    rcases sweepAdjacents_spec grid pml l 0 hin with ⟨h1, h2⟩ | ⟨j, h1, h2, h3⟩
    · simp [eraseDuplicateNodesFuel, h1, h2]
    · simp only [eraseDuplicateNodesFuel, h1, Nat.zero_add]
      rw [ih (l.eraseIdx j) (by rw [List.length_eraseIdx]; split <;> omega)
        (fun c hc => hin c ((List.eraseIdx_sublist l j).subset hc)), h3]

theorem eraseDuplicateNodes_eq_filter (grid : Grid) (pml l : List coordinate)
    (hin : ∀ c ∈ l, cellAt grid c.y c.x ≠ none) :
    eraseDuplicateNodes grid pml l = Outcome.ok (l.filter (keepCandidate grid pml)) :=
  eraseDuplicateNodesFuel_eq_filter grid pml _ l (Nat.lt_succ_self _) hin

/-! ## Walks and distances -/

theorem adjacent4_symm {p q : Int × Int} (h : adjacent4 p q) : adjacent4 q p := by
  unfold adjacent4 at *
  omega

theorem Walk.passable_end {grid : Grid} {p q : Int × Int} {n : Nat} (h : Walk grid p q n) :
    passable grid q.1 q.2 = true := by
  cases h with
  | start hp => exact hp
  | step _ _ hp => exact hp

theorem Walk.passable_start {grid : Grid} {p q : Int × Int} {n : Nat} (h : Walk grid p q n) :
    passable grid p.1 p.2 = true := by
  induction h with
  | start hp => exact hp
  | step _ _ _ ih => exact ih

theorem Walk.trans {grid : Grid} {p q r : Int × Int} {n m : Nat}
    (h1 : Walk grid p q n) (h2 : Walk grid q r m) : Walk grid p r (n + m) := by
  induction h2 with
  | start _ => exact h1
  | step _ hadj hp ih => exact Walk.step ih hadj hp

theorem Walk.symm {grid : Grid} {p q : Int × Int} {n : Nat} (h : Walk grid p q n) :
    Walk grid q p n := by
  induction h with
  | start hp => exact Walk.start _ hp
  | @step q r n hw hadj hp ih =>
    have h1 : Walk grid r q (0 + 1) :=
      Walk.step (Walk.start r hp) (adjacent4_symm hadj) hw.passable_end
    have := Walk.trans h1 ih
    rwa [Nat.zero_add, Nat.add_comm] at this

theorem Walk.eq_of_zero {grid : Grid} {p q : Int × Int} (h : Walk grid p q 0) : p = q := by
  cases h; rfl

theorem Walk.succ_inv {grid : Grid} {p r : Int × Int} {n : Nat} (h : Walk grid p r (n + 1)) :
    ∃ q, Walk grid p q n ∧ adjacent4 q r ∧ passable grid r.1 r.2 = true := by
  cases h with
  | step hw hadj hp => exact ⟨_, hw, hadj, hp⟩

theorem IsDistance.unique {grid : Grid} {p q : Int × Int} {n m : Nat}
    (h1 : IsDistance grid p q n) (h2 : IsDistance grid p q m) : n = m :=
  Nat.le_antisymm (h1.2 m h2.1) (h2.2 n h1.1)

theorem IsDistance.reverse {grid : Grid} {p q : Int × Int} {n : Nat}
    (h : IsDistance grid p q n) : IsDistance grid q p n :=
  ⟨h.1.symm, fun m hm => h.2 m hm.symm⟩

theorem exists_isDistance {grid : Grid} {p q : Int × Int} (h : ∃ n, Walk grid p q n) :
    ∃ d, IsDistance grid p q d := by
  classical
  exact ⟨Nat.find h, Nat.find_spec h, fun m hm => Nat.find_min' h hm⟩

theorem isDistance_self {grid : Grid} {p : Int × Int} (hp : passable grid p.1 p.2 = true) :
    IsDistance grid p p 0 :=
  ⟨Walk.start p hp, fun _ _ => Nat.zero_le _⟩

/-- Distances of 4-adjacent cells differ by at most one. -/
theorem IsDistance.le_succ_of_adjacent {grid : Grid} {g p q : Int × Int} {n m : Nat}
    (hp : IsDistance grid g p n) (hq : IsDistance grid g q m) (hadj : adjacent4 p q) :
    m ≤ n + 1 :=
  hq.2 _ (Walk.step hp.1 hadj hq.1.passable_end)

/-- A cell at distance `n + 1` has a neighbour at distance `n`. -/
theorem IsDistance.pred {grid : Grid} {g p : Int × Int} {n : Nat}
    (hp : IsDistance grid g p (n + 1)) :
    ∃ q, IsDistance grid g q n ∧ adjacent4 q p := by
  obtain ⟨q, hw, hadj, hpp⟩ := hp.1.succ_inv
  refine ⟨q, ⟨hw, fun m hm => ?_⟩, hadj⟩
  have := hp.2 _ (Walk.step hm hadj hpp)
  omega

/-! ## One iteration of the search -/

theorem cell_O_is_goal {grid : Grid} {rows cols : Nat} {dx dy : Int}
    (hrect : isRectangular grid rows cols = true)
    (hO : onlyGoalIsO grid rows cols dx dy = true) {y x : Int}
    (h : cellAt grid y x = some "O") : x = dx ∧ y = dy := by
  obtain ⟨hy0, hy, hx0, hx⟩ := cellAt_bounds_of_rect hrect h
  simp only [onlyGoalIsO, Bool.and_eq_true, decide_eq_true_eq, List.all_eq_true,
    List.mem_range] at hO
  have := hO.2 y.toNat (by omega) x.toNat (by omega)
  rw [Int.toNat_of_nonneg hy0, Int.toNat_of_nonneg hx0, if_pos h] at this
  simpa using this

theorem goal_passable {grid : Grid} {rows cols : Nat} {dx dy : Int}
    (hO : onlyGoalIsO grid rows cols dx dy = true) : passable grid dx dy = true := by
  simp only [onlyGoalIsO, Bool.and_eq_true, decide_eq_true_eq] at hO
  rw [passable_iff]
  exact ⟨"O", hO.1, by decide⟩

theorem hasShorterMove_iff {pml : List coordinate} {c : coordinate} :
    hasShorterMove pml c = true ↔
      ∃ m ∈ pml, m.x = c.x ∧ m.y = c.y ∧ m.moveNum ≤ c.moveNum := by
  simp [hasShorterMove, List.any_eq_true, and_assoc]

theorem keepCandidate_iff {grid : Grid} {pml : List coordinate} {c : coordinate} :
    keepCandidate grid pml c = true ↔
      passable grid c.x c.y = true ∧ cellAt grid c.y c.x ≠ some "O" ∧
        hasShorterMove pml c = false := by
  unfold keepCandidate passable
  cases h : cellAt grid c.y c.x with
  | none => simp
  | some s => simp [and_assoc]

theorem mem_adjacentsOf {e c : coordinate} :
    c ∈ adjacentsOf e ↔ c.moveNum = e.moveNum + 1 ∧ adjacent4 (e.x, e.y) (c.x, c.y) := by
  obtain ⟨cx, cy, cm⟩ := c
  simp only [adjacentsOf, List.mem_cons, List.mem_singleton, List.not_mem_nil, or_false,
    coordinate.mk.injEq, adjacent4]
  constructor
  · rintro (⟨rfl, rfl, rfl⟩ | ⟨rfl, rfl, rfl⟩ | ⟨rfl, rfl, rfl⟩ | ⟨rfl, rfl, rfl⟩) <;> simp
  · rintro ⟨rfl, h⟩
    omega

theorem searchBody_eq {grid : Grid} {rows cols : Nat}
    (hrect : isRectangular grid rows cols = true) (hb : borderAllX grid rows cols = true)
    (sx sy : Int) {cur : List coordinate} {i : Nat} {e : coordinate} (s : Bool)
    (hget : cur.get? i = some e) (hp : passable grid e.x e.y = true) :
    searchBody grid sx sy i { pathMovesList := cur, searching := s } =
      if e.x = sx ∧ e.y = sy then Outcome.ok { pathMovesList := cur, searching := false }
      else Outcome.ok { pathMovesList := cur ++ (adjacentsOf e).filter (keepCandidate grid cur),
                        searching := s } := by
  unfold searchBody
  simp only [hget]
  split
  · rfl
  · rw [eraseDuplicateNodes_eq_filter grid cur _ (adjacentsOf_inBounds hrect hb hp)]

/-- Iterating a body that keeps an invariant `Q` (indexed by the loop counter). -/
theorem searchFor_invariant {grid : Grid} {sx sy : Int} (Q : Nat → SearchState → Prop)
    (bound : Nat)
    (hstep : ∀ i st, i < bound → Q i st →
      ∃ st', searchBody grid sx sy i st = Outcome.ok st' ∧ Q (i + 1) st') :
    ∀ (n i : Nat) (st : SearchState), i + n ≤ bound → Q i st →
      ∃ st', searchFor grid sx sy n i st = Outcome.ok st' ∧ Q (i + n) st' := by
  intro n
  induction n with
  | zero => intro i st _ hQ; exact ⟨st, rfl, hQ⟩
  | succ n ih =>
    intro i st hle hQ
    obtain ⟨st1, h1, hQ1⟩ := hstep i st (by omega) hQ
    obtain ⟨st2, h2, hQ2⟩ := ih (i + 1) st1 (by omega) hQ1
    refine ⟨st2, ?_, ?_⟩
    · simp only [searchFor, h1, h2]
    · have : i + (n + 1) = i + 1 + n := by omega
      rw [this]; exact hQ2

/-- A property of states that every successful iteration keeps is kept by the
`for` loop. -/
theorem searchFor_preserves {grid : Grid} {sx sy : Int} (P : SearchState → Prop)
    (hstep : ∀ i st st', P st → searchBody grid sx sy i st = Outcome.ok st' → P st') :
    ∀ (n i : Nat) (st st' : SearchState), P st →
      searchFor grid sx sy n i st = Outcome.ok st' → P st' := by
  intro n
  induction n with
  | zero =>
    intro i st st' hP h
    simp only [searchFor, Outcome.ok.injEq] at h
    exact h ▸ hP
  | succ n ih =>
    intro i st st' hP h
    simp only [searchFor] at h
    cases hb : searchBody grid sx sy i st with
    | ok st1 =>
      rw [hb] at h
      exact ih (i + 1) st1 st' (hstep i st st1 hP hb) h
    | fault => rw [hb] at h; cases h
    | outOfFuel => rw [hb] at h; cases h

/-! ## One pass of the search keeps the level invariant -/

theorem Recorded.mono {l l' : List coordinate} {p : Int × Int} (h : Recorded l p)
    (hsub : ∀ e ∈ l, e ∈ l') : Recorded l' p := by
  obtain ⟨e, he, hx⟩ := h
  exact ⟨e, hsub e he, hx⟩

theorem kept_candidate_level {grid : Grid} {g : Int × Int} {k : Nat}
    {cur : List coordinate} {e c : coordinate}
    (hsound : Sound grid g cur) (hcomp : CompleteTo grid g k cur)
    (he : e ∈ cur) (hek : e.moveNum ≤ (k : Int)) (hc : c ∈ adjacentsOf e)
    (hkeep : keepCandidate grid cur c = true) :
    c.moveNum = (k : Int) + 1 ∧ IsDistance grid g (c.x, c.y) (k + 1) := by
  obtain ⟨hcm, hadj⟩ := mem_adjacentsOf.mp hc
  obtain ⟨hpass, _, hns⟩ := keepCandidate_iff.mp hkeep
  obtain ⟨m, hm, hdist⟩ := hsound e he
  have hwalk : Walk grid g (c.x, c.y) (m + 1) := Walk.step hdist.1 hadj hpass
  -- a recorded entry at the position of `c` would have disqualified `c`
  have hno : ∀ j, Walk grid g (c.x, c.y) j → j ≤ k → ¬ (j ≤ m + 1) := by
    intro j hj hjk hjm
    obtain ⟨e', he', hx', hy'⟩ := hcomp _ _ hj hjk
    obtain ⟨n', hn', hd'⟩ := hsound e' he'
    have hle : n' ≤ j := by
      have h := hd'.2 j
      rw [hx', hy'] at h
      exact h hj
    have : hasShorterMove cur c = true :=
      hasShorterMove_iff.mpr ⟨e', he', hx', hy', by omega⟩
    rw [this] at hns
    cases hns
  have hmk : m = k := by
    by_contra hne
    exact hno (m + 1) hwalk (by omega) (le_refl _)
  subst hmk
  refine ⟨by omega, hwalk, fun j hj => ?_⟩
  by_contra hlt
  exact hno j hj (by omega) (by omega)

theorem neighbour_recorded {grid : Grid} {rows cols : Nat} {dx dy : Int}
    (hrect : isRectangular grid rows cols = true)
    (hO : onlyGoalIsO grid rows cols dx dy = true)
    {cur : List coordinate} {e : coordinate}
    (hgoal : Recorded cur (dx, dy)) {q : Int × Int}
    (hadj : adjacent4 (e.x, e.y) q) (hq : passable grid q.1 q.2 = true) :
    Recorded (cur ++ (adjacentsOf e).filter (keepCandidate grid cur)) q := by
  have hc : ({ x := q.1, y := q.2, moveNum := e.moveNum + 1 } : coordinate) ∈ adjacentsOf e :=
    mem_adjacentsOf.mpr ⟨rfl, hadj⟩
  by_cases hk : keepCandidate grid cur { x := q.1, y := q.2, moveNum := e.moveNum + 1 } = true
  · exact ⟨_, List.mem_append_right _ (List.mem_filter.mpr ⟨hc, hk⟩), rfl, rfl⟩
  · rw [keepCandidate_iff] at hk
    by_cases hcell : cellAt grid q.2 q.1 = some "O"
    · obtain ⟨h1, h2⟩ := cell_O_is_goal hrect hO hcell
      have : q = (dx, dy) := Prod.ext h1 h2
      rw [this]
      exact hgoal.mono fun _ h => List.mem_append_left _ h
    · have hsh : hasShorterMove cur { x := q.1, y := q.2, moveNum := e.moveNum + 1 } = true := by
        by_contra hf
        exact hk ⟨hq, hcell, by simpa using hf⟩
      obtain ⟨m, hm, hx, hy, _⟩ := hasShorterMove_iff.mp hsh
      exact ⟨m, List.mem_append_left _ hm, hx, hy⟩

theorem passInv_step {grid : Grid} {rows cols : Nat} {sx sy dx dy : Int}
    (hrect : isRectangular grid rows cols = true) (hb : borderAllX grid rows cols = true)
    (hO : onlyGoalIsO grid rows cols dx dy = true)
    {k : Nat} {L0 : List coordinate} (hL : LevelInv grid (dx, dy) k L0)
    (i : Nat) (st : SearchState) (hi : i < L0.length)
    (hinv : PassInv grid (dx, dy) (sx, sy) k L0 i st) :
    ∃ st', searchBody grid sx sy i st = Outcome.ok st' ∧
      PassInv grid (dx, dy) (sx, sy) k L0 (i + 1) st' := by
  obtain ⟨cur, s⟩ := st
  obtain ⟨⟨N, hN, hNk⟩, hsound, hexp, hfound⟩ := hinv
  simp only at hN hsound hexp hfound
  have hgetL : L0.get? i = some (L0.get ⟨i, hi⟩) := List.get?_eq_get hi
  have heL : L0.get ⟨i, hi⟩ ∈ L0 := List.get_mem _ _ _
  generalize L0.get ⟨i, hi⟩ = e at hgetL heL
  have hget : cur.get? i = some e := by
    rw [hN, List.get?_eq_getElem?, List.getElem?_append_left hi, ← List.get?_eq_getElem?]; exact hgetL
  have hecur : e ∈ cur := by rw [hN]; exact List.mem_append_left _ heL
  have hek := hL.bounded e heL
  obtain ⟨m, hm, hdist⟩ := hsound e hecur
  have hpass : passable grid e.x e.y = true := hdist.1.passable_end
  have hcomp : CompleteTo grid (dx, dy) k cur := fun p n hw hn =>
    (hL.complete p n hw hn).mono fun a ha => by rw [hN]; exact List.mem_append_left _ ha
  have hgoal : Recorded cur (dx, dy) := hcomp _ 0 (Walk.start _ (goal_passable hO)) (Nat.zero_le _)
  rw [searchBody_eq hrect hb sx sy s hget hpass]
  by_cases hst : e.x = sx ∧ e.y = sy
  · rw [if_pos hst]
    refine ⟨_, rfl, ⟨N, hN, hNk⟩, hsound, ?_, fun _ => ⟨e, heL, hst⟩⟩
    intro j e' hj hge
    refine ⟨fun _ => rfl, fun hne q hadj hq => ?_⟩
    rcases Nat.lt_succ_iff_lt_or_eq.mp hj with hlt | heq
    · exact (hexp j e' hlt hge).2 hne q hadj hq
    · subst heq
      rw [hgetL] at hge
      cases hge
      exact absurd hst hne
  · rw [if_neg hst]
    have hnew : ∀ c ∈ (adjacentsOf e).filter (keepCandidate grid cur),
        c.moveNum = (k : Int) + 1 ∧ IsDistance grid (dx, dy) (c.x, c.y) (k + 1) := by
      intro c hc
      obtain ⟨hc1, hc2⟩ := List.mem_filter.mp hc
      exact kept_candidate_level hsound hcomp hecur hek hc1 hc2
    refine ⟨_, rfl, ⟨N ++ (adjacentsOf e).filter (keepCandidate grid cur), ?_, ?_⟩, ?_, ?_, hfound⟩
    · simp only [hN, List.append_assoc]
    · intro c hc
      rcases List.mem_append.mp hc with h | h
      · exact hNk c h
      · exact (hnew c h).1
    · intro c hc
      rcases List.mem_append.mp hc with h | h
      · exact hsound c h
      · exact ⟨k + 1, by rw [(hnew c h).1]; push_cast; rfl, (hnew c h).2⟩
    · intro j e' hj hge
      rcases Nat.lt_succ_iff_lt_or_eq.mp hj with hlt | heq
      · refine ⟨(hexp j e' hlt hge).1, fun hne q hadj hq => ?_⟩
        exact ((hexp j e' hlt hge).2 hne q hadj hq).mono fun a ha => List.mem_append_left _ ha
      · subst heq
        rw [hgetL] at hge
        cases hge
        exact ⟨fun h => absurd h hst, fun _ q hadj hq => neighbour_recorded hrect hO hgoal hadj hq⟩

/-! ## The search loop exits with a sound, level-ordered list -/

theorem levelSorted_append {k : Nat} {L N : List coordinate} (hL : LevelSorted L)
    (hLk : ∀ e ∈ L, e.moveNum ≤ (k : Int)) (hN : ∀ e ∈ N, e.moveNum = (k : Int) + 1) :
    LevelSorted (L ++ N) := by
  unfold LevelSorted at *
  rw [List.pairwise_append]
  refine ⟨hL, ?_, ?_⟩
  · rw [List.pairwise_iff_forall_sublist]
    intro a b hab
    have ha := hN a (hab.subset (by simp))
    have hb := hN b (hab.subset (by simp))
    omega
  · intro a ha b hb
    have := hLk a ha
    have := hN b hb
    omega

theorem searchPass_spec {grid : Grid} {rows cols : Nat} {sx sy dx dy : Int}
    (hrect : isRectangular grid rows cols = true) (hb : borderAllX grid rows cols = true)
    (hO : onlyGoalIsO grid rows cols dx dy = true)
    {k : Nat} {L0 : List coordinate} (hL : LevelInv grid (dx, dy) k L0) :
    ∃ st, searchPass grid sx sy L0 = Outcome.ok st ∧
      PassInv grid (dx, dy) (sx, sy) k L0 L0.length st := by
  have h0 : PassInv grid (dx, dy) (sx, sy) k L0 0 { pathMovesList := L0, searching := true } :=
    ⟨⟨[], by simp, by simp⟩, hL.sound, fun j e hj => absurd hj (Nat.not_lt_zero _),
      fun h => by cases h⟩
  have := @searchFor_invariant grid sx sy
    (fun i st => PassInv grid (dx, dy) (sx, sy) k L0 i st) L0.length
    (fun i st hi hQ => passInv_step hrect hb hO hL i st hi hQ) L0.length 0 _ (by omega) h0
  simpa [searchPass] using this

theorem PassInv.sorted {grid : Grid} {g start : Int × Int} {k : Nat} {L0 : List coordinate}
    {i : Nat} {st : SearchState} (hL : LevelInv grid g k L0)
    (h : PassInv grid g start k L0 i st) : LevelSorted st.pathMovesList := by
  obtain ⟨N, hN, hNk⟩ := h.ext
  rw [hN]
  exact levelSorted_append hL.sorted hL.bounded hNk

theorem PassInv.complete {grid : Grid} {g start : Int × Int} {k : Nat} {L0 : List coordinate}
    {i : Nat} {st : SearchState} (hL : LevelInv grid g k L0)
    (h : PassInv grid g start k L0 i st) : CompleteTo grid g k st.pathMovesList := by
  obtain ⟨N, hN, _⟩ := h.ext
  intro p n hw hn
  exact (hL.complete p n hw hn).mono fun a ha => by rw [hN]; exact List.mem_append_left _ ha

theorem mem_get_index {e : coordinate} {l : List coordinate} (he : e ∈ l) :
    ∃ j, j < l.length ∧ l.get? j = some e := by
  obtain ⟨j, hj⟩ := List.get?_of_mem he
  refine ⟨j, ?_, hj⟩
  by_contra hc
  rw [List.get?_eq_none.mpr (by omega)] at hj
  cases hj

theorem PassInv.searching_false {grid : Grid} {g start : Int × Int} {k : Nat}
    {L0 : List coordinate} {st : SearchState}
    (h : PassInv grid g start k L0 L0.length st) (hrec : Recorded L0 start) :
    st.searching = false := by
  obtain ⟨e, he, hx⟩ := hrec
  obtain ⟨j, hj, hje⟩ := mem_get_index he
  exact (h.expanded j e hj hje).1 hx

theorem PassInv.levelInv_succ {grid : Grid} {g start : Int × Int} {k : Nat}
    {L0 : List coordinate} {st : SearchState} (hL : LevelInv grid g k L0)
    (h : PassInv grid g start k L0 L0.length st) (hs : st.searching = true) :
    LevelInv grid g (k + 1) st.pathMovesList := by
  refine ⟨h.sound, ?_, ?_, h.sorted hL⟩
  · intro p n hw hn
    rcases Nat.lt_or_ge n (k + 1) with hlt | hge
    · exact h.complete hL p n hw (by omega)
    · have hnk : n = k + 1 := by omega
      subst hnk
      obtain ⟨q, hwq, hadj, hp⟩ := hw.succ_inv
      obtain ⟨e, he, hex, hey⟩ := hL.complete q k hwq (le_refl _)
      obtain ⟨j, hj, hje⟩ := mem_get_index he
      have hexp := h.expanded j e hj hje
      have hne : ¬ (e.x = start.1 ∧ e.y = start.2) := by
        intro hc
        have := hexp.1 hc
        rw [hs] at this
        cases this
      have hadj' : adjacent4 (e.x, e.y) p := by rw [hex, hey]; exact hadj
      exact hexp.2 hne p hadj' hp
  · obtain ⟨N, hN, hNk⟩ := h.ext
    intro e he
    rw [hN] at he
    rcases List.mem_append.mp he with h1 | h1
    · have := hL.bounded e h1
      push_cast; omega
    · rw [hNk e h1]; push_cast; rfl

theorem levelInv_initial {grid : Grid} {rows cols : Nat} {dx dy : Int}
    (hO : onlyGoalIsO grid rows cols dx dy = true) :
    LevelInv grid (dx, dy) 0 (initialMoves dx dy) := by
  have hp := goal_passable hO
  refine ⟨?_, ?_, ?_, ?_⟩
  · intro e he
    simp only [initialMoves, List.mem_singleton] at he
    subst he
    exact ⟨0, rfl, isDistance_self hp⟩
  · intro p n hw hn
    have hn0 : n = 0 := by omega
    subst hn0
    have := hw.eq_of_zero
    subst this
    exact ⟨_, List.mem_singleton.mpr rfl, rfl, rfl⟩
  · intro e he
    simp only [initialMoves, List.mem_singleton] at he
    subst he
    simp
  · simp [LevelSorted, initialMoves]

theorem searchLoop_spec {grid : Grid} {rows cols : Nat} {sx sy dx dy : Int}
    (hrect : isRectangular grid rows cols = true) (hb : borderAllX grid rows cols = true)
    (hO : onlyGoalIsO grid rows cols dx dy = true)
    {d : Nat} (hd : IsDistance grid (dx, dy) (sx, sy) d) :
    ∀ (j k : Nat) (L : List coordinate), k + j = d → LevelInv grid (dx, dy) k L →
      ∃ F, (∀ fuel, j + 1 ≤ fuel → searchLoop grid sx sy fuel L = Outcome.ok F) ∧
        SearchFinal grid (dx, dy) d F := by
  intro j
  induction j with
  | zero =>
    intro k L hk hL
    have hkd : k = d := by omega
    subst hkd
    obtain ⟨st, hpass, hinv⟩ := @searchPass_spec grid rows cols sx sy dx dy hrect hb hO _ _ hL
    have hrec : Recorded L (sx, sy) := hL.complete _ _ hd.1 (le_refl _)
    have hs := hinv.searching_false hrec
    refine ⟨st.pathMovesList, ?_, hinv.sound, hinv.sorted hL, hinv.complete hL⟩
    intro fuel hf
    obtain ⟨fuel', rfl⟩ : ∃ f, fuel = f + 1 := ⟨fuel - 1, by omega⟩
    simp [searchLoop, hpass, hs]
  | succ j ih =>
    intro k L hk hL
    obtain ⟨st, hpass, hinv⟩ := @searchPass_spec grid rows cols sx sy dx dy hrect hb hO _ _ hL
    have hnrec : ¬ Recorded L (sx, sy) := by
      rintro ⟨e, he, hx, hy⟩
      obtain ⟨n, hn, hdn⟩ := hL.sound e he
      simp only at hx hy
      rw [hx, hy] at hdn
      have := hdn.unique hd
      have := hL.bounded e he
      omega
    have hs : st.searching = true := by
      cases h : st.searching with
      | true => rfl
      | false => exact absurd (hinv.found h) hnrec
    obtain ⟨F, hF, hfin⟩ := ih (k + 1) st.pathMovesList (by omega) (hinv.levelInv_succ hL hs)
    refine ⟨F, ?_, hfin⟩
    intro fuel hf
    obtain ⟨fuel', rfl⟩ : ∃ f, fuel = f + 1 := ⟨fuel - 1, by omega⟩
    simp only [searchLoop, hpass, hs, if_true]
    exact hF fuel' (by omega)

/-! ## Grid writes -/

theorem setCell_isSome {grid : Grid} {y x : Int} (s : String)
    (h : cellAt grid y x ≠ none) : ∃ g', setCell grid y x s = some g' := by
  unfold cellAt at h
  unfold setCell
  split at h
  · rename_i hyx
    rw [if_pos hyx]
    cases hrow : grid.get? y.toNat with
    | none => rw [hrow] at h; exact absurd rfl h
    | some row =>
      simp only [hrow] at h ⊢
      have hx : x.toNat < row.length := by
        by_contra hc
        exact h (List.get?_eq_none.mpr (by omega))
      rw [if_pos hx]
      exact ⟨_, rfl⟩
  · exact absurd rfl h

theorem cellAt_setCell {grid g' : Grid} {y x : Int} {s : String}
    (h : setCell grid y x s = some g') (y' x' : Int) :
    cellAt g' y' x' = if y' = y ∧ x' = x then some s else cellAt grid y' x' := by
  unfold setCell at h
  split at h
  · rename_i hyx
    cases hrow : grid.get? y.toNat with
    | none => rw [hrow] at h; cases h
    | some row =>
      simp only [hrow] at h
      split at h
      · rename_i hx
        simp only [Option.some.injEq] at h
        subst h
        have hyl : y.toNat < grid.length := by
          by_contra hc
          rw [List.get?_eq_none.mpr (by omega)] at hrow
          cases hrow
        unfold cellAt
        by_cases hyx' : 0 ≤ y' ∧ 0 ≤ x'
        · rw [if_pos hyx', if_pos hyx']
          by_cases hy : y' = y
          · subst hy
            simp only [true_and, List.get?_eq_getElem?, List.getElem?_set_self hyl]
            rw [List.get?_eq_getElem?] at hrow
            rw [hrow]
            by_cases hxx : x' = x
            · subst hxx
              simp [List.getElem?_set_self hx]
            · have : x.toNat ≠ x'.toNat := by omega
              simp [hxx, List.getElem?_set_ne this]
          · have : y.toNat ≠ y'.toNat := by omega
            simp [hy, List.getElem?_set_ne this]
        · rw [if_neg hyx', if_neg hyx']
          have : ¬ (y' = y ∧ x' = x) := by
            rintro ⟨rfl, rfl⟩; exact hyx' hyx
          rw [if_neg this]
      · cases h
  · cases h

theorem cellAt_setCell_isSome {grid g' : Grid} {y x : Int} {s : String}
    (h : setCell grid y x s = some g') (y' x' : Int) :
    cellAt g' y' x' ≠ none ↔ cellAt grid y' x' ≠ none := by
  rw [cellAt_setCell h]
  split
  · rename_i hyx
    obtain ⟨rfl, rfl⟩ := hyx
    have : cellAt grid y' x' ≠ none := by
      intro hc
      unfold cellAt at hc
      unfold setCell at h
      split at h
      · rename_i hb
        rw [if_pos hb] at hc
        cases hrow : grid.get? y'.toNat with
        | none => rw [hrow] at h; cases h
        | some row =>
          simp only [hrow] at h hc
          split at h
          · rename_i hx
            rw [List.get?_eq_none] at hc
            omega
          · cases h
      · cases h
    simp [this]
  · rfl

/-! ## One iteration of the trace -/

theorem traceFor_eq (F : List coordinate) (st : TraceState) :
    traceFor F st =
      match F.find? (adjacentTo st.posStartX st.posStartY) with
      | none => Outcome.ok st
      | some e => moveTo st e.x e.y := by
  induction F with
  | nil => rfl
  | cons e rest ih =>
    unfold traceFor
    by_cases h1 : st.posStartY - 1 = e.y ∧ st.posStartX = e.x
    · have ha : adjacentTo st.posStartX st.posStartY e = true := by
        simp only [adjacentTo, decide_eq_true_eq, adjacent4]; omega
      rw [if_pos h1, List.find?_cons_of_pos _ ha]
      simp only [h1.1, h1.2]
    · rw [if_neg h1]
      by_cases h2 : st.posStartY + 1 = e.y ∧ st.posStartX = e.x
      · have ha : adjacentTo st.posStartX st.posStartY e = true := by
          simp only [adjacentTo, decide_eq_true_eq, adjacent4]; omega
        rw [if_pos h2, List.find?_cons_of_pos _ ha]
        simp only [h2.1, h2.2]
      · rw [if_neg h2]
        by_cases h3 : st.posStartY = e.y ∧ st.posStartX - 1 = e.x
        · have ha : adjacentTo st.posStartX st.posStartY e = true := by
            simp only [adjacentTo, decide_eq_true_eq, adjacent4]; omega
          rw [if_pos h3, List.find?_cons_of_pos _ ha]
          simp only [h3.1, h3.2]
        · rw [if_neg h3]
          by_cases h4 : st.posStartY = e.y ∧ st.posStartX + 1 = e.x
          · have ha : adjacentTo st.posStartX st.posStartY e = true := by
              simp only [adjacentTo, decide_eq_true_eq, adjacent4]; omega
            rw [if_pos h4, List.find?_cons_of_pos _ ha]
            simp only [h4.1, h4.2]
          · have ha : ¬ adjacentTo st.posStartX st.posStartY e = true := by
              simp only [adjacentTo, decide_eq_true_eq, adjacent4]; omega
            rw [if_neg h4, List.find?_cons_of_neg _ ha]
            exact ih

theorem find?_levelSorted_le {F : List coordinate} {P : coordinate → Bool} {a b : coordinate}
    (hs : LevelSorted F) (hf : F.find? P = some a) (hb : b ∈ F) (hPb : P b = true) :
    a.moveNum ≤ b.moveNum := by
  induction F with
  | nil => cases hb
  | cons c rest ih =>
    unfold LevelSorted at hs
    rw [List.pairwise_cons] at hs
    by_cases hc : P c = true
    · rw [List.find?_cons_of_pos _ hc] at hf
      cases hf
      rcases List.mem_cons.mp hb with rfl | hb'
      · exact le_refl _
      · exact hs.1 b hb'
    · rw [List.find?_cons_of_neg _ hc] at hf
      rcases List.mem_cons.mp hb with rfl | hb'
      · exact absurd hPb hc
      · exact ih hs.2 hf hb'

/-- From a position recorded with `moveNum = m + 1` the first list entry that
is 4-adjacent has `moveNum = m`. -/
theorem trace_next {grid : Grid} {g : Int × Int} {d m : Nat} {F : List coordinate}
    (hF : SearchFinal grid g d F) {px py : Int} {ep : coordinate}
    (hep : ep ∈ F) (hx : ep.x = px) (hy : ep.y = py) (hm : ep.moveNum = (m : Int) + 1)
    (hmd : m + 1 ≤ d) :
    ∃ e, F.find? (adjacentTo px py) = some e ∧ e ∈ F ∧ adjacent4 (px, py) (e.x, e.y) ∧
      e.moveNum = (m : Int) := by
  obtain ⟨n, hn, hdp⟩ := hF.sound ep hep
  have hnm : n = m + 1 := by omega
  subst hnm
  rw [hx, hy] at hdp
  obtain ⟨q, hdq, hadj⟩ := hdp.pred
  obtain ⟨eq, heq, hqx, hqy⟩ := hF.complete q m hdq.1 (by omega)
  obtain ⟨n', hn', hdq'⟩ := hF.sound eq heq
  rw [hqx, hqy] at hdq'
  have hn'm : n' = m := hdq'.unique hdq
  subst hn'm
  have hPq : adjacentTo px py eq = true := by
    simp only [adjacentTo, decide_eq_true_eq, hqx, hqy]
    exact adjacent4_symm hadj
  cases hfind : F.find? (adjacentTo px py) with
  | none =>
    have := List.find?_eq_none.mp hfind eq heq
    exact absurd hPq this
  | some e =>
    have heF : e ∈ F := List.mem_of_find?_eq_some hfind
    have hPe : adjacentTo px py e = true := List.find?_some hfind
    have hadje : adjacent4 (px, py) (e.x, e.y) := by
      simpa [adjacentTo] using hPe
    obtain ⟨n2, hn2, hde⟩ := hF.sound e heF
    have h1 : n' + 1 ≤ n2 + 1 := hde.le_succ_of_adjacent hdp (adjacent4_symm hadje)
    have h2 := find?_levelSorted_le hF.sorted hfind heq hPq
    exact ⟨e, rfl, heF, hadje, by omega⟩

/-! ## The trace loop walks down the distance field -/

theorem passable_cellAt {grid : Grid} {x y : Int} (h : passable grid x y = true) :
    cellAt grid y x ≠ none := by
  obtain ⟨s, hs, _⟩ := passable_iff.mp h
  rw [hs]; simp

theorem Sound.passable {grid : Grid} {g : Int × Int} {F : List coordinate}
    (h : Sound grid g F) {e : coordinate} (he : e ∈ F) : passable grid e.x e.y = true := by
  obtain ⟨_, _, hd⟩ := h e he
  exact hd.1.passable_end

theorem TraceInv.movesUsed_nonneg {grid0 : Grid} {F : List coordinate} {start : Int × Int}
    {d m : Nat} {st : TraceState} (h : TraceInv grid0 F start d st m) : 0 ≤ st.movesUsed := by
  have h1 := h.length
  have h2 := h.head
  cases hv : st.visited with
  | nil => rw [hv] at h2; cases h2
  | cons a l =>
    rw [hv] at h1
    simp only [List.length_cons] at h1
    push_cast at h1
    omega

theorem traceInv_step {grid0 : Grid} {g start : Int × Int} {d m : Nat} {F : List coordinate}
    (hF : SearchFinal grid0 g d F) {st : TraceState}
    (hinv : TraceInv grid0 F start d st (m + 1)) :
    ∃ st' e, traceFor F st = Outcome.ok st' ∧ TraceInv grid0 F start d st' m ∧
      e ∈ F ∧ e.x = st'.posStartX ∧ e.y = st'.posStartY ∧ e.moveNum = (m : Int) ∧
      adjacent4 (st.posStartX, st.posStartY) (st'.posStartX, st'.posStartY) ∧
      F.find? (adjacentTo st.posStartX st.posStartY) = some e := by
  obtain ⟨ep, hep, hx, hy, hm⟩ := hinv.recorded
  have hnn := hinv.movesUsed_nonneg
  have hmv := hinv.moves
  obtain ⟨e, hfind, heF, hadj, hem⟩ :=
    trace_next hF hep hx hy (by rw [hm]; push_cast; rfl) (by push_cast at hmv; omega)
  have hp1 : cellAt st.grid st.posStartY st.posStartX ≠ none := by
    rw [hinv.cells, ← hx, ← hy]
    exact passable_cellAt (hF.sound.passable hep)
  obtain ⟨g1, hg1⟩ := setCell_isSome "_" hp1
  have hp2 : cellAt g1 e.y e.x ≠ none := by
    rw [cellAt_setCell_isSome hg1, hinv.cells]
    exact passable_cellAt (hF.sound.passable heF)
  obtain ⟨g2, hg2⟩ := setCell_isSome "S" hp2
  refine ⟨{ grid := g2, posStartX := e.x, posStartY := e.y, movesUsed := st.movesUsed + 1,
            visited := (e.x, e.y) :: st.visited }, e, ?_, ?_, heF, rfl, rfl, hem, hadj, hfind⟩
  · rw [traceFor_eq, hfind]
    simp only [moveTo, hg1, hg2]
  · refine ⟨⟨e, heF, rfl, rfl, hem⟩, ?_, ?_, rfl, ?_, ?_, ?_⟩
    · simp only; push_cast at hmv; omega
    · intro y x
      simp only
      rw [cellAt_setCell_isSome hg2, cellAt_setCell_isSome hg1, hinv.cells]
    · simp only
      have hh := hinv.head
      cases hv : st.visited with
      | nil => rw [hv] at hh; cases hh
      | cons a l =>
        rw [List.getLast?_cons_cons, ← hv]
        exact hinv.last
    · simp only
      rw [List.chain'_cons']
      refine ⟨?_, hinv.chain⟩
      intro b hb
      rw [hinv.head] at hb
      cases hb
      exact hadj
    · simp only [List.length_cons]
      have := hinv.length
      push_cast
      omega

theorem TraceInv.at_goal_iff {grid0 : Grid} {dx dy : Int} {start : Int × Int} {d m : Nat}
    {F : List coordinate} (hF : SearchFinal grid0 (dx, dy) d F)
    (hg : passable grid0 dx dy = true) {st : TraceState}
    (hinv : TraceInv grid0 F start d st m) :
    (st.posStartX ≠ dx ∨ st.posStartY ≠ dy) ↔ m ≠ 0 := by
  obtain ⟨ep, hep, hx, hy, hm⟩ := hinv.recorded
  obtain ⟨n, hn, hd⟩ := hF.sound ep hep
  have hnm : n = m := by omega
  subst hnm
  rw [hx, hy] at hd
  constructor
  · intro hne h0
    subst h0
    have := hd.1.eq_of_zero
    simp only [Prod.mk.injEq] at this
    omega
  · intro hne
    by_contra hc
    have hxy : st.posStartX = dx ∧ st.posStartY = dy := by omega
    rw [hxy.1, hxy.2] at hd
    have := hd.unique (isDistance_self (p := (dx, dy)) hg)
    exact hne this

theorem traceLoop_spec {grid0 : Grid} {dx dy : Int} {start : Int × Int} {d : Nat}
    {F : List coordinate} (hF : SearchFinal grid0 (dx, dy) d F)
    (hg : passable grid0 dx dy = true) :
    ∀ (m : Nat) (st : TraceState), TraceInv grid0 F start d st m →
      ∃ st', (∀ fuel, m ≤ fuel → traceLoop F dx dy fuel st = Outcome.ok st') ∧
        TraceInv grid0 F start d st' 0 := by
  intro m
  induction m with
  | zero =>
    intro st hinv
    refine ⟨st, fun fuel _ => ?_, hinv⟩
    have := (hinv.at_goal_iff hF hg).not.mpr (by simp)
    cases fuel with
    | zero => rw [traceLoop, if_neg this]
    | succ f => rw [traceLoop, if_neg this]
  | succ m ih =>
    intro st hinv
    obtain ⟨st1, e, h1, hinv1, _⟩ := traceInv_step hF hinv
    obtain ⟨st2, h2, hinv2⟩ := ih st1 hinv1
    refine ⟨st2, fun fuel hf => ?_, hinv2⟩
    obtain ⟨fuel', rfl⟩ : ∃ f, fuel = f + 1 := ⟨fuel - 1, by omega⟩
    have := (hinv.at_goal_iff hF hg).mpr (by simp)
    rw [traceLoop, if_pos this]
    simp only [h1]
    exact h2 fuel' (by omega)

theorem traceInv_start {grid0 : Grid} {g : Int × Int} {d : Nat} {F : List coordinate}
    (hF : SearchFinal grid0 g d F) {sx sy : Int} (hd : IsDistance grid0 g (sx, sy) d) :
    TraceInv grid0 F (sx, sy) d (traceStart grid0 sx sy) d := by
  obtain ⟨e, he, hx, hy⟩ := hF.complete _ _ hd.1 (le_refl _)
  obtain ⟨n, hn, hdn⟩ := hF.sound e he
  simp only at hx hy
  rw [hx, hy] at hdn
  have := hdn.unique hd
  subst this
  refine ⟨⟨e, he, hx, hy, hn⟩, ?_, fun _ _ => Iff.rfl, rfl, rfl, ?_, ?_⟩
  · simp [traceStart]
  · simp [traceStart]
  · simp [traceStart]

/-- Every state in which an iteration of the trace loop begins satisfies the
trace invariant. -/
theorem traceIter_inv {grid0 : Grid} {dx dy : Int} {start : Int × Int} {d : Nat}
    {F : List coordinate} (hF : SearchFinal grid0 (dx, dy) d F)
    (hg : passable grid0 dx dy = true) :
    ∀ (n : Nat) (st st' : TraceState) (m : Nat), TraceInv grid0 F start d st m →
      traceIter F dx dy n st = some st' → ∃ m', TraceInv grid0 F start d st' m' := by
  intro n
  induction n with
  | zero =>
    intro st st' m hinv h
    simp only [traceIter, Option.some.injEq] at h
    exact ⟨m, h ▸ hinv⟩
  | succ n ih =>
    intro st st' m hinv h
    simp only [traceIter] at h
    split at h
    · rename_i hne
      have hm := (hinv.at_goal_iff hF hg).mp hne
      obtain ⟨m', rfl⟩ : ∃ m', m = m' + 1 := ⟨m - 1, by omega⟩
      obtain ⟨st1, e, h1, hinv1, _⟩ := traceInv_step hF hinv
      rw [h1] at h
      exact ih st1 st' m' hinv1 h
    · cases h

/-! ## Fuel, and the shared consequences of validity -/

theorem searchLoop_mono {grid : Grid} {sx sy : Int} :
    ∀ (fuel : Nat) (L F : List coordinate), searchLoop grid sx sy fuel L = Outcome.ok F →
      ∀ fuel', fuel ≤ fuel' → searchLoop grid sx sy fuel' L = Outcome.ok F := by
  intro fuel
  induction fuel with
  | zero => intro L F h; simp [searchLoop] at h
  | succ fuel ih =>
    intro L F h fuel' hle
    obtain ⟨f, rfl⟩ : ∃ f, fuel' = f + 1 := ⟨fuel' - 1, by omega⟩
    simp only [searchLoop] at h ⊢
    cases hp : searchPass grid sx sy L with
    | ok st =>
      rw [hp] at h
      simp only at h ⊢
      by_cases hs : st.searching = true
      · rw [if_pos hs] at h ⊢
        exact ih _ _ h f (by omega)
      · rw [if_neg hs] at h ⊢
        exact h
    | fault => rw [hp] at h; cases h
    | outOfFuel => rw [hp] at h; cases h

theorem searchLoop_deterministic {grid : Grid} {sx sy : Int} {fuel fuel' : Nat}
    {L F F' : List coordinate} (h : searchLoop grid sx sy fuel L = Outcome.ok F)
    (h' : searchLoop grid sx sy fuel' L = Outcome.ok F') : F = F' := by
  have h1 := searchLoop_mono fuel L F h (max fuel fuel') (le_max_left _ _)
  have h2 := searchLoop_mono fuel' L F' h' (max fuel fuel') (le_max_right _ _)
  rw [h1] at h2
  exact Outcome.ok.inj h2

/-- On a valid grid the search exits after `d + 1` passes, `d` being the
distance of Start from Goal, with a sound, level-ordered list that is complete
up to level `d`. -/
theorem valid_search {grid : Grid} {rows cols : Nat} {sx sy dx dy : Int}
    (h : ValidGrid grid rows cols sx sy dx dy) :
    ∃ (d : Nat) (F : List coordinate), IsDistance grid (dx, dy) (sx, sy) d ∧
      (∀ fuel, d + 1 ≤ fuel →
        searchLoop grid sx sy fuel (initialMoves dx dy) = Outcome.ok F) ∧
      SearchFinal grid (dx, dy) d F := by
  obtain ⟨n, hn⟩ := h.connected
  obtain ⟨d, hd⟩ := exists_isDistance ⟨n, hn.symm⟩
  obtain ⟨F, hF, hfin⟩ := searchLoop_spec h.rect h.border h.goalO hd d 0 _ (by omega)
    (levelInv_initial h.goalO)
  exact ⟨d, F, hd, hF, hfin⟩

/-- On a valid grid the trace, run on the list of the search, ends at the Goal
after `d` moves. -/
theorem valid_trace {grid : Grid} {rows cols : Nat} {sx sy dx dy : Int}
    (h : ValidGrid grid rows cols sx sy dx dy) {d : Nat} {F : List coordinate}
    (hd : IsDistance grid (dx, dy) (sx, sy) d) (hfin : SearchFinal grid (dx, dy) d F) :
    ∃ st, (∀ fuel, d ≤ fuel →
        traceLoop F dx dy fuel (traceStart grid sx sy) = Outcome.ok st) ∧
      TraceInv grid F (sx, sy) d st 0 :=
  traceLoop_spec hfin (goal_passable h.goalO) d _ (traceInv_start hfin hd)

/-! ## The Goal entry -/

theorem sweepAdjacents_clean {grid : Grid} {pml : List coordinate} :
    ∀ (l : List coordinate) (k : Nat), sweepAdjacents grid pml l k = Sweep.clean →
      ∀ c ∈ l, keepCandidate grid pml c = true := by
  intro l
  induction l with
  | nil => intro k _ c hc; cases hc
  | cons a rest ih =>
    intro k h c hc
    unfold sweepAdjacents at h
    cases hcell : cellAt grid a.y a.x with
    | none => rw [hcell] at h; cases h
    | some s =>
      rw [hcell] at h
      simp only at h
      split at h
      · cases h
      · rename_i hXO
        split at h
        · cases h
        · rename_i hsh
          rcases List.mem_cons.mp hc with rfl | hc'
          · push_neg at hXO
            simp [keepCandidate, hcell, hXO.1, hXO.2, hsh]
          · exact ih (k + 1) h c hc'

theorem eraseDuplicateNodesFuel_kept {grid : Grid} {pml : List coordinate} :
    ∀ (fuel : Nat) (l r : List coordinate),
      eraseDuplicateNodesFuel grid pml fuel l = Outcome.ok r →
      ∀ c ∈ r, keepCandidate grid pml c = true := by
  intro fuel
  induction fuel with
  | zero => intro l r h; simp [eraseDuplicateNodesFuel] at h
  | succ fuel ih =>
    intro l r h
    unfold eraseDuplicateNodesFuel at h
    cases hs : sweepAdjacents grid pml l 0 with
    | fault => rw [hs] at h; cases h
    | clean =>
      rw [hs] at h
      simp only [Outcome.ok.injEq] at h
      subst h
      exact sweepAdjacents_clean l 0 hs
    | eraseAt adj =>
      rw [hs] at h
      exact ih _ _ h

theorem searchBody_goalOnce {grid : Grid} {sx sy dx dy : Int}
    (hgoal : cellAt grid dy dx = some "O") (i : Nat) (st st' : SearchState)
    (hinv : GoalOnce dx dy st.pathMovesList)
    (h : searchBody grid sx sy i st = Outcome.ok st') : GoalOnce dx dy st'.pathMovesList := by
  unfold searchBody at h
  cases hg : st.pathMovesList.get? i with
  | none => rw [hg] at h; cases h
  | some e =>
    rw [hg] at h
    simp only at h
    split at h
    · simp only [Outcome.ok.injEq] at h
      subst h
      exact hinv
    · cases he : eraseDuplicateNodes grid st.pathMovesList (adjacentsOf e) with
      | fault => rw [he] at h; cases h
      | outOfFuel => rw [he] at h; cases h
      | ok adjacents =>
        rw [he] at h
        simp only [Outcome.ok.injEq] at h
        subst h
        obtain ⟨tail, htail, hno⟩ := hinv
        refine ⟨tail ++ adjacents, by simp [htail], ?_⟩
        intro c hc
        rcases List.mem_append.mp hc with h1 | h1
        · exact hno c h1
        · have hk := eraseDuplicateNodesFuel_kept _ _ _ he c h1
          rintro ⟨hx, hy⟩
          have := (keepCandidate_iff.mp hk).2.1
          rw [hx, hy] at this
          exact this hgoal

theorem passesRun_goalOnce {grid : Grid} {sx sy dx dy : Int}
    (hgoal : cellAt grid dy dx = some "O") :
    ∀ (p : Nat) (L L' : List coordinate), GoalOnce dx dy L →
      passesRun grid sx sy p L = some L' → GoalOnce dx dy L' := by
  intro p
  induction p with
  | zero =>
    intro L L' hinv h
    simp only [passesRun, Option.some.injEq] at h
    exact h ▸ hinv
  | succ p ih =>
    intro L L' hinv h
    unfold passesRun at h
    cases hp : searchPass grid sx sy L with
    | fault => rw [hp] at h; cases h
    | outOfFuel => rw [hp] at h; cases h
    | ok st =>
      rw [hp] at h
      simp only at h
      split at h
      · refine ih _ _ ?_ h
        exact searchFor_preserves (fun s => GoalOnce dx dy s.pathMovesList)
          (fun i s s' => searchBody_goalOnce hgoal i s s') _ _ _ _ hinv hp
      · cases h

/-! ## A Start that cannot be reached -/

theorem searchPass_unreachable {grid : Grid} {rows cols : Nat} {sx sy dx dy : Int}
    (hrect : isRectangular grid rows cols = true) (hb : borderAllX grid rows cols = true)
    (hsep : ∀ n, ¬ Walk grid (dx, dy) (sx, sy) n) {L : List coordinate}
    (hR : ∀ e ∈ L, ∃ n, Walk grid (dx, dy) (e.x, e.y) n) :
    ∃ st, searchPass grid sx sy L = Outcome.ok st ∧ st.searching = true ∧
      ∀ e ∈ st.pathMovesList, ∃ n, Walk grid (dx, dy) (e.x, e.y) n := by
  have hstep : ∀ i st, i < L.length →
      (st.searching = true ∧ (∀ e ∈ st.pathMovesList, ∃ n, Walk grid (dx, dy) (e.x, e.y) n) ∧
        L.length ≤ st.pathMovesList.length) →
      ∃ st', searchBody grid sx sy i st = Outcome.ok st' ∧
        (st'.searching = true ∧
          (∀ e ∈ st'.pathMovesList, ∃ n, Walk grid (dx, dy) (e.x, e.y) n) ∧
          L.length ≤ st'.pathMovesList.length) := by
    rintro i ⟨cur, s⟩ hi ⟨hs, hreach, hlen⟩
    simp only at hs hreach hlen
    have hic : i < cur.length := by omega
    have hget : cur.get? i = some (cur.get ⟨i, hic⟩) := List.get?_eq_get hic
    have hmem : cur.get ⟨i, hic⟩ ∈ cur := List.get_mem _ _ _
    generalize cur.get ⟨i, hic⟩ = e at hget hmem
    obtain ⟨n, hn⟩ := hreach e hmem
    have hne : ¬ (e.x = sx ∧ e.y = sy) := by
      rintro ⟨hx, hy⟩
      rw [hx, hy] at hn
      exact hsep n hn
    rw [searchBody_eq hrect hb sx sy s hget hn.passable_end, if_neg hne]
    refine ⟨_, rfl, hs, ?_, ?_⟩
    · intro c hc
      rcases List.mem_append.mp hc with h1 | h1
      · exact hreach c h1
      · obtain ⟨hc1, hc2⟩ := List.mem_filter.mp h1
        exact ⟨n + 1, Walk.step hn (mem_adjacentsOf.mp hc1).2 (keepCandidate_iff.mp hc2).1⟩
    · simp only [List.length_append]; omega
  obtain ⟨st, h1, h2, h3, _⟩ := @searchFor_invariant grid sx sy
    (fun _ st => st.searching = true ∧
      (∀ e ∈ st.pathMovesList, ∃ n, Walk grid (dx, dy) (e.x, e.y) n) ∧
      L.length ≤ st.pathMovesList.length) L.length hstep L.length 0
    { pathMovesList := L, searching := true } (by omega) ⟨rfl, hR, le_refl _⟩
  exact ⟨st, h1, h2, h3⟩

theorem searchLoop_unreachable {grid : Grid} {rows cols : Nat} {sx sy dx dy : Int}
    (hrect : isRectangular grid rows cols = true) (hb : borderAllX grid rows cols = true)
    (hsep : ∀ n, ¬ Walk grid (dx, dy) (sx, sy) n) :
    ∀ (fuel : Nat) (L : List coordinate),
      (∀ e ∈ L, ∃ n, Walk grid (dx, dy) (e.x, e.y) n) →
      searchLoop grid sx sy fuel L = Outcome.outOfFuel := by
  intro fuel
  induction fuel with
  | zero => intro L _; rfl
  | succ fuel ih =>
    intro L hR
    obtain ⟨st, h1, h2, h3⟩ := searchPass_unreachable hrect hb hsep hR
    simp only [searchLoop, h1, h2, if_true]
    exact ih _ h3

theorem initialMoves_reach {grid : Grid} {dx dy : Int} (hg : passable grid dx dy = true) :
    ∀ e ∈ initialMoves dx dy, ∃ n, Walk grid (dx, dy) (e.x, e.y) n := by
  intro e he
  simp only [initialMoves, List.mem_singleton] at he
  subst he
  exact ⟨0, Walk.start _ hg⟩

/-! ## The order of the list, on any grid with an all-"X" border -/

theorem adjacentsOf_bounds_of_interior {rows cols : Nat} {e : coordinate}
    (hi : InteriorPos rows cols e.x e.y) :
    ∀ c ∈ adjacentsOf e, 0 ≤ c.y ∧ c.y < (cols : Int) ∧ 0 ≤ c.x ∧ c.x < (rows : Int) := by
  obtain ⟨h1, h2, h3, h4⟩ := hi
  intro c hc
  simp only [adjacentsOf, List.mem_cons, List.mem_singleton, List.not_mem_nil, or_false] at hc
  rcases hc with rfl | rfl | rfl | rfl <;> simp only <;> omega

theorem adjacentsOf_inBounds_of_interior {grid : Grid} {rows cols : Nat}
    (hrect : isRectangular grid rows cols = true) {e : coordinate}
    (hi : InteriorPos rows cols e.x e.y) :
    ∀ c ∈ adjacentsOf e, cellAt grid c.y c.x ≠ none := by
  intro c hc
  obtain ⟨a, b, c', d⟩ := adjacentsOf_bounds_of_interior hi c hc
  obtain ⟨s, hs⟩ := cellAt_isSome_of_rect hrect a b c' d
  rw [hs]; simp

theorem searchBody_eq_of_inBounds {grid : Grid} (sx sy : Int) {cur : List coordinate}
    {i : Nat} {e : coordinate} (s : Bool) (hget : cur.get? i = some e)
    (hin : ∀ c ∈ adjacentsOf e, cellAt grid c.y c.x ≠ none) :
    searchBody grid sx sy i { pathMovesList := cur, searching := s } =
      if e.x = sx ∧ e.y = sy then Outcome.ok { pathMovesList := cur, searching := false }
      else Outcome.ok { pathMovesList := cur ++ (adjacentsOf e).filter (keepCandidate grid cur),
                        searching := s } := by
  unfold searchBody
  simp only [hget]
  split
  · rfl
  · rw [eraseDuplicateNodes_eq_filter grid cur _ hin]

theorem keepCandidate_false_append {grid : Grid} {l l' : List coordinate} {c : coordinate}
    (h : keepCandidate grid l c = false) : keepCandidate grid (l ++ l') c = false := by
  by_contra hc
  have hk : keepCandidate grid (l ++ l') c = true := by simpa using hc
  obtain ⟨h1, h2, h3⟩ := keepCandidate_iff.mp hk
  have h4 : hasShorterMove l c = false := by
    by_contra hs
    have hs' : hasShorterMove l c = true := by simpa using hs
    obtain ⟨m, hm, hx⟩ := hasShorterMove_iff.mp hs'
    have : hasShorterMove (l ++ l') c = true :=
      hasShorterMove_iff.mpr ⟨m, List.mem_append_left _ hm, hx⟩
    rw [this] at h3
    cases h3
  have := keepCandidate_iff.mpr ⟨h1, h2, h4⟩
  rw [h] at this
  cases this

theorem keepCandidate_false_of_mem {grid : Grid} {l : List coordinate} {c : coordinate}
    (h : c ∈ l) : keepCandidate grid l c = false := by
  by_contra hc
  have hk : keepCandidate grid l c = true := by simpa using hc
  have h3 := (keepCandidate_iff.mp hk).2.2
  have : hasShorterMove l c = true := hasShorterMove_iff.mpr ⟨c, h, rfl, rfl, le_refl _⟩
  rw [this] at h3
  cases h3

theorem distinctPos_adjacentsOf (e : coordinate) : DistinctPos (adjacentsOf e) := by
  simp only [DistinctPos, adjacentsOf, List.pairwise_cons, List.mem_cons, List.mem_singleton,
    List.not_mem_nil, or_false, forall_eq_or_imp, forall_eq, IsEmpty.forall_iff, implies_true,
    List.Pairwise.nil, and_true]
  omega

theorem levelSorted_getLast {l : List coordinate} (hs : LevelSorted l) {e z : coordinate}
    (he : e ∈ l) (hz : l.getLast? = some z) : e.moveNum ≤ z.moveNum := by
  obtain ⟨init, rfl⟩ : ∃ init, l = init ++ [z] := by
    rcases List.eq_nil_or_concat l with rfl | ⟨init, a, rfl⟩
    · cases hz
    · rw [List.concat_eq_append] at hz ⊢
      rw [List.getLast?_concat] at hz
      cases hz
      exact ⟨init, rfl⟩
  unfold LevelSorted at hs
  rw [List.pairwise_append] at hs
  rcases List.mem_append.mp he with h | h
  · exact hs.2.2 e h z (List.mem_singleton.mpr rfl)
  · rw [List.mem_singleton.mp h]

theorem levelSteps_append {k : Int} {l new : List coordinate} (hl : LevelSteps l)
    (hs : LevelSorted l) (hb : ∀ e ∈ l, e.moveNum ≤ k + 1) {e : coordinate} (he : e ∈ l)
    (hek : e.moveNum = k) (hnew : ∀ c ∈ new, c.moveNum = k + 1) : LevelSteps (l ++ new) := by
  unfold LevelSteps at *
  refine List.Chain'.append hl ?_ ?_
  · apply List.Pairwise.chain'
    rw [List.pairwise_iff_forall_sublist]
    intro a b hab
    have ha := hnew a (hab.subset (by simp))
    have hb := hnew b (hab.subset (by simp))
    omega
  · intro x hx y hy
    have h1 := levelSorted_getLast hs he hx
    have h2 := hb x (List.mem_of_mem_getLast? hx)
    have h3 := hnew y (List.mem_of_mem_head? hy)
    omega

theorem queuePass_step {grid : Grid} {rows cols : Nat} {sx sy : Int}
    (hrect : isRectangular grid rows cols = true) (hb : borderAllX grid rows cols = true)
    {k : Nat} {L0 : List coordinate} (hL : QueueInv grid rows cols k L0)
    (i : Nat) (st : SearchState) (hi : i < L0.length)
    (hinv : QueuePassInv grid rows cols (sx, sy) k L0 i st) :
    ∃ st', searchBody grid sx sy i st = Outcome.ok st' ∧
      QueuePassInv grid rows cols (sx, sy) k L0 (i + 1) st' := by
  obtain ⟨cur, s⟩ := st
  obtain ⟨⟨N, hN, hNk⟩, hsteps, hdist, hint, hexp⟩ := hinv
  simp only at hN hsteps hdist hint hexp
  have hgetL : L0.get? i = some (L0.get ⟨i, hi⟩) := List.get?_eq_get hi
  have heL : L0.get ⟨i, hi⟩ ∈ L0 := List.get_mem _ _ _
  generalize L0.get ⟨i, hi⟩ = e at hgetL heL
  have hget : cur.get? i = some e := by
    rw [hN, List.get?_eq_getElem?, List.getElem?_append_left hi, ← List.get?_eq_getElem?]
    exact hgetL
  have hecur : e ∈ cur := by rw [hN]; exact List.mem_append_left _ heL
  have hek := hL.bounded e heL
  have hsorted : LevelSorted cur := by
    rw [hN]; exact levelSorted_append hL.sorted hL.bounded hNk
  have hbound : ∀ a ∈ cur, a.moveNum ≤ (k : Int) + 1 := by
    intro a ha
    rw [hN] at ha
    rcases List.mem_append.mp ha with h | h
    · have := hL.bounded a h; omega
    · rw [hNk a h]
  rw [searchBody_eq_of_inBounds sx sy s hget
    (adjacentsOf_inBounds_of_interior hrect (hint e hecur))]
  by_cases hst : e.x = sx ∧ e.y = sy
  · rw [if_pos hst]
    refine ⟨_, rfl, ⟨N, hN, hNk⟩, hsteps, hdist, hint, ?_⟩
    intro j e' hj hge
    refine ⟨fun _ => rfl, fun hne => ?_⟩
    rcases Nat.lt_succ_iff_lt_or_eq.mp hj with hlt | heq
    · exact (hexp j e' hlt hge).2 hne
    · subst heq
      rw [hgetL] at hge
      cases hge
      exact absurd hst hne
  · rw [if_neg hst]
    have hnew : ∀ c ∈ (adjacentsOf e).filter (keepCandidate grid cur),
        c.moveNum = (k : Int) + 1 ∧ e.moveNum = (k : Int) := by
      intro c hc
      obtain ⟨hc1, hc2⟩ := List.mem_filter.mp hc
      have hek' : e.moveNum = (k : Int) := by
        by_contra hne
        have hcl := hL.closed e heL (by omega) c hc1
        have : keepCandidate grid cur c = false := by
          rw [hN]; exact keepCandidate_false_append hcl
        rw [this] at hc2
        cases hc2
      exact ⟨by rw [(mem_adjacentsOf.mp hc1).1, hek'], hek'⟩
    refine ⟨_, rfl, ⟨N ++ (adjacentsOf e).filter (keepCandidate grid cur), ?_, ?_⟩, ?_, ?_, ?_,
      ?_⟩
    · simp only [hN, List.append_assoc]
    · intro c hc
      rcases List.mem_append.mp hc with h | h
      · exact hNk c h
      · exact (hnew c h).1
    · simp only
      cases hfil : (adjacentsOf e).filter (keepCandidate grid cur) with
      | nil => rw [List.append_nil]; exact hsteps
      | cons c rest =>
        rw [← hfil]
        have hck := hnew c (by rw [hfil]; exact List.mem_cons_self _ _)
        exact levelSteps_append hsteps hsorted hbound hecur hck.2 (fun a ha => (hnew a ha).1)
    · simp only [DistinctPos]
      rw [List.pairwise_append]
      refine ⟨hdist, (distinctPos_adjacentsOf e).sublist (List.filter_sublist _), ?_⟩
      intro a ha c hc hsame
      obtain ⟨_, hc2⟩ := List.mem_filter.mp hc
      have h3 := (keepCandidate_iff.mp hc2).2.2
      have : hasShorterMove cur c = true :=
        hasShorterMove_iff.mpr ⟨a, ha, hsame.1, hsame.2, by
          rw [(hnew c hc).1]; exact hbound a ha⟩
      rw [this] at h3
      cases h3
    · intro c hc
      rcases List.mem_append.mp hc with h | h
      · exact hint c h
      · obtain ⟨_, hc2⟩ := List.mem_filter.mp h
        obtain ⟨h1, h2, h3, h4⟩ := passable_interior hrect hb (keepCandidate_iff.mp hc2).1
        exact ⟨h3, h4, h1, h2⟩
    · intro j e' hj hge
      rcases Nat.lt_succ_iff_lt_or_eq.mp hj with hlt | heq
      · exact ⟨(hexp j e' hlt hge).1, fun hne c hc =>
          keepCandidate_false_append ((hexp j e' hlt hge).2 hne c hc)⟩
      · subst heq
        rw [hgetL] at hge
        cases hge
        refine ⟨fun h => absurd h hst, fun _ c hc => ?_⟩
        by_cases hk : keepCandidate grid cur c = true
        · exact keepCandidate_false_of_mem
            (List.mem_append_right _ (List.mem_filter.mpr ⟨hc, hk⟩))
        · exact keepCandidate_false_append (by simpa using hk)

theorem queuePass_spec {grid : Grid} {rows cols : Nat} {sx sy : Int}
    (hrect : isRectangular grid rows cols = true) (hb : borderAllX grid rows cols = true)
    {k : Nat} {L0 : List coordinate} (hL : QueueInv grid rows cols k L0)
    (n : Nat) (hn : n ≤ L0.length) :
    ∃ st, searchFor grid sx sy n 0 { pathMovesList := L0, searching := true } = Outcome.ok st ∧
      QueuePassInv grid rows cols (sx, sy) k L0 n st := by
  have h0 : QueuePassInv grid rows cols (sx, sy) k L0 0
      { pathMovesList := L0, searching := true } :=
    ⟨⟨[], by simp, by simp⟩, hL.steps, hL.distinct, hL.interior,
      fun j e hj => absurd hj (Nat.not_lt_zero _)⟩
  have := @searchFor_invariant grid sx sy
    (fun i st => QueuePassInv grid rows cols (sx, sy) k L0 i st) L0.length
    (fun i st hi hQ => queuePass_step hrect hb hL i st hi hQ) n 0 _ (by omega) h0
  simpa using this

theorem queueInv_succ {grid : Grid} {rows cols : Nat} {start : Int × Int} {k : Nat}
    {L0 : List coordinate} {st : SearchState} (hL : QueueInv grid rows cols k L0)
    (h : QueuePassInv grid rows cols start k L0 L0.length st) (hs : st.searching = true) :
    QueueInv grid rows cols (k + 1) st.pathMovesList := by
  obtain ⟨N, hN, hNk⟩ := h.ext
  refine ⟨?_, h.steps, h.distinct, h.interior, ?_, ?_⟩
  · rw [hN]; exact levelSorted_append hL.sorted hL.bounded hNk
  · intro e he
    rw [hN] at he
    rcases List.mem_append.mp he with h1 | h1
    · have := hL.bounded e h1
      push_cast; omega
    · rw [hNk e h1]; push_cast; rfl
  · intro e he hlt c hc
    rw [hN] at he
    rcases List.mem_append.mp he with h1 | h1
    · obtain ⟨j, hj, hje⟩ := mem_get_index h1
      have hexp := h.expanded j e hj hje
      have hne : ¬ (e.x = start.1 ∧ e.y = start.2) := by
        intro hc'
        have := hexp.1 hc'
        rw [hs] at this
        cases this
      exact hexp.2 hne c hc
    · have := hNk e h1
      push_cast at hlt
      omega

theorem queueInv_initial {grid : Grid} {rows cols : Nat} {dx dy : Int}
    (hg : InteriorPos rows cols dx dy) :
    QueueInv grid rows cols 0 (initialMoves dx dy) := by
  refine ⟨by simp [LevelSorted, initialMoves], by simp [LevelSteps, initialMoves],
    by simp [DistinctPos, initialMoves], ?_, ?_, ?_⟩
  · intro e he
    simp only [initialMoves, List.mem_singleton] at he
    subst he
    exact hg
  · intro e he
    simp only [initialMoves, List.mem_singleton] at he
    subst he
    simp
  · intro e he hlt
    simp only [initialMoves, List.mem_singleton] at he
    subst he
    simp at hlt

theorem passesRun_queueInv {grid : Grid} {rows cols : Nat} {sx sy : Int}
    (hrect : isRectangular grid rows cols = true) (hb : borderAllX grid rows cols = true) :
    ∀ (p k : Nat) (L L' : List coordinate), QueueInv grid rows cols k L →
      passesRun grid sx sy p L = some L' → QueueInv grid rows cols (k + p) L' := by
  intro p
  induction p with
  | zero =>
    intro k L L' hL h
    simp only [passesRun, Option.some.injEq] at h
    exact h ▸ hL
  | succ p ih =>
    intro k L L' hL h
    obtain ⟨st, hst, hinv⟩ := @queuePass_spec grid rows cols sx sy hrect hb k L hL L.length
      (le_refl _)
    have hpass : searchPass grid sx sy L = Outcome.ok st := hst
    simp only [passesRun, hpass] at h
    split at h
    · rename_i hs
      have := ih (k + 1) _ _ (queueInv_succ hL hinv hs) h
      have heq : k + (p + 1) = k + 1 + p := by omega
      rw [heq]; exact this
    · cases h

/-- Every point of the search lies inside a pass that began with a list
satisfying the queue invariant. -/
theorem atSearchPoint_queue {grid : Grid} {rows cols : Nat} {sx sy dx dy : Int}
    (hrect : isRectangular grid rows cols = true) (hb : borderAllX grid rows cols = true)
    (hg : InteriorPos rows cols dx dy) {st : SearchState}
    (h : AtSearchPoint grid sx sy dx dy st) :
    ∃ k L0 i, QueueInv grid rows cols k L0 ∧ i ≤ L0.length ∧
      QueuePassInv grid rows cols (sx, sy) k L0 i st := by
  obtain ⟨p, i, L0, hp, hi, hst⟩ := h
  have hL := passesRun_queueInv hrect hb p 0 _ _ (queueInv_initial hg) hp
  obtain ⟨st', hst', hinv⟩ := @queuePass_spec grid rows cols sx sy hrect hb _ L0 hL i hi
  rw [hst] at hst'
  cases hst'
  exact ⟨_, L0, i, hL, hi, hinv⟩

theorem QueuePassInv.levelSorted {grid : Grid} {rows cols : Nat} {start : Int × Int} {k : Nat}
    {L0 : List coordinate} {i : Nat} {st : SearchState} (hL : QueueInv grid rows cols k L0)
    (h : QueuePassInv grid rows cols start k L0 i st) : LevelSorted st.pathMovesList := by
  obtain ⟨N, hN, hNk⟩ := h.ext
  rw [hN]
  exact levelSorted_append hL.sorted hL.bounded hNk

theorem searchLoop_no_fault {grid : Grid} {rows cols : Nat} {sx sy : Int}
    (hrect : isRectangular grid rows cols = true) (hb : borderAllX grid rows cols = true) :
    ∀ (fuel k : Nat) (L : List coordinate), QueueInv grid rows cols k L →
      searchLoop grid sx sy fuel L ≠ Outcome.fault := by
  intro fuel
  induction fuel with
  | zero => intro k L _ h; simp [searchLoop] at h
  | succ fuel ih =>
    intro k L hL
    obtain ⟨st, hst, hinv⟩ := @queuePass_spec grid rows cols sx sy hrect hb k L hL L.length
      (le_refl _)
    have hpass : searchPass grid sx sy L = Outcome.ok st := hst
    simp only [searchLoop, hpass]
    split
    · rename_i hs
      exact ih (k + 1) _ (queueInv_succ hL hinv hs)
    · simp

/-! ## The search only appends -/

theorem searchBody_extends {grid : Grid} {sx sy : Int} {i : Nat} {st st' : SearchState}
    (h : searchBody grid sx sy i st = Outcome.ok st') :
    st.pathMovesList <+: st'.pathMovesList := by
  unfold searchBody at h
  cases hget : st.pathMovesList.get? i with
  | none => rw [hget] at h; cases h
  | some e =>
    rw [hget] at h
    simp only at h
    split at h
    · cases h
      exact List.prefix_refl _
    · cases he : eraseDuplicateNodes grid st.pathMovesList (adjacentsOf e) with
      | fault => rw [he] at h; cases h
      | outOfFuel => rw [he] at h; cases h
      | ok adjacents =>
        rw [he] at h
        cases h
        exact List.prefix_append _ _

theorem passesRun_preserves {grid : Grid} {sx sy : Int} (P : List coordinate → Prop)
    (hstep : ∀ i st st', P st.pathMovesList → searchBody grid sx sy i st = Outcome.ok st' →
      P st'.pathMovesList) :
    ∀ (p : Nat) (L L' : List coordinate), P L →
      passesRun grid sx sy p L = some L' → P L' := by
  intro p
  induction p with
  | zero =>
    intro L L' hP h
    simp only [passesRun, Option.some.injEq] at h
    exact h ▸ hP
  | succ p ih =>
    intro L L' hP h
    unfold passesRun at h
    cases hp : searchPass grid sx sy L with
    | fault => rw [hp] at h; cases h
    | outOfFuel => rw [hp] at h; cases h
    | ok st =>
      rw [hp] at h
      simp only at h
      split at h
      · refine ih _ _ ?_ h
        exact searchFor_preserves (fun s => P s.pathMovesList) hstep _ _ _ _ hP hp
      · cases h

theorem atSearchPoint_preserves {grid : Grid} {sx sy dx dy : Int} (P : List coordinate → Prop)
    (hstep : ∀ i st st', P st.pathMovesList → searchBody grid sx sy i st = Outcome.ok st' →
      P st'.pathMovesList)
    (h0 : P (initialMoves dx dy)) {st : SearchState}
    (hst : AtSearchPoint grid sx sy dx dy st) : P st.pathMovesList := by
  obtain ⟨p, k, pml, hp, _, hk⟩ := hst
  have h1 := passesRun_preserves P hstep p _ _ h0 hp
  exact searchFor_preserves (fun s => P s.pathMovesList) hstep _ _ _ _ h1 hk

/-! ## What the trace writes -/

theorem cell_S_is_start {grid : Grid} {rows cols : Nat} {sx sy : Int}
    (hrect : isRectangular grid rows cols = true)
    (hS : onlyStartIsS grid rows cols sx sy = true) {y x : Int}
    (h : cellAt grid y x = some "S") : x = sx ∧ y = sy := by
  obtain ⟨hy0, hy, hx0, hx⟩ := cellAt_bounds_of_rect hrect h
  simp only [onlyStartIsS, Bool.and_eq_true, decide_eq_true_eq, List.all_eq_true,
    List.mem_range] at hS
  have := hS.2 y.toNat (by omega) x.toNat (by omega)
  rw [Int.toNat_of_nonneg hy0, Int.toNat_of_nonneg hx0, if_pos h] at this
  simpa using this

theorem moveTo_spec {st st' : TraceState} {nx ny : Int}
    (h : moveTo st nx ny = Outcome.ok st') :
    st'.posStartX = nx ∧ st'.posStartY = ny ∧ st'.visited = (nx, ny) :: st.visited ∧
    st'.movesUsed = st.movesUsed + 1 ∧
    ∀ y x, cellAt st'.grid y x =
      if y = ny ∧ x = nx then some "S"
      else if y = st.posStartY ∧ x = st.posStartX then some "_"
      else cellAt st.grid y x := by
  unfold moveTo at h
  cases h1 : setCell st.grid st.posStartY st.posStartX "_" with
  | none => rw [h1] at h; cases h
  | some g1 =>
    rw [h1] at h
    simp only at h
    cases h2 : setCell g1 ny nx "S" with
    | none => rw [h2] at h; cases h
    | some g2 =>
      rw [h2] at h
      cases h
      refine ⟨rfl, rfl, rfl, rfl, fun y x => ?_⟩
      simp only
      rw [cellAt_setCell h2, cellAt_setCell h1]

theorem traceFrame_step {grid0 : Grid} {start : Int × Int} {pml : List coordinate}
    {st st' : TraceState} (hinv : TraceFrame grid0 start st)
    (h : traceFor pml st = Outcome.ok st') : TraceFrame grid0 start st' := by
  rw [traceFor_eq] at h
  cases hf : pml.find? (adjacentTo st.posStartX st.posStartY) with
  | none =>
    rw [hf] at h
    cases h
    exact hinv
  | some e =>
    rw [hf] at h
    obtain ⟨hx, hy, hv, _, hcells⟩ := moveTo_spec h
    refine ⟨fun y x => ?_, ?_, ?_⟩
    · rw [hcells, hx, hy, hv, hinv.cells]
      by_cases h1 : y = e.y ∧ x = e.x
      · rw [if_pos h1, if_pos ⟨h1.2, h1.1⟩]
      · have h1' : ¬ (x = e.x ∧ y = e.y) := fun hc => h1 ⟨hc.2, hc.1⟩
        rw [if_neg h1, if_neg h1']
        by_cases h2 : y = st.posStartY ∧ x = st.posStartX
        · have hmem : (x, y) ∈ (e.x, e.y) :: st.visited := by
            rw [h2.1, h2.2]
            exact List.mem_cons_of_mem _ hinv.curVisited
          rw [if_pos h2, if_pos hmem]
        · have h2' : ¬ (x = st.posStartX ∧ y = st.posStartY) := fun hc => h2 ⟨hc.2, hc.1⟩
          rw [if_neg h2, if_neg h2']
          have hiff : (x, y) ∈ (e.x, e.y) :: st.visited ↔ (x, y) ∈ st.visited := by
            simp only [List.mem_cons, Prod.mk.injEq]
            constructor
            · rintro (hc | hc)
              · exact absurd hc h1'
              · exact hc
            · exact Or.inr
          simp only [hiff]
    · rw [hv]
      exact List.mem_cons_of_mem _ hinv.startVisited
    · rw [hv, hx, hy]
      exact List.mem_cons_self _ _

theorem traceFrame_start {grid : Grid} {sx sy : Int}
    (hS : cellAt grid sy sx = some "S") :
    TraceFrame grid (sx, sy) (traceStart grid sx sy) := by
  refine ⟨fun y x => ?_, by simp [traceStart], by simp [traceStart]⟩
  simp only [traceStart, List.mem_singleton, Prod.mk.injEq]
  by_cases h : x = sx ∧ y = sy
  · rw [if_pos h, h.1, h.2, hS]
  · rw [if_neg h, if_neg h]

theorem traceIter_preserves {pml : List coordinate} {dx dy : Int} (P : TraceState → Prop)
    (hstep : ∀ s s', P s → traceFor pml s = Outcome.ok s' → P s') :
    ∀ (n : Nat) (st st' : TraceState), P st → traceIter pml dx dy n st = some st' → P st' := by
  intro n
  induction n with
  | zero =>
    intro st st' hP h
    simp only [traceIter, Option.some.injEq] at h
    exact h ▸ hP
  | succ n ih =>
    intro st st' hP h
    simp only [traceIter] at h
    split at h
    · cases h1 : traceFor pml st with
      | ok s1 =>
        rw [h1] at h
        exact ih s1 st' (hstep st s1 hP h1) h
      | fault => rw [h1] at h; cases h
      | outOfFuel => rw [h1] at h; cases h
    · cases h

theorem traceLoop_preserves {pml : List coordinate} {dx dy : Int} (P : TraceState → Prop)
    (hstep : ∀ s s', P s → traceFor pml s = Outcome.ok s' → P s') :
    ∀ (fuel : Nat) (st st' : TraceState), P st →
      traceLoop pml dx dy fuel st = Outcome.ok st' → P st' := by
  intro fuel
  induction fuel with
  | zero =>
    intro st st' hP h
    simp only [traceLoop] at h
    split at h
    · cases h
    · cases h; exact hP
  | succ fuel ih =>
    intro st st' hP h
    simp only [traceLoop] at h
    split at h
    · cases h1 : traceFor pml st with
      | ok s1 =>
        rw [h1] at h
        exact ih s1 st' (hstep st s1 hP h1) h
      | fault => rw [h1] at h; cases h
      | outOfFuel => rw [h1] at h; cases h
    · cases h; exact hP

theorem TraceFrame.onlyS {grid0 : Grid} {rows cols : Nat} {sx sy : Int} {st : TraceState}
    (hrect : isRectangular grid0 rows cols = true)
    (hS : onlyStartIsS grid0 rows cols sx sy = true)
    (h : TraceFrame grid0 (sx, sy) st) (y x : Int) :
    cellAt st.grid y x = some "S" ↔ (x = st.posStartX ∧ y = st.posStartY) := by
  rw [h.cells]
  constructor
  · intro hc
    by_contra hne
    rw [if_neg hne] at hc
    split at hc
    · exact absurd hc (by decide)
    · rename_i hnv
      obtain ⟨h1, h2⟩ := cell_S_is_start hrect hS hc
      rw [h1, h2] at hnv
      exact hnv h.startVisited
  · intro hc
    rw [if_pos hc]

/-! ## The generation part -/

theorem dist_range {lo hi : Int} (h : lo ≤ hi) (raw : Nat) :
    lo ≤ dist lo hi raw ∧ dist lo hi raw ≤ hi := by
  unfold dist
  have hpos : 0 < hi - lo + 1 := by omega
  have h1 := Int.emod_nonneg (raw : Int) (ne_of_gt hpos)
  have h2 := Int.emod_lt_of_pos (raw : Int) hpos
  omega

theorem Outcome.map_eq_ok {α β : Type} {f : α → β} {o : Outcome α} {b : β}
    (h : o.map f = Outcome.ok b) : ∃ a, o = Outcome.ok a ∧ f a = b := by
  cases o with
  | ok a => exact ⟨a, rfl, Outcome.ok.inj h⟩
  | fault => cases h
  | outOfFuel => cases h

theorem fillRow_spec {rows cols colN : Nat} :
    ∀ (n rowN : Nat) (draws : List Nat) (cells : List String) (rest : List Nat),
      fillRow rows cols colN n rowN draws = Outcome.ok (cells, rest) →
      cells.length = n ∧ ∀ s ∈ cells, s = "X" ∨ s = "_" := by
  intro n
  induction n with
  | zero =>
    intro rowN draws cells rest h
    simp only [fillRow, Outcome.ok.injEq, Prod.mk.injEq] at h
    rw [← h.1]
    simp
  | succ n ih =>
    intro rowN draws cells rest h
    unfold fillRow at h
    split at h
    · obtain ⟨r, hr, he⟩ := Outcome.map_eq_ok h
      cases he
      obtain ⟨h1, h2⟩ := ih _ _ r.1 r.2 hr
      refine ⟨by simp [h1], fun s hs => ?_⟩
      rcases List.mem_cons.mp hs with rfl | hs'
      · exact Or.inl rfl
      · exact h2 s hs'
    · split at h
      · obtain ⟨r, hr, he⟩ := Outcome.map_eq_ok h
        cases he
        obtain ⟨h1, h2⟩ := ih _ _ r.1 r.2 hr
        refine ⟨by simp [h1], fun s hs => ?_⟩
        rcases List.mem_cons.mp hs with rfl | hs'
        · exact Or.inl rfl
        · exact h2 s hs'
      · cases draws with
        | nil => cases h
        | cons raw draws' =>
          simp only at h
          obtain ⟨r, hr, he⟩ := Outcome.map_eq_ok h
          cases he
          obtain ⟨h1, h2⟩ := ih _ _ r.1 r.2 hr
          refine ⟨by simp [h1], fun s hs => ?_⟩
          rcases List.mem_cons.mp hs with rfl | hs'
          · split
            · exact Or.inl rfl
            · exact Or.inr rfl
          · exact h2 s hs'

theorem fillGrid_spec {rows cols : Nat} :
    ∀ (n colN : Nat) (draws : List Nat) (g : Grid) (rest : List Nat),
      fillGrid rows cols n colN draws = Outcome.ok (g, rest) →
      g.length = n ∧ ∀ row ∈ g, row.length = rows ∧ ∀ s ∈ row, s = "X" ∨ s = "_" := by
  intro n
  induction n with
  | zero =>
    intro colN draws g rest h
    simp only [fillGrid, Outcome.ok.injEq, Prod.mk.injEq] at h
    rw [← h.1]
    simp
  | succ n ih =>
    intro colN draws g rest h
    unfold fillGrid at h
    cases hrow : fillRow rows cols colN rows 0 draws with
    | fault => rw [hrow] at h; cases h
    | outOfFuel => rw [hrow] at h; cases h
    | ok r =>
      obtain ⟨row, draws'⟩ := r
      rw [hrow] at h
      simp only at h
      obtain ⟨r2, hr2, he⟩ := Outcome.map_eq_ok h
      cases he
      obtain ⟨h1, h2⟩ := ih _ _ r2.1 r2.2 hr2
      refine ⟨by simp [h1], fun row' hrow' => ?_⟩
      rcases List.mem_cons.mp hrow' with rfl | hr'
      · exact fillRow_spec _ _ _ _ _ hrow
      · exact h2 row' hr'

theorem Walk.transfer {g g' : Grid} (hm : ∀ x y, passable g x y = true → passable g' x y = true)
    {p q : Int × Int} {n : Nat} (h : Walk g p q n) : Walk g' p q n := by
  induction h with
  | start hp => exact Walk.start _ (hm _ _ hp)
  | step _ hadj hp ih => exact Walk.step ih hadj (hm _ _ hp)

theorem shape_of_rect {grid : Grid} {rows cols : Nat}
    (hrect : isRectangular grid rows cols = true) (y x : Int) :
    cellAt grid y x ≠ none ↔ (0 ≤ y ∧ y < (cols : Int) ∧ 0 ≤ x ∧ x < (rows : Int)) := by
  constructor
  · intro h
    cases hc : cellAt grid y x with
    | none => exact absurd hc h
    | some s => exact cellAt_bounds_of_rect hrect hc
  · rintro ⟨a, b, c, d⟩
    obtain ⟨s, hs⟩ := cellAt_isSome_of_rect hrect a b c d
    rw [hs]; simp

theorem fillGrid_result {rows cols : Nat} {draws rest : List Nat} {g : Grid}
    (h : fillGrid rows cols cols 0 draws = Outcome.ok (g, rest)) :
    isRectangular g rows cols = true ∧
    ∀ y x s, cellAt g y x = some s → s = "X" ∨ s = "_" := by
  obtain ⟨h1, h2⟩ := fillGrid_spec _ _ _ _ _ h
  refine ⟨?_, fun y x s hs => ?_⟩
  · simp only [isRectangular, Bool.and_eq_true, decide_eq_true_eq, List.all_eq_true]
    exact ⟨h1, fun row hrow => (h2 row hrow).1⟩
  · obtain ⟨_, _, row, hrow, hcell⟩ := cellAt_eq_some hs
    exact (h2 row (List.get?_mem hrow)).2 s (List.get?_mem hcell)

theorem placeStart_spec {rows cols : Nat} (hr : 3 ≤ rows) (hc : 3 ≤ cols) {g : Grid}
    (hshape : ∀ y x, cellAt g y x ≠ none ↔
      (0 ≤ y ∧ y < (cols : Int) ∧ 0 ≤ x ∧ x < (rows : Int)))
    (hnoO : ∀ y x, cellAt g y x ≠ some "O")
    {draws rest : List Nat} {st : GenState}
    (h : placeStart rows cols g draws = Outcome.ok (st, rest)) :
    (1 ≤ st.posStartX ∧ st.posStartX ≤ (rows : Int) - 2 ∧
      1 ≤ st.posStartY ∧ st.posStartY ≤ (cols : Int) - 2) ∧
    st.tracePosStartX = st.posStartX ∧ st.tracePosStartY = st.posStartY ∧
    (∀ y x, cellAt st.grid y x ≠ none ↔
      (0 ≤ y ∧ y < (cols : Int) ∧ 0 ≤ x ∧ x < (rows : Int))) ∧
    cellAt st.grid st.posStartY st.posStartX = some "S" ∧
    ∀ y x, cellAt st.grid y x ≠ some "O" := by
  cases draws with
  | nil => cases h
  | cons rawRow t =>
    cases t with
    | nil => cases h
    | cons rawCol rest' =>
      simp only [placeStart] at h
      have hx := @dist_range 1 ((rows : Int) - 2) (by omega) rawRow
      have hy := @dist_range 1 ((cols : Int) - 2) (by omega) rawCol
      cases hset : setCell g (dist 1 ((cols : Int) - 2) rawCol)
          (dist 1 ((rows : Int) - 2) rawRow) "S" with
      | none => rw [hset] at h; cases h
      | some g1 =>
        rw [hset] at h
        simp only [Outcome.ok.injEq, Prod.mk.injEq] at h
        obtain ⟨h1, _⟩ := h
        subst h1
        refine ⟨⟨hx.1, hx.2, hy.1, hy.2⟩, rfl, rfl, fun y x => ?_, ?_, fun y x => ?_⟩
        · simp only
          rw [cellAt_setCell_isSome hset, hshape]
        · simp only
          rw [cellAt_setCell hset, if_pos ⟨rfl, rfl⟩]
        · simp only
          rw [cellAt_setCell hset]
          split
          · decide
          · exact hnoO y x

theorem placeDest_spec {rows cols : Nat} (hr : 3 ≤ rows) (hc : 3 ≤ cols) :
    ∀ (n : Nat) (draws rest : List Nat) (st st' : GenState), draws.length ≤ n →
      (1 ≤ st.posStartX ∧ st.posStartX ≤ (rows : Int) - 2 ∧
        1 ≤ st.posStartY ∧ st.posStartY ≤ (cols : Int) - 2) →
      st.tracePosStartX = st.posStartX → st.tracePosStartY = st.posStartY →
      (∀ y x, cellAt st.grid y x ≠ none ↔
        (0 ≤ y ∧ y < (cols : Int) ∧ 0 ≤ x ∧ x < (rows : Int))) →
      cellAt st.grid st.posStartY st.posStartX = some "S" →
      (∀ y x, cellAt st.grid y x ≠ some "O") →
      placeDest rows cols draws st = Outcome.ok (st', rest) →
      CarveInv rows cols st' := by
  intro n
  induction n with
  | zero =>
    intro draws rest st st' hlen _ _ _ _ _ _ h
    cases draws with
    | nil => cases h
    | cons a t => simp at hlen
  | succ n ih =>
    intro draws rest st st' hlen hin htx hty hshape hS hnoO h
    cases draws with
    | nil => cases h
    | cons rawRow t =>
      cases t with
      | nil => cases h
      | cons rawCol rest' =>
        simp only [placeDest] at h
        have hx := @dist_range 1 ((rows : Int) - 2) (by omega) rawRow
        have hy := @dist_range 1 ((cols : Int) - 2) (by omega) rawCol
        cases hcell : cellAt st.grid (dist 1 ((cols : Int) - 2) rawCol)
            (dist 1 ((rows : Int) - 2) rawRow) with
        | none => rw [hcell] at h; cases h
        | some s =>
          rw [hcell] at h
          simp only at h
          split at h
          · rename_i hne
            cases hset : setCell st.grid (dist 1 ((cols : Int) - 2) rawCol)
                (dist 1 ((rows : Int) - 2) rawRow) "O" with
            | none => rw [hset] at h; cases h
            | some g1 =>
              rw [hset] at h
              simp only [Outcome.ok.injEq, Prod.mk.injEq] at h
              obtain ⟨h1, _⟩ := h
              subst h1
              have hdiff : ¬ (dist 1 ((rows : Int) - 2) rawRow = st.posStartX ∧
                  dist 1 ((cols : Int) - 2) rawCol = st.posStartY) := by
                rintro ⟨e1, e2⟩
                rw [e1, e2, hS] at hcell
                exact hne (Option.some.inj hcell).symm
              have hSg : cellAt g1 st.posStartY st.posStartX = some "S" := by
                rw [cellAt_setCell hset, if_neg (fun hc' => hdiff ⟨hc'.2.symm, hc'.1.symm⟩), hS]
              refine ⟨fun y x => ?_, ?_, ⟨hx.1, hx.2, hy.1, hy.2⟩, ?_, fun y x ho => ?_, hdiff, ?_⟩
              · simp only
                rw [cellAt_setCell_isSome hset, hshape]
              · simp only
                omega
              · simp only
                rw [cellAt_setCell hset, if_pos ⟨rfl, rfl⟩]
              · simp only at ho ⊢
                rw [cellAt_setCell hset] at ho
                split at ho
                · rename_i hyx
                  exact ⟨hyx.2, hyx.1⟩
                · exact absurd ho (hnoO y x)
              · simp only
                rw [htx, hty]
                refine ⟨0, Walk.start _ ?_⟩
                rw [passable_iff]
                exact ⟨"S", hSg, by decide⟩
          · exact ih rest' rest st st' (by simp at hlen; omega) hin htx hty hshape hS hnoO h

theorem adjacent4_moves (x y : Int) :
    adjacent4 (x, y) (x + 1, y) ∧ adjacent4 (x, y) (x - 1, y) ∧
    adjacent4 (x, y) (x, y + 1) ∧ adjacent4 (x, y) (x, y - 1) := by
  simp [adjacent4]

theorem carveAt_inv {rows cols : Nat} {st st' : GenState} {nx ny : Int}
    (hinv : CarveInv rows cols st)
    (hadj : adjacent4 (st.tracePosStartX, st.tracePosStartY) (nx, ny))
    (hx : 1 ≤ nx ∧ nx ≤ (rows : Int) - 1) (hy : 1 ≤ ny ∧ ny ≤ (cols : Int) - 1)
    (h : carveAt st nx ny = Outcome.ok st') : CarveInv rows cols st' := by
  obtain ⟨n, hw⟩ := hinv.walk
  unfold carveAt at h
  cases hcell : cellAt st.grid ny nx with
  | none => rw [hcell] at h; cases h
  | some s =>
    rw [hcell] at h
    simp only at h
    split at h
    · rename_i hne
      cases hset : setCell st.grid ny nx "_" with
      | none => rw [hset] at h; cases h
      | some g1 =>
        rw [hset] at h
        cases h
        have hmono : ∀ x y, passable st.grid x y = true → passable g1 x y = true := by
          intro x y hp
          obtain ⟨s', hs', hne'⟩ := passable_iff.mp hp
          rw [passable_iff, cellAt_setCell hset]
          split
          · exact ⟨"_", rfl, by decide⟩
          · exact ⟨s', hs', hne'⟩
        have hnew : passable g1 nx ny = true := by
          rw [passable_iff, cellAt_setCell hset, if_pos ⟨rfl, rfl⟩]
          exact ⟨"_", rfl, by decide⟩
        have hnd : ¬ (st.posDestY = ny ∧ st.posDestX = nx) := by
          rintro ⟨e1, e2⟩
          have := hinv.goalO
          rw [e1, e2, hcell] at this
          exact hne (Option.some.inj this)
        refine ⟨fun y x => ?_, ⟨hx.1, hx.2, hy.1, hy.2⟩, hinv.destIn, ?_, fun y x ho => ?_,
          hinv.startNeDest, ⟨n + 1, Walk.step (hw.transfer hmono) hadj hnew⟩⟩
        · simp only
          rw [cellAt_setCell_isSome hset, hinv.shape]
        · simp only
          rw [cellAt_setCell hset, if_neg hnd]
          exact hinv.goalO
        · simp only at ho ⊢
          rw [cellAt_setCell hset] at ho
          split at ho
          · exact absurd ho (by decide)
          · exact hinv.onlyO y x ho
    · rename_i hO
      cases h
      have hs : s = "O" := by
        by_contra hc
        exact hO hc
      have hnew : passable st.grid nx ny = true := by
        rw [passable_iff]
        exact ⟨s, hcell, by rw [hs]; decide⟩
      exact ⟨hinv.shape, ⟨hx.1, hx.2, hy.1, hy.2⟩, hinv.destIn, hinv.goalO, hinv.onlyO,
        hinv.startNeDest, ⟨n + 1, Walk.step hw hadj hnew⟩⟩

theorem carveBody_inv {rows cols : Nat} {raw : Nat} {rest rest' : List Nat}
    {st st' : GenState} (hinv : CarveInv rows cols st)
    (h : carveBody rows cols raw rest st = Outcome.ok (st', rest')) :
    CarveInv rows cols st' := by
  obtain ⟨t1, t2, t3, t4⟩ := hinv.traceIn
  obtain ⟨d1, d2, d3, d4⟩ := hinv.destIn
  have key : ∀ (nx ny : Int) (r : List Nat),
      adjacent4 (st.tracePosStartX, st.tracePosStartY) (nx, ny) →
      (1 ≤ nx ∧ nx ≤ (rows : Int) - 1) → (1 ≤ ny ∧ ny ≤ (cols : Int) - 1) →
      (carveAt st nx ny).map (fun s => (s, r)) = Outcome.ok (st', rest') →
      CarveInv rows cols st' := by
    intro nx ny r hadj hx hy hm
    obtain ⟨s, hs, he⟩ := Outcome.map_eq_ok hm
    cases he
    exact carveAt_inv hinv hadj hx hy hs
  obtain ⟨axp, axm, ayp, aym⟩ := adjacent4_moves st.tracePosStartX st.tracePosStartY
  unfold carveBody at h
  split at h
  · split at h
    · exact key _ _ _ axp (by omega) (by omega) h
    · split at h
      · exact key _ _ _ axm (by omega) (by omega) h
      · split at h
        · rename_i hguard
          cases rest with
          | nil => cases h
          | cons rawInc r' =>
            simp only at h
            split at h
            · exact key _ _ _ axp (by omega) (by omega) h
            · exact key _ _ _ axm (by omega) (by omega) h
        · cases h
          exact hinv
  · split at h
    · exact key _ _ _ ayp (by omega) (by omega) h
    · split at h
      · exact key _ _ _ aym (by omega) (by omega) h
      · split at h
        · rename_i hguard
          cases rest with
          | nil => cases h
          | cons rawInc r' =>
            simp only at h
            split at h
            · exact key _ _ _ ayp (by omega) (by omega) h
            · exact key _ _ _ aym (by omega) (by omega) h
        · cases h
          exact hinv

theorem carve_inv {rows cols : Nat} :
    ∀ (fuel : Nat) (draws : List Nat) (st st' : GenState), CarveInv rows cols st →
      carve rows cols fuel draws st = Outcome.ok st' →
      CarveInv rows cols st' ∧ st'.tracePosStartX = st'.posDestX ∧
        st'.tracePosStartY = st'.posDestY := by
  intro fuel
  induction fuel with
  | zero =>
    intro draws st st' hinv h
    simp only [carve] at h
    split at h
    · cases h
    · rename_i hc
      cases h
      exact ⟨hinv, by omega, by omega⟩
  | succ fuel ih =>
    intro draws st st' hinv h
    simp only [carve] at h
    split at h
    · cases draws with
      | nil => cases h
      | cons raw rest =>
        simp only at h
        cases hb : carveBody rows cols raw rest st with
        | fault => rw [hb] at h; cases h
        | outOfFuel => rw [hb] at h; cases h
        | ok r =>
          obtain ⟨s1, r1⟩ := r
          rw [hb] at h
          exact ih r1 s1 st' (carveBody_inv hinv hb) h
    · rename_i hc
      cases h
      exact ⟨hinv, by omega, by omega⟩

/-- When the generation part returns, the carve invariant holds of the final
state and the trace position has reached the destination. -/
theorem generate_spec {rows cols : Nat} (hr : 3 ≤ rows) (hc : 3 ≤ cols) {draws : List Nat}
    {st : GenState} (h : generate rows cols draws = Outcome.ok st) :
    CarveInv rows cols st ∧ st.tracePosStartX = st.posDestX ∧
      st.tracePosStartY = st.posDestY := by
  unfold generate at h
  cases h1 : fillGrid rows cols cols 0 draws with
  | fault => rw [h1] at h; cases h
  | outOfFuel => rw [h1] at h; cases h
  | ok r1 =>
    obtain ⟨g, draws1⟩ := r1
    rw [h1] at h
    simp only at h
    obtain ⟨hrect, hcont⟩ := fillGrid_result h1
    have hnoO : ∀ y x, cellAt g y x ≠ some "O" := by
      intro y x ho
      rcases hcont y x "O" ho with hc' | hc' <;> exact absurd hc' (by decide)
    cases h2 : placeStart rows cols g draws1 with
    | fault => rw [h2] at h; cases h
    | outOfFuel => rw [h2] at h; cases h
    | ok r2 =>
      obtain ⟨st1, draws2⟩ := r2
      rw [h2] at h
      simp only at h
      obtain ⟨a1, a2, a3, a4, a5, a6⟩ := placeStart_spec hr hc (shape_of_rect hrect) hnoO h2
      cases h3 : placeDest rows cols draws2 st1 with
      | fault => rw [h3] at h; cases h
      | outOfFuel => rw [h3] at h; cases h
      | ok r3 =>
        obtain ⟨st2, draws3⟩ := r3
        rw [h3] at h
        simp only at h
        have hinv := placeDest_spec hr hc _ draws2 draws3 st1 st2 (le_refl _) a1 a2 a3 a4 a5 a6 h3
        exact carve_inv _ _ _ _ hinv h

/-! # The claims -/

/-- C1: on every valid grid the pathfinding part (search loop followed by trace
loop) terminates, and the final `movesUsed` is the length of a shortest
4-directional path from Start to Goal through cells that are not "X". -/
theorem C1_shortest_path (grid : Grid) (rows cols : Nat) (sx sy dx dy : Int)
    (h : ValidGrid grid rows cols sx sy dx dy) :
    ∃ d : Nat, IsDistance grid (sx, sy) (dx, dy) d ∧
      ∀ fuel, d + 1 ≤ fuel →
        ∃ st, pathfind grid sx sy dx dy fuel = Outcome.ok st ∧ st.movesUsed = (d : Int) := by
  obtain ⟨d, F, hd, hF, hfin⟩ := valid_search h
  obtain ⟨st, hst, hinv⟩ := valid_trace h hd hfin
  refine ⟨d, hd.reverse, fun fuel hf => ⟨st, ?_, ?_⟩⟩
  · simp only [pathfind, hF fuel hf]
    exact hst fuel (by omega)
  · have := hinv.moves
    push_cast at this
    omega

/-- Witness of C1 on the 5x5 detour grid. -/
theorem C1_shortest_path_witness :
    ValidGrid gridDetour 5 5 1 1 3 3 ∧
    ∃ d : Nat, IsDistance gridDetour (1, 1) (3, 3) d ∧
      ∀ fuel, d + 1 ≤ fuel →
        ∃ st, pathfind gridDetour 1 1 3 3 fuel = Outcome.ok st ∧ st.movesUsed = (d : Int) :=
  have hv : ValidGrid gridDetour 5 5 1 1 3 3 :=
    ⟨by decide, by decide, by decide, by decide, by decide,
      ⟨4, Walk.step (Walk.step (Walk.step (Walk.step (Walk.start (1, 1) (by decide))
        (r := (2, 1)) (by decide) (by decide)) (r := (3, 1)) (by decide) (by decide))
        (r := (3, 2)) (by decide) (by decide)) (r := (3, 3)) (by decide) (by decide)⟩⟩
  ⟨hv, C1_shortest_path gridDetour 5 5 1 1 3 3 hv⟩

/-- C2: on every valid grid the search loop exits, and whenever it exits every
entry `(x, y, moveNum)` of `pathMovesList` is on a cell that is not "X" and
`moveNum` is the minimum number of 4-directional moves from the Goal to
`(x, y)` through cells that are not "X". -/
theorem C2_recorded_distances (grid : Grid) (rows cols : Nat) (sx sy dx dy : Int)
    (h : ValidGrid grid rows cols sx sy dx dy) :
    (∃ fuel pml, searchLoop grid sx sy fuel (initialMoves dx dy) = Outcome.ok pml) ∧
    ∀ fuel pml, searchLoop grid sx sy fuel (initialMoves dx dy) = Outcome.ok pml →
      ∀ e ∈ pml, (∃ s, cellAt grid e.y e.x = some s ∧ s ≠ "X") ∧
        ∃ n : Nat, e.moveNum = (n : Int) ∧ IsDistance grid (dx, dy) (e.x, e.y) n := by
  obtain ⟨d, F, hd, hF, hfin⟩ := valid_search h
  refine ⟨⟨d + 1, F, hF _ (le_refl _)⟩, fun fuel pml hpml e he => ?_⟩
  have : pml = F := searchLoop_deterministic hpml (hF _ (le_refl _))
  subst this
  exact ⟨passable_iff.mp (hfin.sound.passable he), hfin.sound e he⟩

/-- Witness of C2 on the 5x5 detour grid. -/
theorem C2_recorded_distances_witness :
    ValidGrid gridDetour 5 5 1 1 3 3 ∧
    ((∃ fuel pml, searchLoop gridDetour 1 1 fuel (initialMoves 3 3) = Outcome.ok pml) ∧
    ∀ fuel pml, searchLoop gridDetour 1 1 fuel (initialMoves 3 3) = Outcome.ok pml →
      ∀ e ∈ pml, (∃ s, cellAt gridDetour e.y e.x = some s ∧ s ≠ "X") ∧
        ∃ n : Nat, e.moveNum = (n : Int) ∧ IsDistance gridDetour (3, 3) (e.x, e.y) n) :=
  have hv : ValidGrid gridDetour 5 5 1 1 3 3 :=
    ⟨by decide, by decide, by decide, by decide, by decide,
      ⟨4, Walk.step (Walk.step (Walk.step (Walk.step (Walk.start (1, 1) (by decide))
        (r := (2, 1)) (by decide) (by decide)) (r := (3, 1)) (by decide) (by decide))
        (r := (3, 2)) (by decide) (by decide)) (r := (3, 3)) (by decide) (by decide)⟩⟩
  ⟨hv, C2_recorded_distances gridDetour 5 5 1 1 3 3 hv⟩

/-- C3: on every valid grid the `while (searching)` loop exits after finitely
many passes (`d + 1` of them, `d` being the distance of Start from Goal), and
on exit `pathMovesList` has an entry at the Start position, whose `moveNum` is
the finite number `d`. -/
theorem C3_search_terminates (grid : Grid) (rows cols : Nat) (sx sy dx dy : Int)
    (h : ValidGrid grid rows cols sx sy dx dy) :
    ∃ (d : Nat) (pml : List coordinate),
      (∀ fuel, d + 1 ≤ fuel →
        searchLoop grid sx sy fuel (initialMoves dx dy) = Outcome.ok pml) ∧
      ∃ e ∈ pml, e.x = sx ∧ e.y = sy ∧ e.moveNum = (d : Int) := by
  obtain ⟨d, F, hd, hF, hfin⟩ := valid_search h
  refine ⟨d, F, hF, ?_⟩
  obtain ⟨e, he, hx, hy⟩ := hfin.complete _ _ hd.1 (le_refl _)
  obtain ⟨n, hn, hdn⟩ := hfin.sound e he
  simp only at hx hy
  rw [hx, hy] at hdn
  exact ⟨e, he, hx, hy, by rw [hn, hdn.unique hd]⟩

/-- Witness of C3 on the corridor grid. -/
theorem C3_search_terminates_witness :
    ValidGrid gridCorridor 5 3 2 1 1 1 ∧
    ∃ (d : Nat) (pml : List coordinate),
      (∀ fuel, d + 1 ≤ fuel →
        searchLoop gridCorridor 2 1 fuel (initialMoves 1 1) = Outcome.ok pml) ∧
      ∃ e ∈ pml, e.x = 2 ∧ e.y = 1 ∧ e.moveNum = (d : Int) :=
  have hv : ValidGrid gridCorridor 5 3 2 1 1 1 :=
    ⟨by decide, by decide, by decide, by decide, by decide,
      ⟨1, Walk.step (Walk.start (2, 1) (by decide)) (r := (1, 1)) (by decide) (by decide)⟩⟩
  ⟨hv, C3_search_terminates gridCorridor 5 3 2 1 1 1 hv⟩

/-- C4: on every valid grid, with the `pathMovesList` the search produces,
every iteration of the trace loop that begins at a position `p` different from
the Goal moves to a 4-adjacent position `q`, namely the position of the first
list entry adjacent to `p`, and the `moveNum` of that entry is exactly one
less than the `moveNum` recorded for `p`. -/
theorem C4_trace_step (grid : Grid) (rows cols : Nat) (sx sy dx dy : Int)
    (h : ValidGrid grid rows cols sx sy dx dy) :
    ∃ (d : Nat) (pml : List coordinate),
      (∀ fuel, d + 1 ≤ fuel →
        searchLoop grid sx sy fuel (initialMoves dx dy) = Outcome.ok pml) ∧
      ∀ n st, traceIter pml dx dy n (traceStart grid sx sy) = some st →
        (st.posStartX ≠ dx ∨ st.posStartY ≠ dy) →
        ∃ st' eq, traceFor pml st = Outcome.ok st' ∧
          adjacent4 (st.posStartX, st.posStartY) (st'.posStartX, st'.posStartY) ∧
          pml.find? (adjacentTo st.posStartX st.posStartY) = some eq ∧
          eq ∈ pml ∧ eq.x = st'.posStartX ∧ eq.y = st'.posStartY ∧
          (∃ ep ∈ pml, ep.x = st.posStartX ∧ ep.y = st.posStartY) ∧
          ∀ ep ∈ pml, ep.x = st.posStartX → ep.y = st.posStartY →
            eq.moveNum = ep.moveNum - 1 := by
  obtain ⟨d, F, hd, hF, hfin⟩ := valid_search h
  refine ⟨d, F, hF, fun n st hst hne => ?_⟩
  have hg := goal_passable h.goalO
  obtain ⟨m, hinv⟩ := traceIter_inv hfin hg n _ st d (traceInv_start hfin hd) hst
  have hm := (hinv.at_goal_iff hfin hg).mp hne
  obtain ⟨m', rfl⟩ : ∃ m', m = m' + 1 := ⟨m - 1, by omega⟩
  obtain ⟨st', e, h1, hinv', heF, hex, hey, hem, hadj, hfind⟩ := traceInv_step hfin hinv
  obtain ⟨ep, hep, hpx, hpy, hpm⟩ := hinv.recorded
  refine ⟨st', e, h1, hadj, hfind, heF, hex, hey, ⟨ep, hep, hpx, hpy⟩, ?_⟩
  intro ep' hep' hx' hy'
  obtain ⟨n1, hn1, hd1⟩ := hfin.sound ep hep
  obtain ⟨n2, hn2, hd2⟩ := hfin.sound ep' hep'
  rw [hpx, hpy] at hd1
  rw [hx', hy'] at hd2
  have := hd1.unique hd2
  push_cast at hpm
  omega

/-- Witness of C4 on the 5x5 detour grid. -/
theorem C4_trace_step_witness :
    ValidGrid gridDetour 5 5 1 1 3 3 ∧
    ∃ (d : Nat) (pml : List coordinate),
      (∀ fuel, d + 1 ≤ fuel →
        searchLoop gridDetour 1 1 fuel (initialMoves 3 3) = Outcome.ok pml) ∧
      ∀ n st, traceIter pml 3 3 n (traceStart gridDetour 1 1) = some st →
        (st.posStartX ≠ 3 ∨ st.posStartY ≠ 3) →
        ∃ st' eq, traceFor pml st = Outcome.ok st' ∧
          adjacent4 (st.posStartX, st.posStartY) (st'.posStartX, st'.posStartY) ∧
          pml.find? (adjacentTo st.posStartX st.posStartY) = some eq ∧
          eq ∈ pml ∧ eq.x = st'.posStartX ∧ eq.y = st'.posStartY ∧
          (∃ ep ∈ pml, ep.x = st.posStartX ∧ ep.y = st.posStartY) ∧
          ∀ ep ∈ pml, ep.x = st.posStartX → ep.y = st.posStartY →
            eq.moveNum = ep.moveNum - 1 :=
  have hv : ValidGrid gridDetour 5 5 1 1 3 3 :=
    ⟨by decide, by decide, by decide, by decide, by decide,
      ⟨4, Walk.step (Walk.step (Walk.step (Walk.step (Walk.start (1, 1) (by decide))
        (r := (1, 2)) (by decide) (by decide)) (r := (1, 3)) (by decide) (by decide))
        (r := (2, 3)) (by decide) (by decide)) (r := (3, 3)) (by decide) (by decide)⟩⟩
  ⟨hv, C4_trace_step gridDetour 5 5 1 1 3 3 hv⟩

/-- C5: on every valid grid the sequence of positions `(posStartX, posStartY)`
takes during the trace loop begins at the Start position, ends at the Goal
position, has every consecutive pair 4-adjacent, and consists of exactly
`movesUsed` moves, `movesUsed` being the `moveNum` the search recorded for
Start. -/
theorem C5_traced_path_shape (grid : Grid) (rows cols : Nat) (sx sy dx dy : Int)
    (h : ValidGrid grid rows cols sx sy dx dy) :
    ∃ (d : Nat) (pml : List coordinate) (st : TraceState),
      (∀ fuel, d + 1 ≤ fuel →
        searchLoop grid sx sy fuel (initialMoves dx dy) = Outcome.ok pml) ∧
      (∀ fuel, d ≤ fuel →
        traceLoop pml dx dy fuel (traceStart grid sx sy) = Outcome.ok st) ∧
      st.visited.reverse.head? = some (sx, sy) ∧
      st.visited.reverse.getLast? = some (dx, dy) ∧
      st.visited.reverse.Chain' adjacent4 ∧
      (st.visited.reverse.length : Int) = st.movesUsed + 1 ∧
      (∃ e ∈ pml, e.x = sx ∧ e.y = sy) ∧
      ∀ e ∈ pml, e.x = sx → e.y = sy → e.moveNum = st.movesUsed := by
  obtain ⟨d, F, hd, hF, hfin⟩ := valid_search h
  obtain ⟨st, hst, hinv⟩ := valid_trace h hd hfin
  have hg := goal_passable h.goalO
  have hend : ¬ (st.posStartX ≠ dx ∨ st.posStartY ≠ dy) :=
    (hinv.at_goal_iff hfin hg).not.mpr (by simp)
  have hpos : (st.posStartX, st.posStartY) = (dx, dy) := by
    simp only [Prod.mk.injEq]; omega
  have hmoves : st.movesUsed = (d : Int) := by
    have := hinv.moves
    push_cast at this
    omega
  refine ⟨d, F, st, hF, hst, ?_, ?_, ?_, ?_, hfin.complete _ _ hd.1 (le_refl _), ?_⟩
  · rw [List.head?_reverse]; exact hinv.last
  · rw [List.getLast?_reverse, hinv.head, hpos]
  · rw [List.chain'_reverse]; exact hinv.chain
  · rw [List.length_reverse]; exact hinv.length
  · intro e he hx hy
    obtain ⟨n, hn, hdn⟩ := hfin.sound e he
    rw [hx, hy] at hdn
    rw [hn, hdn.unique hd, hmoves]

/-- Witness of C5 on the corridor grid. -/
theorem C5_traced_path_shape_witness :
    ValidGrid gridCorridor 5 3 2 1 1 1 ∧
    ∃ (d : Nat) (pml : List coordinate) (st : TraceState),
      (∀ fuel, d + 1 ≤ fuel →
        searchLoop gridCorridor 2 1 fuel (initialMoves 1 1) = Outcome.ok pml) ∧
      (∀ fuel, d ≤ fuel →
        traceLoop pml 1 1 fuel (traceStart gridCorridor 2 1) = Outcome.ok st) ∧
      st.visited.reverse.head? = some (2, 1) ∧
      st.visited.reverse.getLast? = some (1, 1) ∧
      st.visited.reverse.Chain' adjacent4 ∧
      (st.visited.reverse.length : Int) = st.movesUsed + 1 ∧
      (∃ e ∈ pml, e.x = 2 ∧ e.y = 1) ∧
      ∀ e ∈ pml, e.x = 2 → e.y = 1 → e.moveNum = st.movesUsed :=
  have hv : ValidGrid gridCorridor 5 3 2 1 1 1 :=
    ⟨by decide, by decide, by decide, by decide, by decide,
      ⟨1, Walk.step (Walk.start (2, 1) (by decide)) (r := (1, 1)) (by decide) (by decide)⟩⟩
  ⟨hv, C5_traced_path_shape gridCorridor 5 3 2 1 1 1 hv⟩

/-- C6 (counterexample): on `gridSeparated` (all-"X" border, the "X" at (2,1)
separates Start (3,1) from Goal (1,1)) the search loop does not exit, whatever
the number of passes, so nothing is reported. -/
theorem C6_counterexample :
    isRectangular gridSeparated 5 3 = true ∧ borderAllX gridSeparated 5 3 = true ∧
    (∀ n, ¬ Walk gridSeparated (3, 1) (1, 1) n) ∧
    ¬ ∃ fuel pml, searchLoop gridSeparated 3 1 fuel (initialMoves 1 1) = Outcome.ok pml := by
  have hstay : ∀ q n, Walk gridSeparated (1, 1) q n → q = (1, 1) := by
    intro q n hw
    induction hw with
    | start _ => rfl
    | @step q r n _ hadj hp ih =>
      subst ih
      obtain ⟨rx, ry⟩ := r
      simp only [adjacent4] at hadj
      have hr : (rx = 1 ∧ ry = 0) ∨ (rx = 1 ∧ ry = 2) ∨ (rx = 0 ∧ ry = 1) ∨ (rx = 2 ∧ ry = 1) := by
        omega
      rcases hr with ⟨rfl, rfl⟩ | ⟨rfl, rfl⟩ | ⟨rfl, rfl⟩ | ⟨rfl, rfl⟩ <;>
        exact absurd hp (by decide)
  have hsep : ∀ n, ¬ Walk gridSeparated (1, 1) (3, 1) n := by
    intro n hw
    have := hstay _ _ hw
    exact absurd this (by decide)
  refine ⟨by decide, by decide, fun n hw => hsep n hw.symm, ?_⟩
  rintro ⟨fuel, pml, h⟩
  rw [@searchLoop_unreachable gridSeparated 5 3 3 1 1 1 (by decide) (by decide) hsep fuel _
    (initialMoves_reach (by decide))] at h
  cases h

/-- C6 (amended): on a rectangular grid with an all-"X" border whose Goal cell
is not "X" and whose Start position is not connected to the Goal by
4-adjacent cells that are not "X", the search loop never exits: for every
number of passes allowed, the search (and so the whole pathfinding part) is
still running; no failure is reported and no path is produced. -/
theorem C6_unreachable_never_exits (grid : Grid) (rows cols : Nat) (sx sy dx dy : Int)
    (hrect : isRectangular grid rows cols = true) (hb : borderAllX grid rows cols = true)
    (hgoal : passable grid dx dy = true)
    (hsep : ¬ ∃ n, Walk grid (sx, sy) (dx, dy) n) :
    ∀ fuel, searchLoop grid sx sy fuel (initialMoves dx dy) = Outcome.outOfFuel ∧
      pathfind grid sx sy dx dy fuel = Outcome.outOfFuel := by
  intro fuel
  have hsep' : ∀ n, ¬ Walk grid (dx, dy) (sx, sy) n := fun n hw => hsep ⟨n, hw.symm⟩
  have := searchLoop_unreachable hrect hb hsep' fuel _ (initialMoves_reach hgoal)
  exact ⟨this, by simp only [pathfind, this]⟩

/-- Witness of the amended C6 on `gridSeparated`, Start (3,1) and Goal (1,1). -/
theorem C6_unreachable_never_exits_witness :
    isRectangular gridSeparated 5 3 = true ∧ borderAllX gridSeparated 5 3 = true ∧
    passable gridSeparated 1 1 = true ∧ (¬ ∃ n, Walk gridSeparated (3, 1) (1, 1) n) ∧
    ∀ fuel, searchLoop gridSeparated 3 1 fuel (initialMoves 1 1) = Outcome.outOfFuel ∧
      pathfind gridSeparated 3 1 1 1 fuel = Outcome.outOfFuel :=
  have hsep : ¬ ∃ n, Walk gridSeparated (3, 1) (1, 1) n := by
    have hstay : ∀ q n, Walk gridSeparated (3, 1) q n → q = (3, 1) := by
      intro q n hw
      induction hw with
      | start _ => rfl
      | @step q r n _ hadj hp ih =>
        subst ih
        obtain ⟨rx, ry⟩ := r
        simp only [adjacent4] at hadj
        have hr : (rx = 3 ∧ ry = 0) ∨ (rx = 3 ∧ ry = 2) ∨ (rx = 2 ∧ ry = 1) ∨
            (rx = 4 ∧ ry = 1) := by omega
        rcases hr with ⟨rfl, rfl⟩ | ⟨rfl, rfl⟩ | ⟨rfl, rfl⟩ | ⟨rfl, rfl⟩ <;>
          exact absurd hp (by decide)
    rintro ⟨n, hw⟩
    exact absurd (hstay _ _ hw) (by decide)
  ⟨by decide, by decide, by decide, hsep,
    C6_unreachable_never_exits gridSeparated 5 3 3 1 1 1 (by decide) (by decide) (by decide) hsep⟩

/-- C7: on the 5x5 grid with an "X" border, open interior except an "X" at
(2,2), Start at (1,1) and Goal "O" at (3,3), the search (which exits in its
fifth pass) records `moveNum` 4 for Start, and the trace uses exactly 4 moves
and visits exactly one of the two detour paths, namely
(1,1),(2,1),(3,1),(3,2),(3,3). -/
theorem C7_detour_scenario :
    ∃ (pml : List coordinate) (st : TraceState),
      searchLoop gridDetour 1 1 5 (initialMoves 3 3) = Outcome.ok pml ∧
      (∃ e ∈ pml, e.x = 1 ∧ e.y = 1) ∧
      (∀ e ∈ pml, e.x = 1 → e.y = 1 → e.moveNum = 4) ∧
      traceLoop pml 3 3 4 (traceStart gridDetour 1 1) = Outcome.ok st ∧
      st.movesUsed = 4 ∧
      Xor' (st.visited.reverse = [(1, 1), (2, 1), (3, 1), (3, 2), (3, 3)])
           (st.visited.reverse = [(1, 1), (1, 2), (1, 3), (2, 3), (3, 3)]) ∧
      st.visited.reverse = [(1, 1), (2, 1), (3, 1), (3, 2), (3, 3)] := by
  refine ⟨[⟨3, 3, 0⟩, ⟨3, 2, 1⟩, ⟨2, 3, 1⟩, ⟨3, 1, 2⟩, ⟨1, 3, 2⟩, ⟨2, 1, 3⟩, ⟨1, 2, 3⟩,
      ⟨1, 1, 4⟩],
    { grid := [ ["X", "X", "X", "X", "X"],
                ["X", "_", "_", "_", "X"],
                ["X", "_", "X", "_", "X"],
                ["X", "_", "_", "S", "X"],
                ["X", "X", "X", "X", "X"] ],
      posStartX := 3, posStartY := 3, movesUsed := 4,
      visited := [(3, 3), (3, 2), (3, 1), (2, 1), (1, 1)] },
    by decide, by decide, by decide, by decide, rfl, ?_, rfl⟩
  exact Or.inl ⟨rfl, by decide⟩

/-- C8: when the Goal cell is "O" (the all-"X" border is not needed for this),
at every point of the search `pathMovesList` has exactly one entry at the Goal
position: it is the entry at index 0 and its `moveNum` is 0. -/
theorem C8_goal_entry (grid : Grid) (sx sy dx dy : Int)
    (hgoal : cellAt grid dy dx = some "O") (st : SearchState)
    (hst : AtSearchPoint grid sx sy dx dy st) :
    st.pathMovesList.get? 0 = some { x := dx, y := dy, moveNum := 0 } ∧
    ∀ i e, st.pathMovesList.get? i = some e → e.x = dx → e.y = dy → i = 0 := by
  obtain ⟨p, k, pml, hp, _, hk⟩ := hst
  have h0 : GoalOnce dx dy (initialMoves dx dy) := ⟨[], rfl, fun _ h => by cases h⟩
  have h1 := passesRun_goalOnce hgoal p _ _ h0 hp
  obtain ⟨tail, htail, hno⟩ := searchFor_preserves (fun s => GoalOnce dx dy s.pathMovesList)
    (fun i s s' => searchBody_goalOnce hgoal i s s') _ _ _ _ h1 hk
  rw [htail]
  refine ⟨rfl, fun i e hi hx hy => ?_⟩
  cases i with
  | zero => rfl
  | succ i =>
    simp only [List.get?_cons_succ] at hi
    exact absurd ⟨hx, hy⟩ (hno e (List.get?_mem hi))

/-- Witness of C8: the point of the search on the 5x5 detour grid after one
complete pass and two iterations of the second pass. -/
theorem C8_goal_entry_witness :
    cellAt gridDetour 3 3 = some "O" ∧
    AtSearchPoint gridDetour 1 1 3 3
      { pathMovesList := [⟨3, 3, 0⟩, ⟨3, 2, 1⟩, ⟨2, 3, 1⟩, ⟨3, 1, 2⟩], searching := true } ∧
    (([⟨3, 3, 0⟩, ⟨3, 2, 1⟩, ⟨2, 3, 1⟩, ⟨3, 1, 2⟩] : List coordinate).get? 0
        = some { x := 3, y := 3, moveNum := 0 } ∧
      ∀ i e, ([⟨3, 3, 0⟩, ⟨3, 2, 1⟩, ⟨2, 3, 1⟩, ⟨3, 1, 2⟩] : List coordinate).get? i = some e →
        e.x = 3 → e.y = 3 → i = 0) :=
  have hpt : AtSearchPoint gridDetour 1 1 3 3
      { pathMovesList := [⟨3, 3, 0⟩, ⟨3, 2, 1⟩, ⟨2, 3, 1⟩, ⟨3, 1, 2⟩], searching := true } :=
    ⟨1, 2, [⟨3, 3, 0⟩, ⟨3, 2, 1⟩, ⟨2, 3, 1⟩], by decide, by decide, by decide⟩
  ⟨by decide, hpt, C8_goal_entry gridDetour 1 1 3 3 (by decide) _ hpt⟩

/-- C9 (counterexample): `gridCorridor` with Start (2,1) and Goal (1,1) is a
valid grid; the search exits in its second pass with the list
`[(1,1,0), (2,1,1)]`, in which the open cell (3,1), reachable from the Goal in
two moves, has no entry. -/
theorem C9_counterexample :
    ValidGrid gridCorridor 5 3 2 1 1 1 ∧
    searchLoop gridCorridor 2 1 2 (initialMoves 1 1)
      = Outcome.ok [⟨1, 1, 0⟩, ⟨2, 1, 1⟩] ∧
    passable gridCorridor 3 1 = true ∧
    Walk gridCorridor (1, 1) (3, 1) 2 ∧
    ¬ Recorded [⟨1, 1, 0⟩, ⟨2, 1, 1⟩] (3, 1) := by
  refine ⟨⟨by decide, by decide, by decide, by decide, by decide,
      ⟨1, Walk.step (Walk.start (2, 1) (by decide)) (r := (1, 1)) (by decide) (by decide)⟩⟩,
    by decide, by decide,
    Walk.step (Walk.step (Walk.start (1, 1) (by decide)) (r := (2, 1)) (by decide) (by decide))
      (r := (3, 1)) (by decide) (by decide), ?_⟩
  rintro ⟨e, he, hx, _⟩
  simp only [List.mem_cons, List.mem_singleton, List.not_mem_nil, or_false] at he
  rcases he with rfl | rfl <;> simp at hx

/-- C9 (amended): on every valid grid, when the search loop exits, every cell
that can be reached from the Goal through cells that are not "X" in at most
as many 4-directional moves as the Start cell (whose minimum distance from the
Goal is `d`) has an entry in `pathMovesList`, and that entry carries the
cell's minimum distance from the Goal. -/
theorem C9_labelled_up_to_start (grid : Grid) (rows cols : Nat) (sx sy dx dy : Int)
    (h : ValidGrid grid rows cols sx sy dx dy) :
    ∃ (d : Nat) (pml : List coordinate), IsDistance grid (dx, dy) (sx, sy) d ∧
      (∀ fuel, d + 1 ≤ fuel →
        searchLoop grid sx sy fuel (initialMoves dx dy) = Outcome.ok pml) ∧
      ∀ p n, Walk grid (dx, dy) p n → n ≤ d →
        ∃ e ∈ pml, e.x = p.1 ∧ e.y = p.2 ∧
          ∃ m : Nat, e.moveNum = (m : Int) ∧ IsDistance grid (dx, dy) p m := by
  obtain ⟨d, F, hd, hF, hfin⟩ := valid_search h
  refine ⟨d, F, hd, hF, fun p n hw hn => ?_⟩
  obtain ⟨e, he, hx, hy⟩ := hfin.complete p n hw hn
  obtain ⟨m, hm, hdm⟩ := hfin.sound e he
  rw [hx, hy] at hdm
  exact ⟨e, he, hx, hy, m, hm, hdm⟩

/-- Witness of the amended C9 on the corridor grid. -/
theorem C9_labelled_up_to_start_witness :
    ValidGrid gridCorridor 5 3 2 1 1 1 ∧
    ∃ (d : Nat) (pml : List coordinate), IsDistance gridCorridor (1, 1) (2, 1) d ∧
      (∀ fuel, d + 1 ≤ fuel →
        searchLoop gridCorridor 2 1 fuel (initialMoves 1 1) = Outcome.ok pml) ∧
      ∀ p n, Walk gridCorridor (1, 1) p n → n ≤ d →
        ∃ e ∈ pml, e.x = p.1 ∧ e.y = p.2 ∧
          ∃ m : Nat, e.moveNum = (m : Int) ∧ IsDistance gridCorridor (1, 1) p m :=
  have hv : ValidGrid gridCorridor 5 3 2 1 1 1 :=
    ⟨by decide, by decide, by decide, by decide, by decide,
      ⟨1, Walk.step (Walk.start (2, 1) (by decide)) (r := (1, 1)) (by decide) (by decide)⟩⟩
  ⟨hv, C9_labelled_up_to_start gridCorridor 5 3 2 1 1 1 hv⟩

/-- C10: when the Start position equals the Goal position `(x, y)`, on any
grid, the first pass of the search sets `searching` to false and leaves
`pathMovesList` holding only that cell with `moveNum` 0, so the search loop
exits after its first pass; the trace loop exits without running its body
(no fuel is needed), the visited sequence is that one cell and `movesUsed`
is 0. -/
theorem C10_start_is_goal (grid : Grid) (x y : Int) :
    searchPass grid x y (initialMoves x y)
      = Outcome.ok { pathMovesList := [{ x := x, y := y, moveNum := 0 }], searching := false } ∧
    searchLoop grid x y 1 (initialMoves x y) = Outcome.ok [{ x := x, y := y, moveNum := 0 }] ∧
    traceLoop [{ x := x, y := y, moveNum := 0 }] x y 0 (traceStart grid x y)
      = Outcome.ok (traceStart grid x y) ∧
    (traceStart grid x y).visited = [(x, y)] ∧
    (traceStart grid x y).movesUsed = 0 ∧
    pathfind grid x y x y 1 = Outcome.ok (traceStart grid x y) := by
  have hpass : searchPass grid x y (initialMoves x y)
      = Outcome.ok { pathMovesList := [{ x := x, y := y, moveNum := 0 }], searching := false } := by
    simp [searchPass, searchFor, searchBody, initialMoves]
  have hloop : searchLoop grid x y 1 (initialMoves x y)
      = Outcome.ok [{ x := x, y := y, moveNum := 0 }] := by
    simp [searchLoop, hpass]
  have htrace : ∀ fuel, traceLoop [{ x := x, y := y, moveNum := 0 }] x y fuel (traceStart grid x y)
      = Outcome.ok (traceStart grid x y) := by
    intro fuel
    cases fuel <;> simp [traceLoop, traceStart]
  refine ⟨hpass, hloop, htrace 0, rfl, rfl, ?_⟩
  simp only [pathfind, hloop, htrace]

/-- C11 (the code at the failing input): on the 10x10 grid of `main` with the
draws `drawsBorder` the generation part returns, and the border cell
`grid[1][9]` (last index of the x axis) is "_": with the trace position at
x = 8 = posDestX the sideways step `Inc::ADD`, allowed by the guard
`tracePosStartX < rows - 1`, has carved it. -/
theorem C11_border_overwritten :
    ∃ st, generate 10 10 drawsBorder = Outcome.ok st ∧
      cellAt st.grid 1 9 = some "_" ∧ borderAllX st.grid 10 10 = false := by
  refine ⟨{ grid := [ ["X", "X", "X", "X", "X", "X", "X", "X", "X", "X"],
                      ["X", "X", "X", "X", "X", "X", "X", "X", "_", "_"],
                      ["X", "X", "X", "X", "X", "X", "X", "X", "_", "X"],
                      ["X", "X", "X", "X", "X", "X", "X", "X", "_", "X"],
                      ["X", "X", "X", "X", "X", "X", "X", "X", "_", "X"],
                      ["X", "X", "X", "X", "X", "X", "X", "X", "_", "X"],
                      ["X", "X", "X", "X", "X", "X", "X", "X", "_", "X"],
                      ["X", "X", "X", "X", "X", "X", "X", "X", "_", "X"],
                      ["X", "X", "X", "X", "X", "X", "X", "X", "O", "X"],
                      ["X", "X", "X", "X", "X", "X", "X", "X", "X", "X"] ],
              tracePosStartX := 8, tracePosStartY := 8, posStartX := 8, posStartY := 1,
              posDestX := 8, posDestY := 8 }, by decide, by decide, by decide⟩

/-- C12: for every `rows, cols >= 3` and every sequence of draws for which the
generation part returns, the resulting grid holds a walk of 4-adjacent cells,
none of them "X", from the Start position to the Goal position. -/
theorem C12_corridor_reachable (rows cols : Nat) (hr : 3 ≤ rows) (hc : 3 ≤ cols)
    (draws : List Nat) (st : GenState) (h : generate rows cols draws = Outcome.ok st) :
    ∃ n, Walk st.grid (st.posStartX, st.posStartY) (st.posDestX, st.posDestY) n := by
  obtain ⟨hinv, hx, hy⟩ := generate_spec hr hc h
  obtain ⟨n, hw⟩ := hinv.walk
  rw [hx, hy] at hw
  exact ⟨n, hw⟩

/-- Witness of C12: the run `drawsSmall` on a 4x4 grid. -/
theorem C12_corridor_reachable_witness :
    generate 4 4 drawsSmall = Outcome.ok
      { grid := [ ["X", "X", "X", "X"], ["X", "S", "_", "X"], ["X", "_", "O", "X"],
                  ["X", "X", "X", "X"] ],
        tracePosStartX := 2, tracePosStartY := 2, posStartX := 1, posStartY := 1,
        posDestX := 2, posDestY := 2 } ∧
    ∃ n, Walk [ ["X", "X", "X", "X"], ["X", "S", "_", "X"], ["X", "_", "O", "X"],
                ["X", "X", "X", "X"] ] (1, 1) (2, 2) n :=
  have hrun : generate 4 4 drawsSmall = Outcome.ok
      { grid := [ ["X", "X", "X", "X"], ["X", "S", "_", "X"], ["X", "_", "O", "X"],
                  ["X", "X", "X", "X"] ],
        tracePosStartX := 2, tracePosStartY := 2, posStartX := 1, posStartY := 1,
        posDestX := 2, posDestY := 2 } := by decide
  ⟨hrun, C12_corridor_reachable 4 4 (by decide) (by decide) drawsSmall _ hrun⟩

/-- C13 (the code at the failing input): on the 10x10 grid of `main` with the
draws `drawsLostStart` the generation part returns with Start position (8,1),
and no cell of the grid is "S": the carving walk stepped sideways from the
Start cell to (7,1) and came back, and on coming back wrote "_" over the "S"
(the test before the write is `!= "O"` only). -/
theorem C13_start_overwritten :
    ∃ st, generate 10 10 drawsLostStart = Outcome.ok st ∧
      (st.posStartX, st.posStartY) = (8, 1) ∧ cellAt st.grid 1 8 = some "_" ∧
      ∀ row ∈ st.grid, "S" ∉ row := by
  refine ⟨{ grid := [ ["X", "X", "X", "X", "X", "X", "X", "X", "X", "X"],
                      ["X", "X", "X", "X", "X", "X", "X", "_", "_", "X"],
                      ["X", "X", "X", "X", "X", "X", "X", "X", "_", "X"],
                      ["X", "X", "X", "X", "X", "X", "X", "X", "_", "X"],
                      ["X", "X", "X", "X", "X", "X", "X", "X", "_", "X"],
                      ["X", "X", "X", "X", "X", "X", "X", "X", "_", "X"],
                      ["X", "X", "X", "X", "X", "X", "X", "X", "_", "X"],
                      ["X", "X", "X", "X", "X", "X", "X", "X", "_", "X"],
                      ["X", "X", "X", "X", "X", "X", "X", "X", "O", "X"],
                      ["X", "X", "X", "X", "X", "X", "X", "X", "X", "X"] ],
              tracePosStartX := 8, tracePosStartY := 8, posStartX := 8, posStartY := 1,
              posDestX := 8, posDestY := 8 }, by decide, rfl, by decide, by decide⟩

/-- C14: on every rectangular grid with an all-"X" border and an interior
Goal, at every point of the search no two entries of `pathMovesList` are at
the same position, and the search only appends to the list: the initial list
is a prefix of the list at every point, and the list before an iteration is a
prefix of the list after it, so an entry once appended is never changed or
removed. -/
theorem C14_no_position_twice (grid : Grid) (rows cols : Nat) (sx sy dx dy : Int)
    (hrect : isRectangular grid rows cols = true) (hb : borderAllX grid rows cols = true)
    (hg : InteriorPos rows cols dx dy) (st : SearchState)
    (hst : AtSearchPoint grid sx sy dx dy st) :
    st.pathMovesList.Pairwise (fun a b => ¬ (a.x = b.x ∧ a.y = b.y)) ∧
    initialMoves dx dy <+: st.pathMovesList ∧
    ∀ i st', searchBody grid sx sy i st = Outcome.ok st' →
      st.pathMovesList <+: st'.pathMovesList := by
  obtain ⟨k, L0, i, hL, hi, hinv⟩ := atSearchPoint_queue hrect hb hg hst
  refine ⟨hinv.distinct, ?_, fun j st' h => searchBody_extends h⟩
  exact atSearchPoint_preserves (fun l => initialMoves dx dy <+: l)
    (fun i s s' hP h => List.IsPrefix.trans hP (searchBody_extends h)) (List.prefix_refl _) hst

/-- Witness of C14: the point of the search on the 5x5 detour grid after two
complete passes and three iterations of the third pass. -/
theorem C14_no_position_twice_witness :
    isRectangular gridDetour 5 5 = true ∧ borderAllX gridDetour 5 5 = true ∧
    InteriorPos 5 5 3 3 ∧
    AtSearchPoint gridDetour 1 1 3 3
      { pathMovesList := [⟨3, 3, 0⟩, ⟨3, 2, 1⟩, ⟨2, 3, 1⟩, ⟨3, 1, 2⟩, ⟨1, 3, 2⟩],
        searching := true } ∧
    (([⟨3, 3, 0⟩, ⟨3, 2, 1⟩, ⟨2, 3, 1⟩, ⟨3, 1, 2⟩, ⟨1, 3, 2⟩] : List coordinate).Pairwise
        (fun a b => ¬ (a.x = b.x ∧ a.y = b.y)) ∧
      initialMoves 3 3 <+: [⟨3, 3, 0⟩, ⟨3, 2, 1⟩, ⟨2, 3, 1⟩, ⟨3, 1, 2⟩, ⟨1, 3, 2⟩] ∧
      ∀ i st', searchBody gridDetour 1 1 i
          { pathMovesList := [⟨3, 3, 0⟩, ⟨3, 2, 1⟩, ⟨2, 3, 1⟩, ⟨3, 1, 2⟩, ⟨1, 3, 2⟩],
            searching := true } = Outcome.ok st' →
        ([⟨3, 3, 0⟩, ⟨3, 2, 1⟩, ⟨2, 3, 1⟩, ⟨3, 1, 2⟩, ⟨1, 3, 2⟩] : List coordinate)
          <+: st'.pathMovesList) :=
  have hpt : AtSearchPoint gridDetour 1 1 3 3
      { pathMovesList := [⟨3, 3, 0⟩, ⟨3, 2, 1⟩, ⟨2, 3, 1⟩, ⟨3, 1, 2⟩, ⟨1, 3, 2⟩],
        searching := true } :=
    ⟨2, 3, [⟨3, 3, 0⟩, ⟨3, 2, 1⟩, ⟨2, 3, 1⟩, ⟨3, 1, 2⟩, ⟨1, 3, 2⟩], by decide, by decide,
      by decide⟩
  ⟨by decide, by decide, by decide, hpt,
    C14_no_position_twice gridDetour 5 5 1 1 3 3 (by decide) (by decide) (by decide) _ hpt⟩

/-- C15 (counterexample): on the 5x5 detour grid the Start (1,1), recorded
with `moveNum` 4, has two neighbours recorded with `moveNum` 3: (1,2) below
and (2,1) to the right. The priority up, down, left, right selects (1,2); the
trace loop moves to (2,1), whose entry comes first in `pathMovesList`. -/
theorem C15_counterexample :
    searchLoop gridDetour 1 1 5 (initialMoves 3 3)
      = Outcome.ok [⟨3, 3, 0⟩, ⟨3, 2, 1⟩, ⟨2, 3, 1⟩, ⟨3, 1, 2⟩, ⟨1, 3, 2⟩, ⟨2, 1, 3⟩,
          ⟨1, 2, 3⟩, ⟨1, 1, 4⟩] ∧
    priorityChoice [⟨3, 3, 0⟩, ⟨3, 2, 1⟩, ⟨2, 3, 1⟩, ⟨3, 1, 2⟩, ⟨1, 3, 2⟩, ⟨2, 1, 3⟩,
          ⟨1, 2, 3⟩, ⟨1, 1, 4⟩] 1 1 4 = some (1, 2) ∧
    ∃ st, traceFor [⟨3, 3, 0⟩, ⟨3, 2, 1⟩, ⟨2, 3, 1⟩, ⟨3, 1, 2⟩, ⟨1, 3, 2⟩, ⟨2, 1, 3⟩,
          ⟨1, 2, 3⟩, ⟨1, 1, 4⟩] (traceStart gridDetour 1 1) = Outcome.ok st ∧
      (st.posStartX, st.posStartY) = (2, 1) := by
  refine ⟨by decide, by decide,
    { grid := [ ["X", "X", "X", "X", "X"],
                ["X", "_", "S", "_", "X"],
                ["X", "_", "X", "_", "X"],
                ["X", "_", "_", "O", "X"],
                ["X", "X", "X", "X", "X"] ],
      posStartX := 2, posStartY := 1, movesUsed := 1, visited := [(2, 1), (1, 1)] },
    by decide, rfl⟩

/-- C15 (amended): whatever the list and the trace state, one run of the
`for next` loop moves to the position of the first entry of `pathMovesList`
that is 4-adjacent to the current position (and does nothing when there is
none); so among several neighbours recorded with a `moveNum` one less the
choice falls on the one that comes first in the list, and the order of the
tests UP, DOWN, LEFT, RIGHT plays no part. -/
theorem C15_first_in_list (pml : List coordinate) (st : TraceState) :
    traceFor pml st =
      match pml.find? (adjacentTo st.posStartX st.posStartY) with
      | none => Outcome.ok st
      | some e => moveTo st e.x e.y :=
  traceFor_eq pml st

/-- C16: for every grid, every `pathMovesList` and every `adjacents` list
whose coordinates are in bounds, the erase-and-restart recursion of
`eraseDuplicateNodes` terminates (a recursion depth of `adjacents.size() + 1`
is enough) and leaves in `adjacents` exactly, in their original order, the
candidates on a cell that is neither "X" nor "O" for which `pathMovesList` has
no entry at the same position with a `moveNum` not larger. `pathMovesList` is
only read by the function: the embedding takes it as a value and returns the
new `adjacents` alone. -/
theorem C16_erase_is_filter (grid : Grid) (pml adjacents : List coordinate)
    (hin : ∀ c ∈ adjacents, cellAt grid c.y c.x ≠ none) :
    eraseDuplicateNodes grid pml adjacents
      = Outcome.ok (adjacents.filter (keepCandidate grid pml)) ∧
    (∀ fuel, adjacents.length < fuel →
      eraseDuplicateNodesFuel grid pml fuel adjacents
        = Outcome.ok (adjacents.filter (keepCandidate grid pml))) ∧
    ∀ c, keepCandidate grid pml c = true ↔
      ((∃ s, cellAt grid c.y c.x = some s ∧ s ≠ "X" ∧ s ≠ "O") ∧
        ¬ ∃ m ∈ pml, m.x = c.x ∧ m.y = c.y ∧ m.moveNum ≤ c.moveNum) := by
  refine ⟨eraseDuplicateNodesFuel_eq_filter grid pml _ adjacents (Nat.lt_succ_self _) hin,
    fun fuel hf => eraseDuplicateNodesFuel_eq_filter grid pml fuel adjacents hf hin, ?_⟩
  intro c
  rw [← hasShorterMove_iff]
  unfold keepCandidate
  cases h : cellAt grid c.y c.x with
  | none => simp
  | some s => simp [and_assoc]

/-- Witness of C16: the four candidates around the Goal of the 5x5 detour grid
at the start of the search. -/
theorem C16_erase_is_filter_witness :
    (∀ c ∈ adjacentsOf ⟨3, 3, 0⟩, cellAt gridDetour c.y c.x ≠ none) ∧
    (eraseDuplicateNodes gridDetour (initialMoves 3 3) (adjacentsOf ⟨3, 3, 0⟩)
      = Outcome.ok ((adjacentsOf ⟨3, 3, 0⟩).filter (keepCandidate gridDetour (initialMoves 3 3))) ∧
    (∀ fuel, (adjacentsOf ⟨3, 3, 0⟩).length < fuel →
      eraseDuplicateNodesFuel gridDetour (initialMoves 3 3) fuel (adjacentsOf ⟨3, 3, 0⟩)
        = Outcome.ok ((adjacentsOf ⟨3, 3, 0⟩).filter
            (keepCandidate gridDetour (initialMoves 3 3)))) ∧
    ∀ c, keepCandidate gridDetour (initialMoves 3 3) c = true ↔
      ((∃ s, cellAt gridDetour c.y c.x = some s ∧ s ≠ "X" ∧ s ≠ "O") ∧
        ¬ ∃ m ∈ initialMoves 3 3, m.x = c.x ∧ m.y = c.y ∧ m.moveNum ≤ c.moveNum)) :=
  have hin : ∀ c ∈ adjacentsOf ⟨3, 3, 0⟩, cellAt gridDetour c.y c.x ≠ none := by decide
  ⟨hin, C16_erase_is_filter gridDetour (initialMoves 3 3) (adjacentsOf ⟨3, 3, 0⟩) hin⟩

/-- C17: for every `rows, cols >= 3` and every sequence of draws for which the
generation part returns, the resulting grid has exactly one cell equal to
"O", the cell at `(posDestX, posDestY)`, and that position differs from
`(posStartX, posStartY)`: the carving walk has not written over the "O". -/
theorem C17_one_goal (rows cols : Nat) (hr : 3 ≤ rows) (hc : 3 ≤ cols)
    (draws : List Nat) (st : GenState) (h : generate rows cols draws = Outcome.ok st) :
    cellAt st.grid st.posDestY st.posDestX = some "O" ∧
    (∀ y x, cellAt st.grid y x = some "O" → x = st.posDestX ∧ y = st.posDestY) ∧
    (st.posDestX, st.posDestY) ≠ (st.posStartX, st.posStartY) := by
  obtain ⟨hinv, _, _⟩ := generate_spec hr hc h
  refine ⟨hinv.goalO, hinv.onlyO, fun he => ?_⟩
  simp only [Prod.mk.injEq] at he
  exact hinv.startNeDest he

/-- Witness of C17: the run `drawsBorder` on the 10x10 grid of `main`. -/
theorem C17_one_goal_witness :
    ∃ st, generate 10 10 drawsBorder = Outcome.ok st ∧
      cellAt st.grid st.posDestY st.posDestX = some "O" ∧
      (∀ y x, cellAt st.grid y x = some "O" → x = st.posDestX ∧ y = st.posDestY) ∧
      (st.posDestX, st.posDestY) ≠ (st.posStartX, st.posStartY) :=
  have hrun : generate 10 10 drawsBorder = Outcome.ok
      { grid := [ ["X", "X", "X", "X", "X", "X", "X", "X", "X", "X"],
                  ["X", "X", "X", "X", "X", "X", "X", "X", "_", "_"],
                  ["X", "X", "X", "X", "X", "X", "X", "X", "_", "X"],
                  ["X", "X", "X", "X", "X", "X", "X", "X", "_", "X"],
                  ["X", "X", "X", "X", "X", "X", "X", "X", "_", "X"],
                  ["X", "X", "X", "X", "X", "X", "X", "X", "_", "X"],
                  ["X", "X", "X", "X", "X", "X", "X", "X", "_", "X"],
                  ["X", "X", "X", "X", "X", "X", "X", "X", "_", "X"],
                  ["X", "X", "X", "X", "X", "X", "X", "X", "O", "X"],
                  ["X", "X", "X", "X", "X", "X", "X", "X", "X", "X"] ],
        tracePosStartX := 8, tracePosStartY := 8, posStartX := 8, posStartY := 1,
        posDestX := 8, posDestY := 8 } := by decide
  ⟨_, hrun, C17_one_goal 10 10 (by decide) (by decide) drawsBorder _ hrun⟩

/-- C18: on every valid grid whose Start cell is the one cell holding "S",
every iteration of the trace loop leaves a grid in which exactly one cell is
"S", the current position, in which the cell just left is "_", and in which
every cell not on the traced path is as before the trace; and the trace loop
ends with "S" at the Goal position and no cell holding "O". -/
theorem C18_trace_frame (grid : Grid) (rows cols : Nat) (sx sy dx dy : Int)
    (h : ValidGrid grid rows cols sx sy dx dy)
    (hS : onlyStartIsS grid rows cols sx sy = true) :
    ∃ (d : Nat) (pml : List coordinate) (stEnd : TraceState),
      (∀ fuel, d + 1 ≤ fuel →
        searchLoop grid sx sy fuel (initialMoves dx dy) = Outcome.ok pml) ∧
      (∀ n st, traceIter pml dx dy n (traceStart grid sx sy) = some st →
        (st.posStartX ≠ dx ∨ st.posStartY ≠ dy) →
        ∃ st', traceFor pml st = Outcome.ok st' ∧
          (∀ y x, cellAt st'.grid y x = some "S" ↔ (x = st'.posStartX ∧ y = st'.posStartY)) ∧
          cellAt st'.grid st.posStartY st.posStartX = some "_" ∧
          ∀ y x, (x, y) ∉ st'.visited → cellAt st'.grid y x = cellAt grid y x) ∧
      (∀ fuel, d ≤ fuel →
        traceLoop pml dx dy fuel (traceStart grid sx sy) = Outcome.ok stEnd) ∧
      cellAt stEnd.grid dy dx = some "S" ∧
      ∀ y x, cellAt stEnd.grid y x ≠ some "O" := by
  obtain ⟨d, F, hd, hF, hfin⟩ := valid_search h
  obtain ⟨stEnd, hEnd, hinvEnd⟩ := valid_trace h hd hfin
  have hg := goal_passable h.goalO
  have hSc : cellAt grid sy sx = some "S" := by
    simp only [onlyStartIsS, Bool.and_eq_true, decide_eq_true_eq] at hS
    exact hS.1
  have hstep : ∀ s s', TraceFrame grid (sx, sy) s → traceFor F s = Outcome.ok s' →
      TraceFrame grid (sx, sy) s' := fun s s' hP hs => traceFrame_step hP hs
  have h0 := traceFrame_start hSc
  refine ⟨d, F, stEnd, hF, ?_, hEnd, ?_, ?_⟩
  · intro n st hst hne
    have hfr := @traceIter_preserves F dx dy _ hstep n _ st h0 hst
    obtain ⟨m, hinv⟩ := traceIter_inv hfin hg n _ st d (traceInv_start hfin hd) hst
    have hm := (hinv.at_goal_iff hfin hg).mp hne
    obtain ⟨m', rfl⟩ : ∃ m', m = m' + 1 := ⟨m - 1, by omega⟩
    obtain ⟨st', e, h1, _, _, hex, hey, _, hadj, hfind⟩ := traceInv_step hfin hinv
    have hfr' := traceFrame_step hfr h1
    refine ⟨st', h1, hfr'.onlyS h.rect hS, ?_, ?_⟩
    · rw [traceFor_eq, hfind] at h1
      obtain ⟨hx, hy, _, _, hcells⟩ := moveTo_spec h1
      rw [hcells]
      have hne' : ¬ (st.posStartY = e.y ∧ st.posStartX = e.x) := by
        rintro ⟨h2, h3⟩
        rw [← hex, ← hey] at hadj
        simp only [adjacent4] at hadj
        omega
      rw [if_neg hne', if_pos ⟨rfl, rfl⟩]
    · intro y x hnv
      rw [hfr'.cells]
      have hne' : ¬ (x = st'.posStartX ∧ y = st'.posStartY) := by
        rintro ⟨h2, h3⟩
        rw [h2, h3] at hnv
        exact hnv hfr'.curVisited
      rw [if_neg hne', if_neg hnv]
  · have hfr := @traceLoop_preserves F dx dy _ hstep d _ stEnd h0
      (hEnd d (le_refl _))
    have hend : ¬ (stEnd.posStartX ≠ dx ∨ stEnd.posStartY ≠ dy) :=
      (hinvEnd.at_goal_iff hfin hg).not.mpr (by simp)
    rw [hfr.cells, if_pos (by omega)]
  · intro y x
    have hfr := @traceLoop_preserves F dx dy _ hstep d _ stEnd h0
      (hEnd d (le_refl _))
    have hend : ¬ (stEnd.posStartX ≠ dx ∨ stEnd.posStartY ≠ dy) :=
      (hinvEnd.at_goal_iff hfin hg).not.mpr (by simp)
    rw [hfr.cells]
    split
    · decide
    · rename_i hne
      split
      · decide
      · intro hc
        obtain ⟨h1, h2⟩ := cell_O_is_goal h.rect h.goalO hc
        exact hne (by omega)

/-- Witness of C18 on the corridor grid. -/
theorem C18_trace_frame_witness :
    ValidGrid gridCorridor 5 3 2 1 1 1 ∧ onlyStartIsS gridCorridor 5 3 2 1 = true ∧
    ∃ (d : Nat) (pml : List coordinate) (stEnd : TraceState),
      (∀ fuel, d + 1 ≤ fuel →
        searchLoop gridCorridor 2 1 fuel (initialMoves 1 1) = Outcome.ok pml) ∧
      (∀ n st, traceIter pml 1 1 n (traceStart gridCorridor 2 1) = some st →
        (st.posStartX ≠ 1 ∨ st.posStartY ≠ 1) →
        ∃ st', traceFor pml st = Outcome.ok st' ∧
          (∀ y x, cellAt st'.grid y x = some "S" ↔ (x = st'.posStartX ∧ y = st'.posStartY)) ∧
          cellAt st'.grid st.posStartY st.posStartX = some "_" ∧
          ∀ y x, (x, y) ∉ st'.visited → cellAt st'.grid y x = cellAt gridCorridor y x) ∧
      (∀ fuel, d ≤ fuel →
        traceLoop pml 1 1 fuel (traceStart gridCorridor 2 1) = Outcome.ok stEnd) ∧
      cellAt stEnd.grid 1 1 = some "S" ∧
      ∀ y x, cellAt stEnd.grid y x ≠ some "O" :=
  have hv : ValidGrid gridCorridor 5 3 2 1 1 1 :=
    ⟨by decide, by decide, by decide, by decide, by decide,
      ⟨1, Walk.step (Walk.start (2, 1) (by decide)) (r := (1, 1)) (by decide) (by decide)⟩⟩
  ⟨hv, by decide, C18_trace_frame gridCorridor 5 3 2 1 1 1 hv (by decide)⟩

/-- C19: on every rectangular grid with an all-"X" border and an interior
Goal, at every point of the search the four candidates built from any entry
of `pathMovesList` have `0 <= y < cols` and `0 <= x < rows`, so every access
`grid[adjacents[adj].y][adjacents[adj].x]` of `eraseDuplicateNodes` is in
range; accordingly every prefix of every pass runs without an out-of-range
access, and the search loop never ends in one. -/
theorem C19_index_safety (grid : Grid) (rows cols : Nat) (sx sy dx dy : Int)
    (hrect : isRectangular grid rows cols = true) (hb : borderAllX grid rows cols = true)
    (hg : InteriorPos rows cols dx dy) :
    (∀ st, AtSearchPoint grid sx sy dx dy st → ∀ e ∈ st.pathMovesList,
      ∀ c ∈ adjacentsOf e,
        (0 ≤ c.y ∧ c.y < (cols : Int) ∧ 0 ≤ c.x ∧ c.x < (rows : Int)) ∧
        cellAt grid c.y c.x ≠ none) ∧
    (∀ p pml, passesRun grid sx sy p (initialMoves dx dy) = some pml →
      ∀ k, k ≤ pml.length →
        ∃ st, searchFor grid sx sy k 0 { pathMovesList := pml, searching := true }
          = Outcome.ok st) ∧
    ∀ fuel, searchLoop grid sx sy fuel (initialMoves dx dy) ≠ Outcome.fault := by
  refine ⟨?_, ?_, ?_⟩
  · intro st hst e he c hc
    obtain ⟨k, L0, i, hL, hi, hinv⟩ := atSearchPoint_queue hrect hb hg hst
    exact ⟨adjacentsOf_bounds_of_interior (hinv.interior e he) c hc,
      adjacentsOf_inBounds_of_interior hrect (hinv.interior e he) c hc⟩
  · intro p pml hp k hk
    have hL := passesRun_queueInv hrect hb p 0 _ _ (queueInv_initial hg) hp
    obtain ⟨st, hst, _⟩ := @queuePass_spec grid rows cols sx sy hrect hb _ pml hL k hk
    exact ⟨st, hst⟩
  · intro fuel
    exact searchLoop_no_fault hrect hb fuel 0 _ (queueInv_initial hg)

/-- Witness of C19 on the grid whose Start cannot be reached. -/
theorem C19_index_safety_witness :
    isRectangular gridSeparated 5 3 = true ∧ borderAllX gridSeparated 5 3 = true ∧
    InteriorPos 5 3 1 1 ∧
    ((∀ st, AtSearchPoint gridSeparated 3 1 1 1 st → ∀ e ∈ st.pathMovesList,
      ∀ c ∈ adjacentsOf e,
        (0 ≤ c.y ∧ c.y < ((3 : Nat) : Int) ∧ 0 ≤ c.x ∧ c.x < ((5 : Nat) : Int)) ∧
        cellAt gridSeparated c.y c.x ≠ none) ∧
    (∀ p pml, passesRun gridSeparated 3 1 p (initialMoves 1 1) = some pml →
      ∀ k, k ≤ pml.length →
        ∃ st, searchFor gridSeparated 3 1 k 0 { pathMovesList := pml, searching := true }
          = Outcome.ok st) ∧
    ∀ fuel, searchLoop gridSeparated 3 1 fuel (initialMoves 1 1) ≠ Outcome.fault) :=
  ⟨by decide, by decide, by decide,
    C19_index_safety gridSeparated 5 3 3 1 1 1 (by decide) (by decide) (by decide)⟩

/-- C20: on every rectangular grid with an all-"X" border and an interior
Goal, at every point of the search the `moveNum` values of `pathMovesList` do
not decrease along the list and grow by at most 1 from one entry to the next;
so the first list entry adjacent to any position has the least `moveNum` of
all list entries adjacent to that position. -/
theorem C20_level_order (grid : Grid) (rows cols : Nat) (sx sy dx dy : Int)
    (hrect : isRectangular grid rows cols = true) (hb : borderAllX grid rows cols = true)
    (hg : InteriorPos rows cols dx dy) (st : SearchState)
    (hst : AtSearchPoint grid sx sy dx dy st) :
    st.pathMovesList.Pairwise (fun a b => a.moveNum ≤ b.moveNum) ∧
    st.pathMovesList.Chain' (fun a b => a.moveNum ≤ b.moveNum ∧ b.moveNum ≤ a.moveNum + 1) ∧
    ∀ px py e, st.pathMovesList.find? (adjacentTo px py) = some e →
      ∀ b ∈ st.pathMovesList, adjacentTo px py b = true → e.moveNum ≤ b.moveNum := by
  obtain ⟨k, L0, i, hL, hi, hinv⟩ := atSearchPoint_queue hrect hb hg hst
  have hs := hinv.levelSorted hL
  exact ⟨hs, hinv.steps, fun px py e hf b hb' hPb => find?_levelSorted_le hs hf hb' hPb⟩

/-- Witness of C20: the point of the search on the 5x5 detour grid after three
complete passes and five iterations of the fourth pass. -/
theorem C20_level_order_witness :
    isRectangular gridDetour 5 5 = true ∧ borderAllX gridDetour 5 5 = true ∧
    InteriorPos 5 5 3 3 ∧
    AtSearchPoint gridDetour 1 1 3 3
      { pathMovesList := [⟨3, 3, 0⟩, ⟨3, 2, 1⟩, ⟨2, 3, 1⟩, ⟨3, 1, 2⟩, ⟨1, 3, 2⟩, ⟨2, 1, 3⟩,
          ⟨1, 2, 3⟩],
        searching := true } ∧
    (([⟨3, 3, 0⟩, ⟨3, 2, 1⟩, ⟨2, 3, 1⟩, ⟨3, 1, 2⟩, ⟨1, 3, 2⟩, ⟨2, 1, 3⟩,
          ⟨1, 2, 3⟩] : List coordinate).Pairwise (fun a b => a.moveNum ≤ b.moveNum) ∧
      ([⟨3, 3, 0⟩, ⟨3, 2, 1⟩, ⟨2, 3, 1⟩, ⟨3, 1, 2⟩, ⟨1, 3, 2⟩, ⟨2, 1, 3⟩,
          ⟨1, 2, 3⟩] : List coordinate).Chain'
        (fun a b => a.moveNum ≤ b.moveNum ∧ b.moveNum ≤ a.moveNum + 1) ∧
      ∀ px py e, ([⟨3, 3, 0⟩, ⟨3, 2, 1⟩, ⟨2, 3, 1⟩, ⟨3, 1, 2⟩, ⟨1, 3, 2⟩, ⟨2, 1, 3⟩,
          ⟨1, 2, 3⟩] : List coordinate).find? (adjacentTo px py) = some e →
        ∀ b ∈ ([⟨3, 3, 0⟩, ⟨3, 2, 1⟩, ⟨2, 3, 1⟩, ⟨3, 1, 2⟩, ⟨1, 3, 2⟩, ⟨2, 1, 3⟩,
          ⟨1, 2, 3⟩] : List coordinate), adjacentTo px py b = true →
          e.moveNum ≤ b.moveNum) :=
  have hpt : AtSearchPoint gridDetour 1 1 3 3
      { pathMovesList := [⟨3, 3, 0⟩, ⟨3, 2, 1⟩, ⟨2, 3, 1⟩, ⟨3, 1, 2⟩, ⟨1, 3, 2⟩, ⟨2, 1, 3⟩,
          ⟨1, 2, 3⟩],
        searching := true } :=
    ⟨3, 5, [⟨3, 3, 0⟩, ⟨3, 2, 1⟩, ⟨2, 3, 1⟩, ⟨3, 1, 2⟩, ⟨1, 3, 2⟩, ⟨2, 1, 3⟩, ⟨1, 2, 3⟩],
      by decide, by decide, by decide⟩
  ⟨by decide, by decide, by decide, hpt,
    C20_level_order gridDetour 5 5 1 1 3 3 (by decide) (by decide) (by decide) _ hpt⟩

end Pathfinding
